import Mathlib

/-!
# SquareMat: a shallow embedding of `squaremat.hpp` / `squaremat.cpp`

The C++ class `squaremat::SquareMat` owns a `size_t size` and a `double **matrix`
(an array of `size` rows, each an array of `size` cells).  Here

* the cell type `double` is an arbitrary type `α` carrying the operations the code
  uses (`0`, `1`, `+`, `-`, `*`, `/`, unary `-`, comparisons); theorems that need the laws
  of exact arithmetic say so by asking for a ring, a semiring or an ordered structure;
  the library function `fmod` is an argument of the operators that call it;
* the storage is a list of rows, each a list of cells; reads and writes go through
  `getCell` / `setCell`;
* `for (size_t i = 0; i < n; i++)` is `forLoop n`, with the loop index and the
  current state handed to the body;
* `throw` is the `error` case of `Except Error`; an operator that constructs a
  `SquareMat result(size)` inherits the constructor's throw;
* returning a `SquareMat` by value hands over the object that was built (the copy a
  compiler may insert there is the copy constructor, which reproduces the object);
* a member function that modifies `*this` is a function to a `Call`: what it returns or
  throws, together with `*this` as the call leaves it;
* the output stream is the text written to it so far, and the text the stream writes for
  one `double` is an argument of `render`;
* `Double` is one particular cell type: the finite values of IEEE 754 binary64 with
  rounded addition, subtraction and multiplication, used where rounding decides a
  statement;
* `detFuel` is `operator!` recursing on the `submat` objects under a bound on the depth of
  the calls, used to state that the recursion ends; `detAux` is the same body recursing
  on the order;
* `SquareMat.Represents` relates an object to the Mathlib matrix whose entries its cells
  are, used for the algebraic laws of the matrix product and of the power;
* `detExact val` says that no operation of a run of `operator!` rounds, for a map `val`
  from the cells to the numbers they stand for (`Double.val` on `double` cells, the
  identity on exact cells), and `SquareMat.values val` is the matrix of those numbers.
-/

namespace squaremat

/-- The two exception classes the code throws. -/
inductive Error where
  | invalid_argument
  | out_of_range
deriving DecidableEq, Repr

/-- The class `SquareMat`: its two data members. -/
structure SquareMat (α : Type) where
  size : Nat
  matrix : List (List α)
deriving DecidableEq, Repr

/-- Loop `for (i = 0; i < n; i++) s = body i s`. -/
def forLoop {σ : Type} : Nat → (Nat → σ → σ) → σ → σ
  | 0, _, s => s
  | n + 1, body, s => body n (forLoop n body s)

/-- Loop `for (i = 0; i < n; i++)` whose body may throw; the first throw ends the loop. -/
def forLoopE {σ : Type} : Nat → (Nat → σ → Except Error σ) → σ → Except Error σ
  | 0, _, s => .ok s
  | n + 1, body, s =>
    match forLoopE n body s with
    | .error e => .error e
    | .ok s1 => body n s1

/-- Loop `for (i = lo; i < hi; i++) s = body i s`. -/
def forRange {σ : Type} (lo hi : Nat) (body : Nat → σ → σ) (s : σ) : σ :=
  forLoop (hi - lo) (fun t s => body (lo + t) s) s

section Storage

variable {α : Type}

/-- Read of `matrix[i][j]`.  (A read outside the storage is undefined in C++; the
embedding returns `0` there, and no theorem below relies on such a read.) -/
def getCell [Zero α] (m : List (List α)) (i j : Nat) : α :=
  ((m[i]?.getD [])[j]?).getD 0

/-- Write `matrix[i][j] = v`. -/
def setCell (m : List (List α)) (i j : Nat) (v : α) : List (List α) :=
  m.set i ((m[i]?.getD []).set j v)

/-- The storage `m` is `n` rows of `n` cells. -/
def Shape (n : Nat) (m : List (List α)) : Prop :=
  m.length = n ∧ ∀ row ∈ m, row.length = n

/-- The class invariant: a positive `size` and `size` rows of `size` cells. -/
def SquareMat.WF (a : SquareMat α) : Prop :=
  1 ≤ a.size ∧ Shape a.size a.matrix

/-- Accessor `getSize()`. -/
def SquareMat.getSize (a : SquareMat α) : Nat := a.size

end Storage

section Operations

variable {α : Type}

/-- Constructor `SquareMat(size_t size)`: throws when `size <= 0`, otherwise allocates
`size` rows with `new double[size]()`, which zero-initialises. -/
def SquareMat.new [Zero α] (size : Nat) : Except Error (SquareMat α) :=
  if size ≤ 0 then .error .invalid_argument
  else .ok ⟨size, forLoop size (fun i m => m.set i (List.replicate size 0)) (List.replicate size [])⟩

/-- Copy constructor `SquareMat(const SquareMat &other)`: every row is allocated and
then filled cell by cell.  (`new double[size]` leaves the row uninitialised; each of
its cells is written before it is read, and the embedding starts it at `0`.) -/
def SquareMat.copy [Zero α] (other : SquareMat α) : SquareMat α :=
  ⟨other.size,
    forLoop other.size
      (fun i m =>
        forLoop other.size (fun j m => setCell m i j (getCell other.matrix i j))
          (m.set i (List.replicate other.size 0)))
      (List.replicate other.size [])⟩

/-- Addition `operator+`. -/
def SquareMat.add [Zero α] [Add α] (a other : SquareMat α) : Except Error (SquareMat α) :=
  if a.size ≠ other.size then .error .invalid_argument
  else
    match SquareMat.new a.size with
    | .error e => .error e
    | .ok result =>
      .ok { result with
        matrix :=
          forLoop a.size
            (fun i m =>
              forLoop a.size
                (fun j m => setCell m i j (getCell a.matrix i j + getCell other.matrix i j)) m)
            result.matrix }

/-- Subtraction `operator-` (binary). -/
def SquareMat.subtract [Zero α] [Sub α] (a other : SquareMat α) : Except Error (SquareMat α) :=
  if a.size ≠ other.size then .error .invalid_argument
  else
    match SquareMat.new a.size with
    | .error e => .error e
    | .ok result =>
      .ok { result with
        matrix :=
          forLoop a.size
            (fun i m =>
              forLoop a.size
                (fun j m => setCell m i j (getCell a.matrix i j - getCell other.matrix i j)) m)
            result.matrix }

/-- Matrix product `operator*(const SquareMat &)`: the triple loop accumulating
`result.matrix[i][j] += matrix[i][k] * other.matrix[k][j]`. -/
def SquareMat.matrixMultiply [Zero α] [Add α] [Mul α] (a other : SquareMat α) :
    Except Error (SquareMat α) :=
  if a.size ≠ other.size then .error .invalid_argument
  else
    match SquareMat.new a.size with
    | .error e => .error e
    | .ok result =>
      .ok { result with
        matrix :=
          forLoop a.size
            (fun i m =>
              forLoop a.size
                (fun j m =>
                  forLoop a.size
                    (fun k m =>
                      setCell m i j (getCell m i j + getCell a.matrix i k * getCell other.matrix k j))
                    m)
                m)
            result.matrix }

/-- Element-wise product `operator%(const SquareMat &)`. -/
def SquareMat.elementwiseMultiply [Zero α] [Mul α] (a other : SquareMat α) :
    Except Error (SquareMat α) :=
  if a.size ≠ other.size then .error .invalid_argument
  else
    match SquareMat.new a.size with
    | .error e => .error e
    | .ok result =>
      .ok { result with
        matrix :=
          forLoop a.size
            (fun i m =>
              forLoop a.size
                (fun j m => setCell m i j (getCell a.matrix i j * getCell other.matrix i j)) m)
            result.matrix }

/-- The body of the loop of `operator^`: `temp = result * (*this)`, then every cell of
`temp` is copied into `result`. -/
def SquareMat.powerStep [Zero α] [Add α] [Mul α] (a result : SquareMat α) :
    Except Error (SquareMat α) :=
  match SquareMat.matrixMultiply result a with
  | .error e => .error e
  | .ok temp =>
    .ok { result with
      matrix :=
        forLoop a.size
          (fun r m => forLoop a.size (fun c m => setCell m r c (getCell temp.matrix r c)) m)
          result.matrix }

/-- Power `operator^(int power)`.  The `int` exponent is an integer; the loop
`for (int i = 1; i < power; i++)` runs `power - 1` times and its body does not use `i`. -/
def SquareMat.power [Zero α] [One α] [Add α] [Mul α] (a : SquareMat α) (power : Int) :
    Except Error (SquareMat α) :=
  if power < 0 then .error .invalid_argument
  else if power = 0 then
    match SquareMat.new a.size with
    | .error e => .error e
    | .ok result =>
      .ok { result with matrix := forLoop a.size (fun i m => setCell m i i 1) result.matrix }
  else if power = 1 then .ok (SquareMat.copy a)
  else forLoopE (power - 1).toNat (fun _ result => SquareMat.powerStep a result) (SquareMat.copy a)

/-- The sign `(j % 2 == 0) ? 1.0 : -1.0` of the determinant loop. -/
def sign [One α] [Neg α] (j : Nat) : α := if j % 2 = 0 then 1 else -1

/-- The storage of the `submat` that `operator!` builds for column `j`, starting from the
freshly constructed `submat` storage `sm`: for every row `i` from `1`, `col_idx` starts
at `0` and every column `k ≠ j` is written to `submat.matrix[i - 1][col_idx]`. -/
def buildSubmat [Zero α] (size : Nat) (matrix : List (List α)) (j : Nat)
    (sm : List (List α)) : List (List α) :=
  forRange 1 size
    (fun i sm =>
      (forLoop size
        (fun k (st : List (List α) × Nat) =>
          if k ≠ j then (setCell st.1 (i - 1) st.2 (getCell matrix i k), st.2 + 1) else st)
        (sm, 0)).1)
    sm

/-- The body of `operator!` on an object with the given `size` and `matrix`: the two
base cases `size == 1` and `size == 2`, then the loop over the columns `j` of row 0.  The
recursive call `!submat` is on the object constructed by `SquareMat submat(size - 1)`,
whose `size` member is `size - 1` and whose storage the loops have filled.  (No object has
`size == 0`; on such a `size` the code would skip both base cases and the loop, and
return the initial `det = 0`.) -/
def detAux [Zero α] [One α] [Add α] [Sub α] [Mul α] [Neg α] :
    Nat → List (List α) → Except Error α
  | 0, _ => .ok 0
  | 1, matrix => .ok (getCell matrix 0 0)
  | 2, matrix =>
    .ok (getCell matrix 0 0 * getCell matrix 1 1 - getCell matrix 0 1 * getCell matrix 1 0)
  | n + 3, matrix =>
    forLoopE (n + 3)
      (fun j det =>
        match (SquareMat.new (n + 3 - 1) : Except Error (SquareMat α)) with
        | .error e => .error e
        | .ok submat =>
          match detAux (n + 2) (buildSubmat (n + 3) matrix j submat.matrix) with
          | .error e => .error e
          | .ok d => .ok (det + sign j * getCell matrix 0 j * d))
      0

/-- Determinant `operator!`. -/
def SquareMat.determinant [Zero α] [One α] [Add α] [Sub α] [Mul α] [Neg α]
    (a : SquareMat α) : Except Error α :=
  detAux a.size a.matrix

/-- Method `sum()`: all cells added onto `0`, row by row. -/
def SquareMat.sum [Zero α] [Add α] (a : SquareMat α) : α :=
  forLoop a.size (fun i s => forLoop a.size (fun j s => s + getCell a.matrix i j) s) 0

/-- Comparison `operator==`: `sum() == other.sum()`.  (The comparisons of `double` are
the decidable `=`, `<`, `≤` of the cell type.) -/
def SquareMat.equal [Zero α] [Add α] [DecidableEq α] (a other : SquareMat α) : Bool :=
  decide (a.sum = other.sum)

/-- Comparison `operator!=`: `!(sum() == other.sum())`. -/
def SquareMat.notEqual [Zero α] [Add α] [DecidableEq α] (a other : SquareMat α) : Bool :=
  !(decide (a.sum = other.sum))

/-- Comparison `operator>`: `sum() > other.sum()`. -/
def SquareMat.greater [Zero α] [Add α] [LT α] [DecidableRel (fun x y : α => x < y)]
    (a other : SquareMat α) : Bool :=
  decide (a.sum > other.sum)

/-- Comparison `operator<`: `sum() < other.sum()`. -/
def SquareMat.less [Zero α] [Add α] [LT α] [DecidableRel (fun x y : α => x < y)]
    (a other : SquareMat α) : Bool :=
  decide (a.sum < other.sum)

/-- Comparison `operator>=`: `sum() >= other.sum()`. -/
def SquareMat.greaterOrEqual [Zero α] [Add α] [LE α] [DecidableRel (fun x y : α => x ≤ y)]
    (a other : SquareMat α) : Bool :=
  decide (a.sum ≥ other.sum)

/-- Comparison `operator<=`: `sum() <= other.sum()`. -/
def SquareMat.lessOrEqual [Zero α] [Add α] [LE α] [DecidableRel (fun x y : α => x ≤ y)]
    (a other : SquareMat α) : Bool :=
  decide (a.sum ≤ other.sum)

/-- Scalar product `operator*(double scalar)`. -/
def SquareMat.scalarMultiply [Zero α] [Mul α] (a : SquareMat α) (scalar : α) :
    Except Error (SquareMat α) :=
  match SquareMat.new a.size with
  | .error e => .error e
  | .ok result =>
    .ok { result with
      matrix :=
        forLoop a.size
          (fun i m => forLoop a.size (fun j m => setCell m i j (getCell a.matrix i j * scalar)) m)
          result.matrix }

/-- Scalar product from the left, the friend `operator*(double scalar, const SquareMat &mat)`:
`return mat * scalar`. -/
def scalarMultiplyLeft [Zero α] [Mul α] (scalar : α) (mat : SquareMat α) :
    Except Error (SquareMat α) :=
  SquareMat.scalarMultiply mat scalar

/-- Modulo `operator%(int scalar)`.  The library function `fmod` is an argument of the
embedding; the `int` scalar is an integer, converted to the cell type at the call of
`fmod`. -/
def SquareMat.scalarModulo [Zero α] [IntCast α] (fmod : α → α → α) (a : SquareMat α)
    (scalar : Int) : Except Error (SquareMat α) :=
  if scalar = 0 then .error .invalid_argument
  else
    match SquareMat.new a.size with
    | .error e => .error e
    | .ok result =>
      .ok { result with
        matrix :=
          forLoop a.size
            (fun i m =>
              forLoop a.size
                (fun j m => setCell m i j (fmod (getCell a.matrix i j) (scalar : α))) m)
            result.matrix }

/-- Division `operator/(double scalar)`. -/
def SquareMat.scalarDivide [Zero α] [Div α] [DecidableEq α] (a : SquareMat α) (scalar : α) :
    Except Error (SquareMat α) :=
  if scalar = 0 then .error .invalid_argument
  else
    match SquareMat.new a.size with
    | .error e => .error e
    | .ok result =>
      .ok { result with
        matrix :=
          forLoop a.size
            (fun i m => forLoop a.size (fun j m => setCell m i j (getCell a.matrix i j / scalar)) m)
            result.matrix }

/-- Negation, the unary `operator-()`. -/
def SquareMat.negate [Zero α] [Neg α] (a : SquareMat α) : Except Error (SquareMat α) :=
  match SquareMat.new a.size with
  | .error e => .error e
  | .ok result =>
    .ok { result with
      matrix :=
        forLoop a.size
          (fun i m => forLoop a.size (fun j m => setCell m i j (-getCell a.matrix i j)) m)
          result.matrix }

/-- The outcome of calling a member function that may modify `*this`: what the call
returns (for `return *this`, the object the returned reference designates) or throws, and
the object `*this` as the call leaves it. -/
structure Call (α : Type) where
  returned : Except Error (SquareMat α)
  after : SquareMat α

/-- A `throw` while `*this` is the object `now`. -/
def Call.throw (e : Error) (now : SquareMat α) : Call α := ⟨.error e, now⟩

/-- The statement `return *this` while `*this` is the object `now`. -/
def Call.returnThis (now : SquareMat α) : Call α := ⟨.ok now, now⟩

/-- Compound addition `operator+=`, on the left operand `a`, with an argument `other`
that is another object than `*this` (for `a += a` see `addAssignSelf`; in matrix `*=`
the argument is read only before `*this` is written). -/
def SquareMat.addAssign [Zero α] [Add α] (a other : SquareMat α) : Call α :=
  if a.size ≠ other.size then Call.throw .invalid_argument a
  else
    Call.returnThis { a with
      matrix :=
        forLoop a.size
          (fun i m =>
            forLoop a.size
              (fun j m => setCell m i j (getCell m i j + getCell other.matrix i j)) m)
          a.matrix }

/-- Compound subtraction `operator-=`, on the left operand `a`. -/
def SquareMat.subtractAssign [Zero α] [Sub α] (a other : SquareMat α) : Call α :=
  if a.size ≠ other.size then Call.throw .invalid_argument a
  else
    Call.returnThis { a with
      matrix :=
        forLoop a.size
          (fun i m =>
            forLoop a.size
              (fun j m => setCell m i j (getCell m i j - getCell other.matrix i j)) m)
          a.matrix }

/-- Compound matrix product `operator*=(const SquareMat &)`, on the left operand `a`:
`temp = *this * other` (whose throw leaves `*this` as it is), then every row is deleted,
allocated again with `new double[size]` and filled from `temp`.  (The fresh row is
uninitialised; each of its cells is written before it is read, and the embedding starts it
at `0`.) -/
def SquareMat.multiplyAssign [Zero α] [Add α] [Mul α] (a other : SquareMat α) : Call α :=
  if a.size ≠ other.size then Call.throw .invalid_argument a
  else
    match SquareMat.matrixMultiply a other with
    | .error e => Call.throw e a
    | .ok temp =>
      Call.returnThis { a with
        matrix :=
          forLoop a.size
            (fun i m =>
              forLoop a.size (fun j m => setCell m i j (getCell temp.matrix i j))
                (m.set i (List.replicate a.size 0)))
            a.matrix }

/-- Compound scalar product `operator*=(double scalar)`, on the left operand `a`. -/
def SquareMat.scalarMultiplyAssign [Zero α] [Mul α] [DecidableEq α] (a : SquareMat α)
    (scalar : α) : Call α :=
  if scalar = 0 then Call.throw .invalid_argument a
  else
    Call.returnThis { a with
      matrix :=
        forLoop a.size
          (fun i m => forLoop a.size (fun j m => setCell m i j (getCell m i j * scalar)) m)
          a.matrix }

/-- Compound division `operator/=(double scalar)`, on the left operand `a`. -/
def SquareMat.divideAssign [Zero α] [Div α] [DecidableEq α] (a : SquareMat α) (scalar : α) :
    Call α :=
  if scalar = 0 then Call.throw .invalid_argument a
  else
    Call.returnThis { a with
      matrix :=
        forLoop a.size
          (fun i m => forLoop a.size (fun j m => setCell m i j (getCell m i j / scalar)) m)
          a.matrix }

/-- Compound element-wise product `operator%=(const SquareMat &)`, on the left operand
`a`. -/
def SquareMat.elementwiseMultiplyAssign [Zero α] [Mul α] (a other : SquareMat α) : Call α :=
  if a.size ≠ other.size then Call.throw .invalid_argument a
  else
    Call.returnThis { a with
      matrix :=
        forLoop a.size
          (fun i m =>
            forLoop a.size
              (fun j m => setCell m i j (getCell m i j * getCell other.matrix i j)) m)
          a.matrix }

/-- Compound modulo `operator%=(int scalar)`, on the left operand `a`; `fmod` and the
scalar are as in `scalarModulo`. -/
def SquareMat.moduloAssign [Zero α] [IntCast α] (fmod : α → α → α) (a : SquareMat α)
    (scalar : Int) : Call α :=
  if scalar = 0 then Call.throw .invalid_argument a
  else
    Call.returnThis { a with
      matrix :=
        forLoop a.size
          (fun i m =>
            forLoop a.size (fun j m => setCell m i j (fmod (getCell m i j) (scalar : α))) m)
          a.matrix }

/-- Compound addition `a += a`, the call of `operator+=` whose argument `other` is `*this`
itself: `other.matrix[i][j]` then reads the storage that is being written. -/
def SquareMat.addAssignSelf [Zero α] [Add α] (a : SquareMat α) : Call α :=
  if a.size ≠ a.size then Call.throw .invalid_argument a
  else
    Call.returnThis { a with
      matrix :=
        forLoop a.size
          (fun i m => forLoop a.size (fun j m => setCell m i j (getCell m i j + getCell m i j)) m)
          a.matrix }

/-- Compound subtraction `a -= a`, the call of `operator-=` whose argument is `*this`. -/
def SquareMat.subtractAssignSelf [Zero α] [Sub α] (a : SquareMat α) : Call α :=
  if a.size ≠ a.size then Call.throw .invalid_argument a
  else
    Call.returnThis { a with
      matrix :=
        forLoop a.size
          (fun i m => forLoop a.size (fun j m => setCell m i j (getCell m i j - getCell m i j)) m)
          a.matrix }

/-- Compound element-wise product `a %= a`, the call of `operator%=(const SquareMat &)`
whose argument is `*this`. -/
def SquareMat.elementwiseMultiplyAssignSelf [Zero α] [Mul α] (a : SquareMat α) : Call α :=
  if a.size ≠ a.size then Call.throw .invalid_argument a
  else
    Call.returnThis { a with
      matrix :=
        forLoop a.size
          (fun i m => forLoop a.size (fun j m => setCell m i j (getCell m i j * getCell m i j)) m)
          a.matrix }

/-- Transpose `operator~`: `result.matrix[j][i] = matrix[i][j]`. -/
def SquareMat.transpose [Zero α] (a : SquareMat α) : Except Error (SquareMat α) :=
  match SquareMat.new a.size with
  | .error e => .error e
  | .ok result =>
    .ok { result with
      matrix :=
        forLoop a.size
          (fun i m => forLoop a.size (fun j m => setCell m j i (getCell a.matrix i j)) m)
          result.matrix }

/-- The loops of `operator++()`: `matrix[i][j]++` on every cell of `*this`. -/
def SquareMat.incrementCells [Zero α] [One α] [Add α] (a : SquareMat α) : SquareMat α :=
  { a with
    matrix :=
      forLoop a.size
        (fun i m => forLoop a.size (fun j m => setCell m i j (getCell m i j + 1)) m) a.matrix }

/-- The loops of `operator--()`: `matrix[i][j]--` on every cell of `*this`. -/
def SquareMat.decrementCells [Zero α] [One α] [Sub α] (a : SquareMat α) : SquareMat α :=
  { a with
    matrix :=
      forLoop a.size
        (fun i m => forLoop a.size (fun j m => setCell m i j (getCell m i j - 1)) m) a.matrix }

/-- Prefix increment `operator++()`.  Its return type is `SquareMat`, not a reference:
`return *this` copy-constructs the returned object from `*this`. -/
def SquareMat.prefixIncrement [Zero α] [One α] [Add α] (a : SquareMat α) : Call α :=
  ⟨.ok (SquareMat.copy (SquareMat.incrementCells a)), SquareMat.incrementCells a⟩

/-- Postfix increment `operator++(int)`: `SquareMat temp(*this); ++(*this); return temp;`. -/
def SquareMat.postfixIncrement [Zero α] [One α] [Add α] (a : SquareMat α) : Call α :=
  ⟨.ok (SquareMat.copy a), (SquareMat.prefixIncrement a).after⟩

/-- Prefix decrement `operator--()`, returning a copy of `*this` like the increment. -/
def SquareMat.prefixDecrement [Zero α] [One α] [Sub α] (a : SquareMat α) : Call α :=
  ⟨.ok (SquareMat.copy (SquareMat.decrementCells a)), SquareMat.decrementCells a⟩

/-- Postfix decrement `operator--(int)`: `SquareMat temp(*this); --(*this); return temp;`. -/
def SquareMat.postfixDecrement [Zero α] [One α] [Sub α] (a : SquareMat α) : Call α :=
  ⟨.ok (SquareMat.copy a), (SquareMat.prefixDecrement a).after⟩

/-- Row access `double *operator[](size_t index)`: the returned pointer `matrix[index]`
is the row it points to. -/
def SquareMat.row (a : SquareMat α) (index : Nat) : Except Error (List α) :=
  if index ≥ a.size then .error .out_of_range else .ok (a.matrix[index]?.getD [])

/-- Row access `const double *operator[](size_t index) const`, the read-only form. -/
def SquareMat.rowConst (a : SquareMat α) (index : Nat) : Except Error (List α) :=
  if index ≥ a.size then .error .out_of_range else .ok (a.matrix[index]?.getD [])

/-- The expression `a[i][k]` of the callers: row access, then the built-in indexing of
the returned pointer.  `none` is a read outside the row, which throws nothing and which
the language leaves undefined. -/
def SquareMat.readCell (a : SquareMat α) (i k : Nat) : Except Error (Option α) :=
  match SquareMat.rowConst a i with
  | .error e => .error e
  | .ok row => .ok row[k]?

/-- Stream output `operator<<(std::ostream &os, const SquareMat &mat)`.  The stream is
the text written to it so far; `fmt` is the text the stream writes for one `double`
(library code, an argument of the embedding); `std::endl` writes a line break. -/
def render (fmt : α → String) [Zero α] (os : String) (mat : SquareMat α) : String :=
  forLoop mat.size
    (fun i os =>
      forLoop mat.size (fun j os => os ++ fmt (getCell mat.matrix i j) ++ "\t") os ++ "\n")
    os

/-- The loops of `buildSubmat`, with every write `submat.matrix[i - 1][col_idx] = ...`
also recorded, in the order of execution, as the position `(i - 1, col_idx)` it writes. -/
def buildSubmatTraced [Zero α] (size : Nat) (matrix : List (List α)) (j : Nat)
    (sm : List (List α)) : List (List α) × List (Nat × Nat) :=
  forRange 1 size
    (fun i (s : List (List α) × List (Nat × Nat)) =>
      (forLoop size
        (fun k (st : (List (List α) × List (Nat × Nat)) × Nat) =>
          if k ≠ j then
            ((setCell st.1.1 (i - 1) st.2 (getCell matrix i k), st.1.2 ++ [(i - 1, st.2)]),
              st.2 + 1)
          else st)
        (s, 0)).1)
    (sm, [])

/-- Loop `for (i = 0; i < n; i++)` whose body may throw or be cut off (`none`); either
ends the loop. -/
def forLoopOE {σ : Type} :
    Nat → (Nat → σ → Option (Except Error σ)) → σ → Option (Except Error σ)
  | 0, _, s => some (.ok s)
  | n + 1, body, s =>
    match forLoopOE n body s with
    | none => none
    | some (.error e) => some (.error e)
    | some (.ok s1) => body n s1

/-- Determinant `operator!` with the recursive call `!submat` made on the object `submat`
itself, under a bound `fuel` on the depth of the calls: `none` is a computation cut off
by the bound, `some` is what `operator!` returns or throws. -/
def detFuel [Zero α] [One α] [Add α] [Sub α] [Mul α] [Neg α] :
    Nat → SquareMat α → Option (Except Error α)
  | 0, _ => none
  | fuel + 1, a =>
    if a.size = 1 then some (.ok (getCell a.matrix 0 0))
    else if a.size = 2 then
      some (.ok (getCell a.matrix 0 0 * getCell a.matrix 1 1
        - getCell a.matrix 0 1 * getCell a.matrix 1 0))
    else
      forLoopOE a.size
        (fun j det =>
          match (SquareMat.new (a.size - 1) : Except Error (SquareMat α)) with
          | .error e => some (.error e)
          | .ok submat =>
            match detFuel fuel
                { submat with matrix := buildSubmat a.size a.matrix j submat.matrix } with
            | none => none
            | some (.error e) => some (.error e)
            | some (.ok d) => some (.ok (det + sign j * getCell a.matrix 0 j * d)))
        0

/-- The variable `det` of `operator!` on an object of order `size >= 3` with storage
`matrix`, as the loop reaches column `j`: the outcome of the first `j` turns of the loop
(all `size` turns give what `operator!` returns). -/
def detPartial [Zero α] [One α] [Add α] [Sub α] [Mul α] [Neg α] (size : Nat)
    (matrix : List (List α)) (j : Nat) : Except Error α :=
  forLoopE j
    (fun j det =>
      match (SquareMat.new (size - 1) : Except Error (SquareMat α)) with
      | .error e => .error e
      | .ok submat =>
        match detAux (size - 1) (buildSubmat size matrix j submat.matrix) with
        | .error e => .error e
        | .ok d => .ok (det + sign j * getCell matrix 0 j * d))
    0

end Operations

section Specification

variable {α : Type}

/-- The minor of the specification: `a` with row `i` and column `j` deleted. -/
def SquareMat.minor (a : SquareMat α) (i j : Nat) : SquareMat α :=
  ⟨a.size - 1, (a.matrix.eraseIdx i).map (fun row => row.eraseIdx j)⟩

/-- The sum of all cells of the specification: every cell of the storage, in row-major
order, added onto 0. -/
def SquareMat.cellSum [Zero α] [Add α] (a : SquareMat α) : α :=
  a.matrix.flatten.foldl (fun s x => s + x) 0

/-- The cells of a matrix as a `Matrix` over `Fin a.size`. -/
def SquareMat.toMatrix [Zero α] (a : SquareMat α) : Matrix (Fin a.size) (Fin a.size) α :=
  fun i j => getCell a.matrix i j

/-- The determinant of the specification: the Leibniz formula, the sum over all
permutations `σ` of the row indices of `sign σ * ∏ i, a[σ i][i]`. -/
def SquareMat.leibniz [CommRing α] (a : SquareMat α) : α :=
  ∑ σ : Equiv.Perm (Fin a.size), Equiv.Perm.sign σ • ∏ i, a.toMatrix (σ i) i

/-- Truncation of the specification: the integer part of `q`, rounding toward zero. -/
def trunc [LinearOrderedField α] [FloorRing α] (q : α) : Int :=
  if 0 ≤ q then ⌊q⌋ else ⌈q⌉

/-- Modelled from the spec: the C library function `fmod`, which is not part of the
sources.  On exact numbers it is the remainder of the truncated division,
`x - y * trunc (x / y)`: "floating-point remainder, sign follows the dividend". -/
def fmod [LinearOrderedField α] [FloorRing α] (x y : α) : α :=
  x - y * (trunc (x / y) : α)

/-- The rendering of the specification: for the rows in order, the texts of the cells of
the row in order, each followed by one tab, then one line break. -/
def renderSpec (fmt : α → String) [Zero α] (mat : SquareMat α) : String :=
  String.join
    ((List.range mat.size).map
      (fun i =>
        String.join ((List.range mat.size).map (fun j => fmt (getCell mat.matrix i j) ++ "\t"))
          ++ "\n"))

/-- The body of `operator!` with the branch `size == 2` removed: the loop over the
columns of row 0 also runs on order 2, with minors of order 1. -/
def detAuxGeneral [Zero α] [One α] [Add α] [Sub α] [Mul α] [Neg α] :
    Nat → List (List α) → Except Error α
  | 0, _ => .ok 0
  | 1, matrix => .ok (getCell matrix 0 0)
  | n + 2, matrix =>
    forLoopE (n + 2)
      (fun j det =>
        match (SquareMat.new (n + 2 - 1) : Except Error (SquareMat α)) with
        | .error e => .error e
        | .ok submat =>
          match detAuxGeneral (n + 1) (buildSubmat (n + 2) matrix j submat.matrix) with
          | .error e => .error e
          | .ok d => .ok (det + sign j * getCell matrix 0 j * d))
      0

/-- A value-producing operator on `a`, when it returns, returns a well-formed matrix of
the order of `a`. -/
def ReturnsWellFormed (a : SquareMat α) (x : Except Error (SquareMat α)) : Prop :=
  ∀ r, x = .ok r → r.WF ∧ r.size = a.size

/-- A call on the left operand `a` leaves it well formed and of the order it had. -/
def LeavesWellFormed (a : SquareMat α) (c : Call α) : Prop :=
  c.after.WF ∧ c.after.size = a.size

/-- The object `r` is well shaped of order `n` and its cells are the entries of the
matrix `X`. -/
def SquareMat.Represents [Zero α] (r : SquareMat α) (n : Nat) (X : Matrix (Fin n) (Fin n) α) :
    Prop :=
  r.size = n ∧ Shape n r.matrix ∧ (fun (i j : Fin n) => getCell r.matrix i j) = X

/-- The matrix of the values of the cells of `a`, for a map `val` from the cells to the
numbers they stand for. -/
def SquareMat.values {R : Type} (val : α → R) (a : SquareMat α) : SquareMat R :=
  ⟨a.size, a.matrix.map (fun row => row.map val)⟩

/-- The run of `operator!` on the storage `matrix` of order `n` is exact under `val`:
every product, difference and sum that the run computes has as value the product,
difference and sum of the values of its operands.  For order 2 these are the two products
and the difference of the formula; for order 3 and above, for every column `j`, the run
on the minor is exact and so are the two products and the sum of
`det += sign * matrix[0][j] * (!submat)`, with `det` at what the loop has reached and
`!submat` at what the recursive call returns. -/
def detExact {R : Type} [Zero α] [One α] [Add α] [Sub α] [Mul α] [Neg α] [Add R] [Sub R]
    [Mul R] (val : α → R) : Nat → List (List α) → Prop
  | 0, _ => True
  | 1, _ => True
  | 2, matrix =>
    val (getCell matrix 0 0 * getCell matrix 1 1)
        = val (getCell matrix 0 0) * val (getCell matrix 1 1) ∧
      val (getCell matrix 0 1 * getCell matrix 1 0)
        = val (getCell matrix 0 1) * val (getCell matrix 1 0) ∧
      val (getCell matrix 0 0 * getCell matrix 1 1 - getCell matrix 0 1 * getCell matrix 1 0)
        = val (getCell matrix 0 0 * getCell matrix 1 1)
          - val (getCell matrix 0 1 * getCell matrix 1 0)
  | n + 3, matrix =>
    ∀ j, j < n + 3 →
      detExact val (n + 2) ((matrix.eraseIdx 0).map (fun row => row.eraseIdx j)) ∧
        ∀ det d, detPartial (n + 3) matrix j = .ok det →
          detAux (n + 2) ((matrix.eraseIdx 0).map (fun row => row.eraseIdx j)) = .ok d →
          val (sign j * getCell matrix 0 j) = val (sign j) * val (getCell matrix 0 j) ∧
            val (sign j * getCell matrix 0 j * d) = val (sign j * getCell matrix 0 j) * val d ∧
            val (det + sign j * getCell matrix 0 j * d)
              = val det + val (sign j * getCell matrix 0 j * d)

end Specification

section DoubleArithmetic

/-- The finite values of the type `double` (IEEE 754 binary64), each as the exact
rational number it stands for. -/
structure Double where
  val : ℚ
deriving DecidableEq

/-- Rounding to the nearest integer, a tie going to the even one. -/
def roundTiesEven (r : ℚ) : Int :=
  if r - ⌊r⌋ < 1 / 2 then ⌊r⌋
  else if 1 / 2 < r - ⌊r⌋ then ⌊r⌋ + 1
  else if ⌊r⌋ % 2 = 0 then ⌊r⌋ else ⌊r⌋ + 1

/-- Rounding of an exact result to `double` in the default rounding mode: 53 significant
binary digits, to nearest, ties to even.  (The exponent range is not modelled: there is
no overflow and there are no subnormal numbers.) -/
def roundDouble (q : ℚ) : ℚ :=
  if q = 0 then 0
  else (roundTiesEven (q / 2 ^ (Int.log 2 |q| - 52)) : ℚ) * 2 ^ (Int.log 2 |q| - 52)

/-- The `double` 0.0. -/
instance : Zero Double := ⟨⟨0⟩⟩

/-- The `double` 1.0. -/
instance : One Double := ⟨⟨1⟩⟩

/-- Addition of `double`: the exact sum, rounded. -/
instance : Add Double := ⟨fun x y => ⟨roundDouble (x.val + y.val)⟩⟩

/-- Subtraction of `double`: the exact difference, rounded. -/
instance : Sub Double := ⟨fun x y => ⟨roundDouble (x.val - y.val)⟩⟩

/-- Multiplication of `double`: the exact product, rounded. -/
instance : Mul Double := ⟨fun x y => ⟨roundDouble (x.val * y.val)⟩⟩

/-- Negation of `double`, which is exact. -/
instance : Neg Double := ⟨fun x => ⟨-x.val⟩⟩

end DoubleArithmetic

/-! ## Storage and loop lemmas -/

section StorageLemmas
variable {α : Type}

theorem shape_setCell {n : Nat} {m : List (List α)} (h : Shape n m) (i j : Nat) (v : α) :
    Shape n (setCell m i j v) := by
  obtain ⟨hl, hr⟩ := h
  refine ⟨by simp [setCell, hl], ?_⟩
  intro row hrow
  unfold setCell at hrow
  by_cases hi : i < m.length
  · rcases List.mem_or_eq_of_mem_set hrow with h1 | h1
    · exact hr row h1
    · subst h1
      rw [List.length_set]
      simp only [List.getElem?_eq_getElem hi, Option.getD_some]
      exact hr _ (List.getElem_mem hi)
  · rw [List.set_eq_of_length_le (Nat.le_of_not_lt hi)] at hrow
    exact hr row hrow

theorem shape_row {n : Nat} {m : List (List α)} (h : Shape n m) {i : Nat} (hi : i < n) :
    (m[i]?.getD []).length = n := by
  obtain ⟨hl, hr⟩ := h
  have : i < m.length := by omega
  simp [List.getElem?_eq_getElem this]
  exact hr _ (List.getElem_mem this)

theorem getCell_setCell_ne [Zero α] (m : List (List α)) (i j i2 j2 : Nat) (v : α)
    (h : ¬ (i2 = i ∧ j2 = j)) : getCell (setCell m i j v) i2 j2 = getCell m i2 j2 := by
  unfold getCell setCell
  by_cases hi : i2 = i
  · subst hi
    have hj : j ≠ j2 := fun e => h ⟨rfl, e.symm⟩
    by_cases hlen : i2 < m.length
    · simp [List.getElem?_set, hlen, hj]
    · simp [List.set_eq_of_length_le (Nat.le_of_not_lt hlen)]
  · have hi2 : i ≠ i2 := fun e => hi e.symm
    simp [List.getElem?_set_ne hi2]

theorem getCell_setCell_eq [Zero α] {n : Nat} {m : List (List α)} (h : Shape n m) {i j : Nat}
    (hi : i < n) (hj : j < n) (v : α) : getCell (setCell m i j v) i j = v := by
  have hrow := shape_row h hi
  have hlen : i < m.length := by rw [h.1]; exact hi
  have hrow2 : j < (m[i]).length := by
    rw [List.getElem?_eq_getElem hlen] at hrow
    simp only [Option.getD_some] at hrow
    omega
  unfold getCell setCell
  simp [List.getElem?_set, hlen, hrow2]

theorem shape_ext [Zero α] {n : Nat} {m1 m2 : List (List α)} (h1 : Shape n m1) (h2 : Shape n m2)
    (h : ∀ i j, i < n → j < n → getCell m1 i j = getCell m2 i j) : m1 = m2 := by
  apply List.ext_getElem (by rw [h1.1, h2.1])
  intro i hi1 hi2
  have hin : i < n := by rw [← h1.1]; exact hi1
  have r1 : (m1[i]).length = n := h1.2 _ (List.getElem_mem hi1)
  have r2 : (m2[i]).length = n := h2.2 _ (List.getElem_mem hi2)
  apply List.ext_getElem (by rw [r1, r2])
  intro j hj1 hj2
  have hjn : j < n := by rw [← r1]; exact hj1
  have := h i j hin hjn
  simpa [getCell, List.getElem?_eq_getElem hi1, List.getElem?_eq_getElem hi2,
    List.getElem?_eq_getElem hj1, List.getElem?_eq_getElem hj2] using this

/-- One row of a fill. -/
theorem fill_row [Zero α] {n : Nat} (body : Nat → List (List α) → List (List α))
    (i : Nat) (h : Nat → α → α)
    (hshape : ∀ j m, Shape n m → Shape n (body j m))
    (hframe : ∀ j m i2 j2, Shape n m → ¬ (i2 = i ∧ j2 = j) →
      getCell (body j m) i2 j2 = getCell m i2 j2)
    (heff : ∀ j m, j < n → Shape n m → getCell (body j m) i j = h j (getCell m i j))
    (m : List (List α)) (hm : Shape n m) (k : Nat) (hk : k ≤ n) :
    Shape n (forLoop k body m) ∧
      (∀ i2 j2, ¬ (i2 = i ∧ j2 < k) → getCell (forLoop k body m) i2 j2 = getCell m i2 j2) ∧
      (∀ j, j < k → getCell (forLoop k body m) i j = h j (getCell m i j)) := by
  induction k with
  | zero => exact ⟨hm, fun _ _ _ => rfl, fun j hj => absurd hj (Nat.not_lt_zero j)⟩
  | succ k ih =>
    obtain ⟨s1, f1, e1⟩ := ih (Nat.le_of_succ_le hk)
    refine ⟨hshape k _ s1, ?_, ?_⟩
    · intro i2 j2 hne
      show getCell (body k (forLoop k body m)) i2 j2 = _
      rw [hframe k _ i2 j2 s1 (fun hh => hne ⟨hh.1, by omega⟩)]
      exact f1 i2 j2 (fun hh => hne ⟨hh.1, by omega⟩)
    · intro j hj
      show getCell (body k (forLoop k body m)) i j = _
      by_cases hjk : j = k
      · subst hjk
        rw [heff j _ (by omega) s1, f1 i j (fun hh => absurd hh.2 (Nat.lt_irrefl j))]
      · rw [hframe k _ i j s1 (fun hh => hjk hh.2)]
        exact e1 j (by omega)

/-- Two nested loops whose body at `(i, j)` touches the cell `(i, j)` only. -/
theorem fill_cells [Zero α] {n : Nat} (body : Nat → Nat → List (List α) → List (List α))
    (h : Nat → Nat → α → α)
    (hshape : ∀ i j m, Shape n m → Shape n (body i j m))
    (hframe : ∀ i j m i2 j2, Shape n m → ¬ (i2 = i ∧ j2 = j) →
      getCell (body i j m) i2 j2 = getCell m i2 j2)
    (heff : ∀ i j m, i < n → j < n → Shape n m →
      getCell (body i j m) i j = h i j (getCell m i j))
    (m : List (List α)) (hm : Shape n m) (k : Nat) (hk : k ≤ n) :
    Shape n (forLoop k (fun i m => forLoop n (fun j m => body i j m) m) m) ∧
      (∀ i2 j2, ¬ i2 < k →
        getCell (forLoop k (fun i m => forLoop n (fun j m => body i j m) m) m) i2 j2
          = getCell m i2 j2) ∧
      (∀ i j, i < k → j < n →
        getCell (forLoop k (fun i m => forLoop n (fun j m => body i j m) m) m) i j
          = h i j (getCell m i j)) := by
  induction k with
  | zero => exact ⟨hm, fun _ _ _ => rfl, fun i j hi => absurd hi (Nat.not_lt_zero i)⟩
  | succ k ih =>
    obtain ⟨s1, f1, e1⟩ := ih (Nat.le_of_succ_le hk)
    obtain ⟨s2, f2, e2⟩ := fill_row (fun j m => body k j m) k (h k) (hshape k) (hframe k)
      (fun j m hj hsm => heff k j m (by omega) hj hsm) _ s1 n (Nat.le_refl n)
    refine ⟨s2, ?_, ?_⟩
    · intro i2 j2 hne
      show getCell (forLoop n (fun j m => body k j m) _) i2 j2 = _
      rw [f2 i2 j2 (fun hh => hne (by omega))]
      exact f1 i2 j2 (fun hh => hne (by omega))
    · intro i j hi hj
      show getCell (forLoop n (fun j m => body k j m) _) i j = _
      by_cases hik : i = k
      · subst hik
        rw [e2 j hj, f1 i j (Nat.lt_irrefl i)]
      · rw [f2 i j (fun hh => hik hh.1)]
        exact e1 i j (by omega) hj

theorem forLoop_set_rows {β : Type} (z e : β) (n k : Nat) (hk : k ≤ n) :
    forLoop k (fun i (m : List β) => m.set i z) (List.replicate n e)
      = List.replicate k z ++ List.replicate (n - k) e := by
  induction k with
  | zero => simp [forLoop]
  | succ k ih =>
    show List.set (forLoop k _ _) k z = _
    rw [ih (Nat.le_of_succ_le hk)]
    apply List.ext_getElem?
    intro r
    rw [List.getElem?_set]
    simp only [List.length_append, List.length_replicate]
    by_cases h1 : k = r
    · subst h1
      have : k < k + (n - k) := by omega
      simp [this, List.getElem?_append_left, List.getElem?_replicate]
    · simp only [h1, if_false]
      by_cases h2 : r < k
      · rw [List.getElem?_append_left (by simp; omega), List.getElem?_append_left (by simp; omega)]
        simp [List.getElem?_replicate, h2]; omega
      · have h3 : k + 1 ≤ r := by omega
        rw [List.getElem?_append_right (by simp; omega), List.getElem?_append_right (by simp; omega)]
        simp [List.getElem?_replicate]
        by_cases h4 : r < n
        · have a1 : r - k < n - k := by omega
          have a2 : r - (k + 1) < n - (k + 1) := by omega
          simp [a1, a2]
        · have a1 : ¬ r - k < n - k := by omega
          have a2 : ¬ r - (k + 1) < n - (k + 1) := by omega
          simp [a1, a2]

theorem new_eq [Zero α] (n : Nat) (hn : 1 ≤ n) :
    (SquareMat.new n : Except Error (SquareMat α))
      = .ok ⟨n, List.replicate n (List.replicate n 0)⟩ := by
  unfold SquareMat.new
  have h0 : ¬ n ≤ 0 := by omega
  rw [if_neg h0, forLoop_set_rows _ _ n n (Nat.le_refl n)]
  simp

theorem shape_replicate (n : Nat) (z : α) : Shape n (List.replicate n (List.replicate n z)) := by
  refine ⟨by simp, ?_⟩
  intro row hrow
  rw [List.eq_of_mem_replicate hrow]
  simp

theorem getCell_replicate [Zero α] (n i j : Nat) :
    getCell (List.replicate n (List.replicate n (0 : α))) i j = 0 := by
  unfold getCell
  by_cases hi : i < n
  · by_cases hj : j < n
    · simp [List.getElem?_replicate, hi, hj]
    · simp [List.getElem?_replicate, hi, hj]
  · simp [List.getElem?_replicate, hi]

end StorageLemmas

end squaremat

namespace squaremat

section BinaryOperators

variable {α : Type}

theorem forLoop_eq_foldl {σ : Type} (n : Nat) (body : Nat → σ → σ) (s : σ) :
    forLoop n body s = (List.range n).foldl (fun s i => body i s) s := by
  induction n with
  | zero => rfl
  | succ k ih => rw [List.range_succ, List.foldl_append]; simp [forLoop, ih]

/-- A fill whose body writes a value that does not depend on the storage. -/
theorem fill_const [Zero α] {n : Nat} (f : Nat → Nat → α) (m : List (List α)) (hm : Shape n m) :
    Shape n (forLoop n (fun i m => forLoop n (fun j m => setCell m i j (f i j)) m) m) ∧
      ∀ i j, i < n → j < n →
        getCell (forLoop n (fun i m => forLoop n (fun j m => setCell m i j (f i j)) m) m) i j
          = f i j := by
  obtain ⟨s1, _, e1⟩ := fill_cells (fun i j m => setCell m i j (f i j)) (fun i j _ => f i j)
    (fun i j m hs => shape_setCell hs i j _)
    (fun i j m i2 j2 _ hne => getCell_setCell_ne m i j i2 j2 _ hne)
    (fun i j m hi hj hs => getCell_setCell_eq hs hi hj _) m hm n (Nat.le_refl n)
  exact ⟨s1, e1⟩

/-- The innermost loop of the matrix product. -/
theorem dot_loop [Zero α] [Add α] [Mul α] {n : Nat} (f : Nat → α) (i j : Nat)
    (hi : i < n) (hj : j < n) (m : List (List α)) (hm : Shape n m) (k : Nat) :
    Shape n (forLoop k (fun k m => setCell m i j (getCell m i j + f k)) m) ∧
      getCell (forLoop k (fun k m => setCell m i j (getCell m i j + f k)) m) i j
        = forLoop k (fun k acc => acc + f k) (getCell m i j) := by
  induction k with
  | zero => exact ⟨hm, rfl⟩
  | succ k ih =>
    obtain ⟨s1, e1⟩ := ih
    refine ⟨shape_setCell s1 i j _, ?_⟩
    show getCell (setCell _ i j _) i j = _
    rw [getCell_setCell_eq s1 hi hj, e1]
    rfl

theorem dot_loop_shape [Zero α] [Add α] [Mul α] {n : Nat} (f : Nat → α) (i j : Nat)
    (m : List (List α)) (hm : Shape n m) (k : Nat) :
    Shape n (forLoop k (fun k m => setCell m i j (getCell m i j + f k)) m) := by
  induction k with
  | zero => exact hm
  | succ k ih => exact shape_setCell ih i j _

theorem dot_loop_frame [Zero α] [Add α] [Mul α] (f : Nat → α) (i j i2 j2 : Nat)
    (hne : ¬ (i2 = i ∧ j2 = j)) (m : List (List α)) (k : Nat) :
    getCell (forLoop k (fun k m => setCell m i j (getCell m i j + f k)) m) i2 j2
      = getCell m i2 j2 := by
  induction k with
  | zero => rfl
  | succ k ih =>
    show getCell (setCell _ i j _) i2 j2 = _
    rw [getCell_setCell_ne _ i j i2 j2 _ hne, ih]

theorem add_eq [Zero α] [Add α] (a b : SquareMat α) (ha : 1 ≤ a.size) (h : a.size = b.size) :
    SquareMat.add a b = .ok ⟨a.size,
      forLoop a.size
        (fun i m =>
          forLoop a.size
            (fun j m => setCell m i j (getCell a.matrix i j + getCell b.matrix i j)) m)
        (List.replicate a.size (List.replicate a.size 0))⟩ := by
  unfold SquareMat.add
  rw [if_neg (by simpa using h), new_eq _ ha]

theorem subtract_eq [Zero α] [Sub α] (a b : SquareMat α) (ha : 1 ≤ a.size)
    (h : a.size = b.size) :
    SquareMat.subtract a b = .ok ⟨a.size,
      forLoop a.size
        (fun i m =>
          forLoop a.size
            (fun j m => setCell m i j (getCell a.matrix i j - getCell b.matrix i j)) m)
        (List.replicate a.size (List.replicate a.size 0))⟩ := by
  unfold SquareMat.subtract
  rw [if_neg (by simpa using h), new_eq _ ha]

theorem elementwiseMultiply_eq [Zero α] [Mul α] (a b : SquareMat α) (ha : 1 ≤ a.size)
    (h : a.size = b.size) :
    SquareMat.elementwiseMultiply a b = .ok ⟨a.size,
      forLoop a.size
        (fun i m =>
          forLoop a.size
            (fun j m => setCell m i j (getCell a.matrix i j * getCell b.matrix i j)) m)
        (List.replicate a.size (List.replicate a.size 0))⟩ := by
  unfold SquareMat.elementwiseMultiply
  rw [if_neg (by simpa using h), new_eq _ ha]

theorem matrixMultiply_eq [Zero α] [Add α] [Mul α] (a b : SquareMat α) (ha : 1 ≤ a.size)
    (h : a.size = b.size) :
    SquareMat.matrixMultiply a b = .ok ⟨a.size,
      forLoop a.size
        (fun i m =>
          forLoop a.size
            (fun j m =>
              forLoop a.size
                (fun k m =>
                  setCell m i j (getCell m i j + getCell a.matrix i k * getCell b.matrix k j))
                m)
            m)
        (List.replicate a.size (List.replicate a.size 0))⟩ := by
  unfold SquareMat.matrixMultiply
  rw [if_neg (by simpa using h), new_eq _ ha]

/-- The storage the matrix product leaves: well shaped, with every cell the accumulated
dot product. -/
theorem product_loops_cells [Zero α] [Add α] [Mul α] (n : Nat) (f : Nat → Nat → Nat → α) :
    Shape n
        (forLoop n
          (fun i m =>
            forLoop n
              (fun j m => forLoop n (fun k m => setCell m i j (getCell m i j + f i j k)) m) m)
          (List.replicate n (List.replicate n 0))) ∧
      ∀ i j, i < n → j < n →
        getCell
            (forLoop n
              (fun i m =>
                forLoop n
                  (fun j m => forLoop n (fun k m => setCell m i j (getCell m i j + f i j k)) m)
                  m)
              (List.replicate n (List.replicate n 0))) i j
          = (List.range n).foldl (fun acc k => acc + f i j k) 0 := by
  obtain ⟨s1, _, e1⟩ := fill_cells
    (fun i j m => forLoop n (fun k m => setCell m i j (getCell m i j + f i j k)) m)
    (fun i j old => forLoop n (fun k acc => acc + f i j k) old)
    (fun i j m hs => dot_loop_shape (f i j) i j m hs n)
    (fun i j m i2 j2 _ hne => dot_loop_frame (f i j) i j i2 j2 hne m n)
    (fun i j m hi hj hs => (dot_loop (f i j) i j hi hj m hs n).2)
    (List.replicate n (List.replicate n (0 : α))) (shape_replicate n 0) n (Nat.le_refl n)
  refine ⟨s1, ?_⟩
  intro i j hi hj
  rw [e1 i j hi hj, getCell_replicate, forLoop_eq_foldl]

end BinaryOperators

end squaremat

namespace squaremat

section ConstructionAndProducts

variable {α : Type}

/-- C10: construction `new(order)` fails with `invalid_argument` exactly when `order` is 0;
for every `order >= 1` it succeeds and yields a matrix of that order whose storage is
`order` rows of `order` cells, every cell being 0. -/
theorem new_fails_iff_zero [Zero α] (order : Nat) :
    ((SquareMat.new order : Except Error (SquareMat α)) = .error .invalid_argument ↔ order = 0) ∧
      (1 ≤ order →
        ∃ r : SquareMat α, SquareMat.new order = .ok r ∧ r.size = order ∧
          Shape order r.matrix ∧ ∀ i j, i < order → j < order → getCell r.matrix i j = 0) := by
  constructor
  · constructor
    · intro h
      by_contra h0
      rw [new_eq order (Nat.one_le_iff_ne_zero.mpr h0)] at h
      cases h
    · intro h
      subst h
      rfl
  · intro h
    exact ⟨_, new_eq order h, rfl, shape_replicate order 0,
      fun i j _ _ => getCell_replicate order i j⟩

/-- Witness for C10 at order 2 over the integers. -/
theorem new_fails_iff_zero_witness :
    ∃ r : SquareMat Int, SquareMat.new 2 = .ok r ∧ r.size = 2 ∧
      Shape 2 r.matrix ∧ ∀ i j, i < 2 → j < 2 → getCell r.matrix i j = 0 :=
  (new_fails_iff_zero 2).2 (by decide)

/-- C9: for matrices `a`, `b` each of add, subtract, matrixMultiply and
elementwiseMultiply fails with `invalid_argument` exactly when the orders differ, and
when the orders are equal it succeeds and returns a matrix of that same order. -/
theorem binary_operators_fail_iff_order_differs [Zero α] [Add α] [Sub α] [Mul α]
    (a b : SquareMat α) (ha : a.WF) :
    ((SquareMat.add a b = .error .invalid_argument ↔ a.size ≠ b.size) ∧
        (a.size = b.size → ∃ r, SquareMat.add a b = .ok r ∧ r.size = a.size)) ∧
      ((SquareMat.subtract a b = .error .invalid_argument ↔ a.size ≠ b.size) ∧
        (a.size = b.size → ∃ r, SquareMat.subtract a b = .ok r ∧ r.size = a.size)) ∧
      ((SquareMat.matrixMultiply a b = .error .invalid_argument ↔ a.size ≠ b.size) ∧
        (a.size = b.size → ∃ r, SquareMat.matrixMultiply a b = .ok r ∧ r.size = a.size)) ∧
      ((SquareMat.elementwiseMultiply a b = .error .invalid_argument ↔ a.size ≠ b.size) ∧
        (a.size = b.size →
          ∃ r, SquareMat.elementwiseMultiply a b = .ok r ∧ r.size = a.size)) := by
  have h1 := ha.1
  refine ⟨⟨⟨?_, ?_⟩, ?_⟩, ⟨⟨?_, ?_⟩, ?_⟩, ⟨⟨?_, ?_⟩, ?_⟩, ⟨⟨?_, ?_⟩, ?_⟩⟩
  · intro h hs
    rw [add_eq a b h1 hs] at h
    cases h
  · intro hs
    unfold SquareMat.add
    rw [if_pos hs]
  · intro hs
    exact ⟨_, add_eq a b h1 hs, rfl⟩
  · intro h hs
    rw [subtract_eq a b h1 hs] at h
    cases h
  · intro hs
    unfold SquareMat.subtract
    rw [if_pos hs]
  · intro hs
    exact ⟨_, subtract_eq a b h1 hs, rfl⟩
  · intro h hs
    rw [matrixMultiply_eq a b h1 hs] at h
    cases h
  · intro hs
    unfold SquareMat.matrixMultiply
    rw [if_pos hs]
  · intro hs
    exact ⟨_, matrixMultiply_eq a b h1 hs, rfl⟩
  · intro h hs
    rw [elementwiseMultiply_eq a b h1 hs] at h
    cases h
  · intro hs
    unfold SquareMat.elementwiseMultiply
    rw [if_pos hs]
  · intro hs
    exact ⟨_, elementwiseMultiply_eq a b h1 hs, rfl⟩

/-- Witness for C9: a matrix of order 2 against one of order 3, over the integers. -/
theorem binary_operators_fail_iff_order_differs_witness :
    SquareMat.WF (⟨2, [[0, 0], [0, 0]]⟩ : SquareMat Int) ∧
      SquareMat.add (⟨2, [[0, 0], [0, 0]]⟩ : SquareMat Int)
          ⟨3, [[0, 0, 0], [0, 0, 0], [0, 0, 0]]⟩ = .error .invalid_argument :=
  have hwf : SquareMat.WF (⟨2, [[0, 0], [0, 0]]⟩ : SquareMat Int) :=
    ⟨by decide, by decide, by decide⟩
  ⟨hwf,
    (binary_operators_fail_iff_order_differs (⟨2, [[0, 0], [0, 0]]⟩ : SquareMat Int)
      ⟨3, [[0, 0, 0], [0, 0, 0], [0, 0, 0]]⟩ hwf).1.1.2 (by decide)⟩

/-- C3: for matrices `a`, `b` of the same order `n`, matrixMultiply succeeds and its cell
`[i][j]` (for `i, j < n`) is the products `a[i][k] * b[k][j]`, `k = 0 .. n-1`, added in that
order onto 0; and `[[1,2],[3,4]] * [[5,6],[7,8]] = [[19,22],[43,50]]`. -/
theorem matrixMultiply_cell [Zero α] [Add α] [Mul α] (a b : SquareMat α) (ha : a.WF)
    (h : a.size = b.size) :
    (∃ r, SquareMat.matrixMultiply a b = .ok r ∧ r.size = a.size ∧
        ∀ i j, i < a.size → j < a.size →
          getCell r.matrix i j
            = (List.range a.size).foldl
                (fun acc k => acc + getCell a.matrix i k * getCell b.matrix k j) 0) ∧
      SquareMat.matrixMultiply (⟨2, [[1, 2], [3, 4]]⟩ : SquareMat Int) ⟨2, [[5, 6], [7, 8]]⟩
        = .ok ⟨2, [[19, 22], [43, 50]]⟩ := by
  refine ⟨⟨_, matrixMultiply_eq a b ha.1 h, rfl, ?_⟩, rfl⟩
  exact (product_loops_cells a.size
    (fun i j k => getCell a.matrix i k * getCell b.matrix k j)).2

/-- Witness for C3: the product of the specification's example, over the integers. -/
theorem matrixMultiply_cell_witness :
    ∃ r, SquareMat.matrixMultiply (⟨2, [[1, 2], [3, 4]]⟩ : SquareMat Int)
        ⟨2, [[5, 6], [7, 8]]⟩ = .ok r ∧ r.size = 2 ∧
      ∀ i j, i < 2 → j < 2 →
        getCell r.matrix i j
          = (List.range 2).foldl
              (fun acc k => acc + getCell ([[1, 2], [3, 4]] : List (List Int)) i k
                * getCell ([[5, 6], [7, 8]] : List (List Int)) k j) 0 :=
  (matrixMultiply_cell (⟨2, [[1, 2], [3, 4]]⟩ : SquareMat Int) ⟨2, [[5, 6], [7, 8]]⟩
    ⟨by decide, by decide, by decide⟩ rfl).1

end ConstructionAndProducts

end squaremat

namespace squaremat

section CopyLemmas

variable {α : Type}

theorem length_setCell (m : List (List α)) (i j : Nat) (v : α) :
    (setCell m i j v).length = m.length := by
  simp [setCell]

theorem setCell_getElem? (m : List (List α)) (i j r : Nat) (v : α) :
    (setCell m i j v)[r]? = if r = i then (m[i]?).map (fun row => row.set j v) else m[r]? := by
  unfold setCell
  rw [List.getElem?_set]
  by_cases h : i = r
  · subst h
    by_cases hl : i < m.length
    · simp [hl, List.getElem?_eq_getElem hl]
    · simp [hl, List.getElem?_eq_none (Nat.le_of_not_lt hl)]
  · have h2 : ¬ r = i := fun e => h e.symm
    simp [h, h2]

/-- Writing the cells `0 .. k-1` of one row. -/
theorem row_loop_getElem? (f : Nat → α) (row : List α) (k c : Nat) :
    (forLoop k (fun j (row : List α) => row.set j (f j)) row)[c]?
      = if c < k ∧ c < row.length then some (f c) else row[c]? := by
  induction k with
  | zero => simp [forLoop]
  | succ k ih =>
    have hlen : ∀ k, (forLoop k (fun j (row : List α) => row.set j (f j)) row).length
        = row.length := by
      intro k
      induction k with
      | zero => rfl
      | succ k ih2 => simp [forLoop, ih2]
    show (List.set _ k (f k))[c]? = _
    rw [List.getElem?_set, ih, hlen]
    by_cases h1 : k = c
    · subst h1
      by_cases h2 : k < row.length
      · simp [h2]
      · simp [h2, List.getElem?_eq_none (Nat.le_of_not_lt h2)]
    · by_cases h3 : c < k
      · have : c < k + 1 := by omega
        simp [h1, h3, this]
      · have : ¬ c < k + 1 := by omega
        simp [h1, h3, this]

/-- The inner loop of a row-by-row fill, row by row. -/
theorem inner_loop_getElem? (f : Nat → α) (m : List (List α)) (i k r : Nat) :
    (forLoop k (fun j m => setCell m i j (f j)) m)[r]?
      = if r = i then
          (m[i]?).map (fun row => forLoop k (fun j (row : List α) => row.set j (f j)) row)
        else m[r]? := by
  induction k with
  | zero =>
    by_cases h : r = i
    · subst h; simp [forLoop]
    · simp [forLoop, h]
  | succ k ih =>
    show (setCell _ i k (f k))[r]? = _
    rw [setCell_getElem?]
    by_cases h : r = i
    · subst h
      have := ih
      simp only [if_true] at this ⊢
      rw [this]
      cases m[r]? <;> rfl
    · simp only [h, if_false]
      simpa [h] using ih

/-- The rows the copy constructor leaves. -/
theorem copy_loop_getElem? [Zero α] (f : Nat → Nat → α) (n : Nat) (m0 : List (List α))
    (k r : Nat) :
    (forLoop k
        (fun i m =>
          forLoop n (fun j m => setCell m i j (f i j)) (m.set i (List.replicate n 0))) m0)[r]?
      = if r < k ∧ r < m0.length then
          some (forLoop n (fun j (row : List α) => row.set j (f r j)) (List.replicate n 0))
        else m0[r]? := by
  induction k with
  | zero => simp [forLoop]
  | succ k ih =>
    have hlen : ∀ k, (forLoop k
        (fun i m =>
          forLoop n (fun j m => setCell m i j (f i j)) (m.set i (List.replicate n 0)))
        m0).length = m0.length := by
      intro k
      induction k with
      | zero => rfl
      | succ k ih2 =>
        show List.length (forLoop n _ _) = _
        have hin : ∀ (i : Nat) (m : List (List α)) (q : Nat),
            (forLoop q (fun j m => setCell m i j (f i j)) m).length = m.length := by
          intro i m q
          induction q with
          | zero => rfl
          | succ q ih3 =>
            show List.length (setCell _ i q _) = _
            rw [length_setCell, ih3]
        rw [hin, List.length_set, ih2]
    show (forLoop n _ (List.set _ k _))[r]? = _
    rw [inner_loop_getElem?]
    by_cases h : r = k
    · subst h
      simp only [if_true]
      rw [List.getElem?_set, hlen]
      by_cases h2 : r < m0.length
      · simp [h2]
      · simp [h2, List.getElem?_eq_none (Nat.le_of_not_lt h2)]
    · simp only [h, if_false]
      rw [List.getElem?_set_ne (fun e => h e.symm), ih]
      by_cases h3 : r < k
      · have : r < k + 1 := by omega
        simp [h3, this]
      · have : ¬ r < k + 1 := by omega
        simp [h3, this]

/-- The copy constructor reproduces a well-formed matrix. -/
theorem copy_eq [Zero α] (a : SquareMat α) (ha : a.WF) : SquareMat.copy a = a := by
  obtain ⟨n, m⟩ := a
  obtain ⟨_, hl, hr⟩ := ha
  simp only at hl hr
  unfold SquareMat.copy
  simp only [SquareMat.mk.injEq, true_and]
  apply List.ext_getElem?
  intro r
  rw [copy_loop_getElem?]
  simp only [List.length_replicate, and_self]
  by_cases h : r < n
  · have hlt : r < m.length := by omega
    have hrow : (m[r]).length = n := hr _ (List.getElem_mem hlt)
    simp only [h, if_true, List.getElem?_eq_getElem hlt, Option.some.injEq]
    apply List.ext_getElem?
    intro c
    rw [row_loop_getElem?]
    simp only [List.length_replicate, and_self]
    by_cases hc : c < n
    · have hc2 : c < (m[r]).length := by omega
      simp [hc, getCell, List.getElem?_eq_getElem hlt, List.getElem?_eq_getElem hc2]
    · have hc2 : (m[r]).length ≤ c := by omega
      simp [hc, List.getElem?_eq_none hc2, List.getElem?_replicate]
  · have hlt : m.length ≤ r := by omega
    simp [h, List.getElem?_eq_none hlt, List.getElem?_replicate]

end CopyLemmas

end squaremat

namespace squaremat

section PowerLemmas

variable {α : Type}

theorem forLoopE_succ_ok {σ : Type} (n : Nat) (body : Nat → σ → Except Error σ) (s : σ)
    {s1 : σ} (h : forLoopE n body s = .ok s1) : forLoopE (n + 1) body s = body n s1 := by
  simp [forLoopE, h]

theorem matrixMultiply_wf [Zero α] [Add α] [Mul α] (a b : SquareMat α) (ha : 1 ≤ a.size)
    (h : a.size = b.size) :
    ∃ r, SquareMat.matrixMultiply a b = .ok r ∧ r.size = a.size ∧ Shape a.size r.matrix :=
  ⟨_, matrixMultiply_eq a b ha h, rfl,
    (product_loops_cells a.size (fun i j k => getCell a.matrix i k * getCell b.matrix k j)).1⟩

/-- One turn of the loop of `operator^` is one matrix product. -/
theorem powerStep_eq [Zero α] [Add α] [Mul α] (a result : SquareMat α) (hr : result.WF)
    (h : result.size = a.size) :
    SquareMat.powerStep a result = SquareMat.matrixMultiply result a := by
  obtain ⟨temp, ht, hts, htm⟩ := matrixMultiply_wf result a hr.1 h
  unfold SquareMat.powerStep
  rw [ht]
  simp only
  congr 1
  obtain ⟨tn, tm⟩ := temp
  obtain ⟨rn, rm⟩ := result
  simp only at hts htm h hr ⊢
  subst hts
  subst h
  simp only [SquareMat.mk.injEq, true_and]
  obtain ⟨s1, e1⟩ := fill_const (fun r c => getCell tm r c) rm hr.2
  exact shape_ext s1 htm e1

/-- The loop of `operator^` never fails and keeps the matrix well formed. -/
theorem power_loop [Zero α] [Add α] [Mul α] (a : SquareMat α) (ha : a.WF) (k : Nat) :
    ∃ r, forLoopE k (fun _ result => SquareMat.powerStep a result) a = .ok r ∧
      r.WF ∧ r.size = a.size := by
  induction k with
  | zero => exact ⟨a, rfl, ha, rfl⟩
  | succ k ih =>
    obtain ⟨r, hr, hwf, hs⟩ := ih
    obtain ⟨t, ht, hts, htm⟩ := matrixMultiply_wf r a hwf.1 hs
    refine ⟨t, ?_, ⟨by rw [hts]; exact hwf.1, by rw [hts]; exact htm⟩, by rw [hts, hs]⟩
    rw [forLoopE_succ_ok _ _ _ hr, powerStep_eq a r hwf hs, ht]

/-- The diagonal loop of `power == 0`. -/
theorem diagonal_loop [Zero α] [One α] {n : Nat} (m : List (List α)) (hm : Shape n m)
    (k : Nat) (hk : k ≤ n) :
    Shape n (forLoop k (fun i m => setCell m i i 1) m) ∧
      ∀ i j, getCell (forLoop k (fun i m => setCell m i i 1) m) i j
        = if i = j ∧ i < k then 1 else getCell m i j := by
  induction k with
  | zero => exact ⟨hm, fun i j => by simp [forLoop]⟩
  | succ k ih =>
    obtain ⟨s1, e1⟩ := ih (Nat.le_of_succ_le hk)
    refine ⟨shape_setCell s1 k k 1, ?_⟩
    intro i j
    show getCell (setCell _ k k 1) i j = _
    by_cases h : i = k ∧ j = k
    · obtain ⟨h1, h2⟩ := h
      subst h1
      subst h2
      rw [getCell_setCell_eq s1 (by omega) (by omega)]
      simp
    · rw [getCell_setCell_ne _ k k i j 1 h, e1]
      by_cases h2 : i = j
      · subst h2
        have hik : i ≠ k := fun e => h ⟨e, e⟩
        by_cases h3 : i < k
        · have : i < k + 1 := by omega
          simp [h3, this]
        · have : ¬ i < k + 1 := by omega
          simp [h3, this]
      · simp [h2]

theorem power_zero_eq [Zero α] [One α] [Add α] [Mul α] (a : SquareMat α) (ha : 1 ≤ a.size) :
    SquareMat.power a 0 = .ok ⟨a.size,
      forLoop a.size (fun i m => setCell m i i 1)
        (List.replicate a.size (List.replicate a.size 0))⟩ := by
  unfold SquareMat.power
  rw [if_neg (by decide), if_pos rfl, new_eq _ ha]

theorem power_one_eq [Zero α] [One α] [Add α] [Mul α] (a : SquareMat α) (ha : a.WF) :
    SquareMat.power a 1 = .ok a := by
  unfold SquareMat.power
  rw [if_neg (by decide), if_neg (by decide), if_pos rfl, copy_eq a ha]

theorem power_ge_two_eq [Zero α] [One α] [Add α] [Mul α] (a : SquareMat α) (ha : a.WF)
    (p : Int) (hp : 2 ≤ p) :
    SquareMat.power a p
      = forLoopE (p - 1).toNat (fun _ result => SquareMat.powerStep a result) a := by
  unfold SquareMat.power
  rw [if_neg (by omega), if_neg (by omega), if_neg (by omega), copy_eq a ha]

end PowerLemmas

end squaremat

namespace squaremat

section Power

variable {α : Type}

/-- C5: for every matrix `a` of order `n`, `power(a, 0)` succeeds and returns the identity
of order `n` (cell `[i][j]` is 1 when `i = j` and 0 otherwise), whatever the cells of `a`:
every matrix of the same order gives the same result. -/
theorem power_zero_identity [Zero α] [One α] [Add α] [Mul α] (a : SquareMat α) (ha : a.WF) :
    (∃ r, SquareMat.power a 0 = .ok r ∧ r.size = a.size ∧ Shape a.size r.matrix ∧
        ∀ i j, i < a.size → j < a.size → getCell r.matrix i j = if i = j then 1 else 0) ∧
      ∀ b : SquareMat α, b.WF → b.size = a.size →
        SquareMat.power b 0 = SquareMat.power a 0 := by
  obtain ⟨s1, e1⟩ := diagonal_loop (List.replicate a.size (List.replicate a.size (0 : α)))
    (shape_replicate a.size 0) a.size (Nat.le_refl _)
  refine ⟨⟨_, power_zero_eq a ha.1, rfl, s1, ?_⟩, ?_⟩
  · intro i j hi _
    show getCell (forLoop a.size _ _) i j = _
    rw [e1 i j, getCell_replicate]
    by_cases h : i = j
    · subst h
      simp [hi]
    · simp [h]
  · intro b hb hs
    rw [power_zero_eq a ha.1, power_zero_eq b hb.1, hs]

/-- Witness for C5: the power 0 of `[[1,2],[3,4]]` over the integers. -/
theorem power_zero_identity_witness :
    ∃ r, SquareMat.power (⟨2, [[1, 2], [3, 4]]⟩ : SquareMat Int) 0 = .ok r ∧ r.size = 2 ∧
      Shape 2 r.matrix ∧
      ∀ i j, i < 2 → j < 2 → getCell r.matrix i j = if i = j then 1 else 0 :=
  (power_zero_identity (⟨2, [[1, 2], [3, 4]]⟩ : SquareMat Int)
    ⟨by decide, by decide, by decide⟩).1

/-- C6: for every matrix `a` and integer `p`, `power(a, p)` fails with `invalid_argument`
exactly when `p < 0`; for every `p >= 0` it succeeds and returns a matrix of the order
of `a`. -/
theorem power_fails_iff_negative [Zero α] [One α] [Add α] [Mul α] (a : SquareMat α)
    (ha : a.WF) (p : Int) :
    (SquareMat.power a p = .error .invalid_argument ↔ p < 0) ∧
      (0 ≤ p → ∃ r, SquareMat.power a p = .ok r ∧ r.size = a.size) := by
  have hok : 0 ≤ p → ∃ r, SquareMat.power a p = .ok r ∧ r.size = a.size := by
    intro hp
    by_cases h0 : p = 0
    · subst h0
      exact ⟨_, power_zero_eq a ha.1, rfl⟩
    · by_cases h1 : p = 1
      · subst h1
        exact ⟨_, power_one_eq a ha, rfl⟩
      · obtain ⟨r, hr, _, hs⟩ := power_loop a ha (p - 1).toNat
        exact ⟨r, by rw [power_ge_two_eq a ha p (by omega), hr], hs⟩
  refine ⟨⟨?_, ?_⟩, hok⟩
  · intro h
    by_contra hn
    obtain ⟨r, hr, _⟩ := hok (by omega)
    rw [hr] at h
    cases h
  · intro h
    unfold SquareMat.power
    rw [if_pos h]

/-- Witness for C6: the exponent -1 on `[[1,2],[3,4]]` over the integers. -/
theorem power_fails_iff_negative_witness :
    SquareMat.power (⟨2, [[1, 2], [3, 4]]⟩ : SquareMat Int) (-1) = .error .invalid_argument :=
  (power_fails_iff_negative (⟨2, [[1, 2], [3, 4]]⟩ : SquareMat Int)
    ⟨by decide, by decide, by decide⟩ (-1)).1.2 (by decide)

/-- C4: for every matrix `a`, `power(a, 1)` is `a` itself (same order, same cells), for
every `p >= 1` the result of `power(a, p + 1)` is `matrixMultiply(power(a, p), a)`, and
`power(a, 2)` is `matrixMultiply(a, a)`. -/
theorem power_succ_right_multiplies [Zero α] [One α] [Add α] [Mul α] (a : SquareMat α)
    (ha : a.WF) :
    SquareMat.power a 1 = .ok a ∧
      (∀ p : Int, 1 ≤ p →
        ∃ r, SquareMat.power a p = .ok r ∧
          SquareMat.power a (p + 1) = SquareMat.matrixMultiply r a) ∧
      SquareMat.power a 2 = SquareMat.matrixMultiply a a := by
  have h2 : SquareMat.power a 2 = SquareMat.matrixMultiply a a := by
    rw [power_ge_two_eq a ha 2 (by decide)]
    show forLoopE 1 _ a = _
    rw [forLoopE_succ_ok 0 _ a rfl, powerStep_eq a a ha rfl]
  refine ⟨power_one_eq a ha, ?_, h2⟩
  intro p hp
  by_cases h1 : p = 1
  · subst h1
    exact ⟨a, power_one_eq a ha, h2⟩
  · obtain ⟨r, hr, hwf, hs⟩ := power_loop a ha (p - 1).toNat
    refine ⟨r, by rw [power_ge_two_eq a ha p (by omega), hr], ?_⟩
    rw [power_ge_two_eq a ha (p + 1) (by omega)]
    have e : (p + 1 - 1).toNat = (p - 1).toNat + 1 := by omega
    rw [e, forLoopE_succ_ok _ _ a hr, powerStep_eq a r hwf hs]

/-- Witness for C4: the powers of `[[1,2],[3,4]]` over the integers. -/
theorem power_succ_right_multiplies_witness :
    SquareMat.power (⟨2, [[1, 2], [3, 4]]⟩ : SquareMat Int) 1 = .ok ⟨2, [[1, 2], [3, 4]]⟩ ∧
      SquareMat.power (⟨2, [[1, 2], [3, 4]]⟩ : SquareMat Int) 2
        = .ok ⟨2, [[7, 10], [15, 22]]⟩ :=
  have h := power_succ_right_multiplies (⟨2, [[1, 2], [3, 4]]⟩ : SquareMat Int)
    ⟨by decide, by decide, by decide⟩
  ⟨h.1, h.2.2.trans rfl⟩

end Power

end squaremat

namespace squaremat

section Comparison

variable {α : Type}

theorem forLoop_congr {σ : Type} (n : Nat) (body1 body2 : Nat → σ → σ) (s : σ)
    (h : ∀ i, i < n → ∀ t, body1 i t = body2 i t) : forLoop n body1 s = forLoop n body2 s := by
  induction n with
  | zero => rfl
  | succ k ih =>
    show body1 k _ = body2 k _
    rw [ih (fun i hi t => h i (Nat.lt_succ_of_lt hi) t), h k (Nat.lt_succ_self k)]

/-- A loop reading the entries `0 .. k-1` of a list is a fold over its first `k` entries. -/
theorem forLoop_read_eq_foldl {β σ : Type} (l : List β) (d : β) (g : σ → β → σ) (s : σ)
    (k : Nat) (hk : k ≤ l.length) :
    forLoop k (fun i s => g s (l[i]?.getD d)) s = (l.take k).foldl g s := by
  induction k with
  | zero => simp [forLoop]
  | succ k ih =>
    have hlt : k < l.length := hk
    show g (forLoop k _ s) _ = _
    rw [ih (Nat.le_of_succ_le hk), List.take_succ, List.foldl_append,
      List.getElem?_eq_getElem hlt]
    simp

/-- Method `sum()` adds up exactly the cells of a well-formed matrix. -/
theorem sum_eq_cellSum [Zero α] [Add α] (a : SquareMat α) (ha : a.WF) :
    a.sum = a.cellSum := by
  obtain ⟨n, m⟩ := a
  obtain ⟨_, hl, hr⟩ := ha
  simp only at hl hr
  unfold SquareMat.sum SquareMat.cellSum
  simp only
  have hrow : ∀ i, i < n → ∀ t : α,
      forLoop n (fun j s => s + getCell m i j) t
        = (fun (s : α) (row : List α) => row.foldl (fun s x => s + x) s) t (m[i]?.getD []) := by
    intro i hi t
    have hlt : i < m.length := by omega
    have hlen : (m[i]?.getD []).length = n := by
      rw [List.getElem?_eq_getElem hlt]
      exact hr _ (List.getElem_mem hlt)
    have := forLoop_read_eq_foldl (m[i]?.getD []) (0 : α) (fun s x => s + x) t n (by omega)
    rw [List.take_of_length_le (by omega)] at this
    exact this
  rw [forLoop_congr n _ _ 0 hrow,
    forLoop_read_eq_foldl m [] (fun (s : α) (row : List α) => row.foldl (fun s x => s + x) s)
      0 n (by omega),
    List.take_of_length_le (by omega), List.foldl_flatten]

/-- C7: for every two matrices `a` and `b`, of equal or different orders, each of the six
comparisons is a total Boolean function and returns the corresponding comparison of the
sums of all cells. -/
theorem comparisons_compare_sums [Zero α] [Add α] [DecidableEq α] [LT α] [LE α]
    [DecidableRel (fun x y : α => x < y)] [DecidableRel (fun x y : α => x ≤ y)]
    (a b : SquareMat α) (ha : a.WF) (hb : b.WF) :
    (SquareMat.equal a b = true ↔ a.cellSum = b.cellSum) ∧
      (SquareMat.notEqual a b = true ↔ a.cellSum ≠ b.cellSum) ∧
      (SquareMat.less a b = true ↔ a.cellSum < b.cellSum) ∧
      (SquareMat.greater a b = true ↔ a.cellSum > b.cellSum) ∧
      (SquareMat.lessOrEqual a b = true ↔ a.cellSum ≤ b.cellSum) ∧
      (SquareMat.greaterOrEqual a b = true ↔ a.cellSum ≥ b.cellSum) := by
  unfold SquareMat.equal SquareMat.notEqual SquareMat.less SquareMat.greater
    SquareMat.lessOrEqual SquareMat.greaterOrEqual
  rw [sum_eq_cellSum a ha, sum_eq_cellSum b hb]
  simp

/-- Witness for C7: a matrix of order 2 against one of order 1, over the integers. -/
theorem comparisons_compare_sums_witness :
    SquareMat.less (⟨1, [[11]]⟩ : SquareMat Int) ⟨2, [[1, 2], [3, 4]]⟩ = true ↔
      SquareMat.cellSum (⟨1, [[11]]⟩ : SquareMat Int)
        < SquareMat.cellSum (⟨2, [[1, 2], [3, 4]]⟩ : SquareMat Int) :=
  (comparisons_compare_sums (⟨1, [[11]]⟩ : SquareMat Int) ⟨2, [[1, 2], [3, 4]]⟩
    ⟨by decide, by decide, by decide⟩ ⟨by decide, by decide, by decide⟩).2.2.1

/-- C8: the matrices `[[1,2],[3,4]]` and `[[2,3],[1,4]]` have the same order and differ in
a cell, yet `equal` is true, `notEqual` is false, and `lessOrEqual` and `greaterOrEqual`
are both true. -/
theorem distinct_matrices_compare_equal :
    (⟨2, [[1, 2], [3, 4]]⟩ : SquareMat Int).WF ∧ (⟨2, [[2, 3], [1, 4]]⟩ : SquareMat Int).WF ∧
      (⟨2, [[1, 2], [3, 4]]⟩ : SquareMat Int).size = (⟨2, [[2, 3], [1, 4]]⟩ : SquareMat Int).size ∧
      getCell (⟨2, [[1, 2], [3, 4]]⟩ : SquareMat Int).matrix 0 0
        ≠ getCell (⟨2, [[2, 3], [1, 4]]⟩ : SquareMat Int).matrix 0 0 ∧
      SquareMat.equal (⟨2, [[1, 2], [3, 4]]⟩ : SquareMat Int) ⟨2, [[2, 3], [1, 4]]⟩ = true ∧
      SquareMat.notEqual (⟨2, [[1, 2], [3, 4]]⟩ : SquareMat Int) ⟨2, [[2, 3], [1, 4]]⟩ = false ∧
      SquareMat.lessOrEqual (⟨2, [[1, 2], [3, 4]]⟩ : SquareMat Int) ⟨2, [[2, 3], [1, 4]]⟩
        = true ∧
      SquareMat.greaterOrEqual (⟨2, [[1, 2], [3, 4]]⟩ : SquareMat Int) ⟨2, [[2, 3], [1, 4]]⟩
        = true :=
  ⟨⟨by decide, by decide, by decide⟩, ⟨by decide, by decide, by decide⟩, rfl, by decide,
    by decide, by decide, by decide, by decide⟩

end Comparison

end squaremat

namespace squaremat

section SubmatrixLemmas

variable {α : Type}

/-- The column loop of `operator!` on one row: `col_idx` counts the columns written so
far and the row `ri` of `submat` receives row `i` of the matrix without column `j`. -/
theorem submat_row_loop [Zero α] {N : Nat} (m : List (List α)) (j i ri : Nat) (hj : j < N)
    (hri : ri < N - 1) (sm : List (List α)) (hs : Shape (N - 1) sm) (K : Nat) (hK : K ≤ N) :
    Shape (N - 1)
        (forLoop K
          (fun k (st : List (List α) × Nat) =>
            if k ≠ j then (setCell st.1 ri st.2 (getCell m i k), st.2 + 1) else st)
          (sm, 0)).1 ∧
      (forLoop K
          (fun k (st : List (List α) × Nat) =>
            if k ≠ j then (setCell st.1 ri st.2 (getCell m i k), st.2 + 1) else st)
          (sm, 0)).2 = (if j < K then K - 1 else K) ∧
      (∀ r c, r ≠ ri →
        getCell
            (forLoop K
              (fun k (st : List (List α) × Nat) =>
                if k ≠ j then (setCell st.1 ri st.2 (getCell m i k), st.2 + 1) else st)
              (sm, 0)).1 r c = getCell sm r c) ∧
      (∀ c, c < (if j < K then K - 1 else K) →
        getCell
            (forLoop K
              (fun k (st : List (List α) × Nat) =>
                if k ≠ j then (setCell st.1 ri st.2 (getCell m i k), st.2 + 1) else st)
              (sm, 0)).1 ri c = getCell m i (if c < j then c else c + 1)) := by
  induction K with
  | zero =>
    refine ⟨hs, by simp [forLoop], fun _ _ _ => rfl, ?_⟩
    intro c hc
    simp at hc
  | succ K ih =>
    obtain ⟨s1, c1, f1, e1⟩ := ih (Nat.le_of_succ_le hK)
    generalize hst : forLoop K
      (fun k (st : List (List α) × Nat) =>
        if k ≠ j then (setCell st.1 ri st.2 (getCell m i k), st.2 + 1) else st) (sm, 0) = st
      at s1 c1 f1 e1
    have hstep : forLoop (K + 1)
        (fun k (st : List (List α) × Nat) =>
          if k ≠ j then (setCell st.1 ri st.2 (getCell m i k), st.2 + 1) else st) (sm, 0)
        = if K ≠ j then (setCell st.1 ri st.2 (getCell m i K), st.2 + 1) else st := by
      show (fun k (st : List (List α) × Nat) =>
          if k ≠ j then (setCell st.1 ri st.2 (getCell m i k), st.2 + 1) else st) K
            (forLoop K _ (sm, 0)) = _
      rw [hst]
    rw [hstep]
    by_cases hKj : K = j
    · subst hKj
      have hlt : K < K + 1 := Nat.lt_succ_self K
      have hnlt : ¬ K < K := Nat.lt_irrefl K
      simp only [ne_eq, not_true_eq_false, if_false, hlt, if_true, hnlt,
        Nat.add_sub_cancel] at c1 e1 ⊢
      exact ⟨s1, c1, f1, e1⟩
    · simp only [ne_eq, hKj, not_false_eq_true, if_true]
      have hcol : st.2 < N - 1 := by
        rw [c1]
        by_cases h : j < K
        · simp only [h, if_true]; omega
        · simp only [h, if_false]; omega
      refine ⟨shape_setCell s1 _ _ _, ?_, ?_, ?_⟩
      · rw [c1]
        by_cases h : j < K
        · have : j < K + 1 := by omega
          simp only [h, this, if_true]; omega
        · have : ¬ j < K + 1 := by omega
          simp only [h, this, if_false]
      · intro r c hr
        rw [getCell_setCell_ne _ _ _ _ _ _ (fun hh => hr hh.1)]
        exact f1 r c hr
      · intro c hc
        have hc2 : c < st.2 + 1 := by
          rw [c1]
          by_cases h : j < K
          · have h2 : j < K + 1 := by omega
            simp only [h2, if_true] at hc
            simp only [h, if_true]; omega
          · have h2 : ¬ j < K + 1 := by omega
            simp only [h2, if_false] at hc
            simp only [h, if_false]; omega
        by_cases hcc : c = st.2
        · subst hcc
          rw [getCell_setCell_eq s1 hri hcol]
          congr 1
          rw [c1]
          by_cases h : j < K
          · have h3 : ¬ K - 1 < j := by omega
            simp only [h, if_true, h3, if_false]; omega
          · have h3 : K < j := by omega
            simp only [h, if_false, h3, if_true]
        · rw [getCell_setCell_ne _ _ _ _ _ _ (fun hh => hcc hh.2)]
          apply e1
          rw [← c1]
          omega

/-- The row loop of `operator!`: after `T` rows of `submat` are filled, each holds the
matrix row below it without column `j`. -/
theorem submat_rows_loop [Zero α] {N : Nat} (m : List (List α)) (j : Nat) (hj : j < N)
    (sm : List (List α)) (hs : Shape (N - 1) sm) (T : Nat) (hT : T ≤ N - 1) :
    Shape (N - 1)
        (forLoop T
          (fun t sm =>
            (forLoop N
              (fun k (st : List (List α) × Nat) =>
                if k ≠ j then (setCell st.1 (1 + t - 1) st.2 (getCell m (1 + t) k), st.2 + 1)
                else st)
              (sm, 0)).1)
          sm) ∧
      ∀ r c, r < T → c < N - 1 →
        getCell
            (forLoop T
              (fun t sm =>
                (forLoop N
                  (fun k (st : List (List α) × Nat) =>
                    if k ≠ j then
                      (setCell st.1 (1 + t - 1) st.2 (getCell m (1 + t) k), st.2 + 1)
                    else st)
                  (sm, 0)).1)
              sm) r c = getCell m (1 + r) (if c < j then c else c + 1) := by
  induction T with
  | zero => exact ⟨hs, fun r c hr => absurd hr (Nat.not_lt_zero r)⟩
  | succ T ih =>
    obtain ⟨s1, e1⟩ := ih (Nat.le_of_succ_le hT)
    have hri : 1 + T - 1 < N - 1 := by omega
    obtain ⟨s2, _, f2, e2⟩ := submat_row_loop m j (1 + T) (1 + T - 1) hj hri _ s1 N
      (Nat.le_refl N)
    refine ⟨s2, ?_⟩
    intro r c hr hc
    show getCell (forLoop N _ (forLoop T _ sm, 0)).1 r c = _
    by_cases hrT : r = T
    · subst hrT
      have hc2 : c < (if j < N then N - 1 else N) := by simp only [hj, if_true]; exact hc
      have := e2 c hc2
      simp only [Nat.add_sub_cancel_left] at this ⊢
      exact this
    · have hne : r ≠ 1 + T - 1 := by omega
      rw [f2 r c hne]
      exact e1 r c (by omega) hc

theorem getCell_minor [Zero α] (m : List (List α)) (j r c : Nat) :
    getCell ((m.eraseIdx 0).map (fun row => row.eraseIdx j)) r c
      = getCell m (1 + r) (if c < j then c else c + 1) := by
  unfold getCell
  rw [List.getElem?_map, List.getElem?_eraseIdx_of_ge _ _ _ (Nat.zero_le r), Nat.add_comm 1 r]
  cases h : m[r + 1]? with
  | none => simp
  | some row =>
    simp only [Option.map_some', Option.getD_some]
    rw [List.getElem?_eraseIdx]
    by_cases hc : c < j
    · simp only [hc, if_true]
    · simp only [hc, if_false]

theorem shape_minor {N : Nat} (m : List (List α)) (hm : Shape N m) (hN : 1 ≤ N) (j : Nat)
    (hj : j < N) : Shape (N - 1) ((m.eraseIdx 0).map (fun row => row.eraseIdx j)) := by
  obtain ⟨hl, hr⟩ := hm
  refine ⟨?_, ?_⟩
  · rw [List.length_map, List.length_eraseIdx_of_lt (by omega), hl]
  · intro row hrow
    rw [List.mem_map] at hrow
    obtain ⟨row0, h0, rfl⟩ := hrow
    have h1 : row0.length = N := hr row0 (List.mem_of_mem_eraseIdx h0)
    rw [List.length_eraseIdx_of_lt (by omega), h1]

/-- The `submat` built by `operator!` for column `j` is the matrix with row 0 and column
`j` deleted. -/
theorem buildSubmat_eq_minor [Zero α] {N : Nat} (m : List (List α)) (hm : Shape N m)
    (hN : 1 ≤ N) (j : Nat) (hj : j < N) :
    buildSubmat N m j (List.replicate (N - 1) (List.replicate (N - 1) 0))
      = (m.eraseIdx 0).map (fun row => row.eraseIdx j) := by
  obtain ⟨s1, e1⟩ := submat_rows_loop m j hj _ (shape_replicate (N - 1) (0 : α)) (N - 1)
    (Nat.le_refl _)
  apply shape_ext s1 (shape_minor m hm hN j hj)
  intro r c hr hc
  rw [getCell_minor]
  exact e1 r c hr hc

end SubmatrixLemmas

end squaremat

namespace squaremat

section DeterminantLemmas

variable {α : Type}

theorem forLoopE_ok {σ : Type} (n : Nat) (body : Nat → σ → Except Error σ) (g : Nat → σ → σ)
    (s : σ) (h : ∀ j, j < n → ∀ acc, body j acc = .ok (g j acc)) :
    forLoopE n body s = .ok (forLoop n g s) := by
  induction n with
  | zero => rfl
  | succ k ih =>
    rw [forLoopE_succ_ok k body s (ih (fun j hj acc => h j (Nat.lt_succ_of_lt hj) acc)),
      h k (Nat.lt_succ_self k)]
    rfl

/-- The general case of `operator!` with the constructor call of `submat` resolved. -/
theorem detAux_step [Zero α] [One α] [Add α] [Sub α] [Mul α] [Neg α] (n : Nat)
    (m : List (List α)) :
    detAux (n + 3) m
      = forLoopE (n + 3)
          (fun j det =>
            match detAux (n + 2)
                (buildSubmat (n + 3) m j (List.replicate (n + 2) (List.replicate (n + 2) 0))) with
            | .error e => .error e
            | .ok d => .ok (det + sign j * getCell m 0 j * d))
          0 := by
  rw [detAux]
  have h : (SquareMat.new (n + 3 - 1) : Except Error (SquareMat α))
      = .ok ⟨n + 2, List.replicate (n + 2) (List.replicate (n + 2) 0)⟩ :=
    new_eq (n + 2) (by omega)
  simp only [h]

/-- The recursion of `operator!` returns a value on every storage. -/
theorem detAux_total [Zero α] [One α] [Add α] [Sub α] [Mul α] [Neg α] (n : Nat) :
    ∀ m : List (List α), ∃ d, detAux n m = .ok d := by
  induction n using Nat.strong_induction_on with
  | _ n ih =>
    intro m
    match n, ih with
    | 0, _ => exact ⟨_, rfl⟩
    | 1, _ => exact ⟨_, rfl⟩
    | 2, _ => exact ⟨_, rfl⟩
    | k + 3, ih =>
      choose D hD using ih (k + 2) (by omega)
      rw [detAux_step]
      refine ⟨_, forLoopE_ok (k + 3) _
        (fun j acc => acc + sign j * getCell m 0 j
          * D (buildSubmat (k + 3) m j (List.replicate (k + 2) (List.replicate (k + 2) 0))))
        0 (fun j _ acc => by simp only [hD])⟩

/-- The general case of `operator!` as a cofactor expansion along row 0. -/
theorem detAux_expansion [Zero α] [One α] [Add α] [Sub α] [Mul α] [Neg α] (n : Nat)
    (m : List (List α)) (hm : Shape (n + 3) m) (d : Nat → α)
    (hd : ∀ j, j < n + 3 →
      detAux (n + 2) ((m.eraseIdx 0).map (fun row => row.eraseIdx j)) = .ok (d j)) :
    detAux (n + 3) m
      = .ok (forLoop (n + 3) (fun j acc => acc + sign j * getCell m 0 j * d j) 0) := by
  rw [detAux_step]
  apply forLoopE_ok
  intro j hj acc
  have hb : buildSubmat (n + 3) m j (List.replicate (n + 2) (List.replicate (n + 2) 0))
      = (m.eraseIdx 0).map (fun row => row.eraseIdx j) :=
    buildSubmat_eq_minor m hm (by omega) j hj
  rw [hb, hd j hj]

end DeterminantLemmas

end squaremat

namespace squaremat

section Determinant

variable {α : Type}

/-- C1: for every matrix `a`, `determinant(a)` is the single cell when the order is 1,
`a[0][0]*a[1][1] - a[0][1]*a[1][0]` when the order is 2, and when the order is at least 3
the terms `sign(j) * a[0][j] * determinant(minor(a, 0, j))`, `j = 0 .. order-1`, added in
that order onto 0, where `sign(j)` is 1 for even `j` and -1 for odd `j` and `minor(a, 0, j)`
is `a` with row 0 and column `j` deleted (its determinant is itself a value). -/
theorem determinant_cofactor_expansion [Zero α] [One α] [Add α] [Sub α] [Mul α] [Neg α]
    (a : SquareMat α) (ha : a.WF) :
    (a.size = 1 → a.determinant = .ok (getCell a.matrix 0 0)) ∧
      (a.size = 2 →
        a.determinant = .ok (getCell a.matrix 0 0 * getCell a.matrix 1 1
          - getCell a.matrix 0 1 * getCell a.matrix 1 0)) ∧
      (3 ≤ a.size →
        ∃ d : Nat → α,
          (∀ j, j < a.size → (a.minor 0 j).determinant = .ok (d j)) ∧
            a.determinant
              = .ok ((List.range a.size).foldl
                  (fun acc j => acc + sign j * getCell a.matrix 0 j * d j) 0)) ∧
      (∀ j, (Even j → (sign j : α) = 1) ∧ (Odd j → (sign j : α) = -1)) := by
  obtain ⟨n, m⟩ := a
  obtain ⟨_, hm⟩ := ha
  simp only at hm
  refine ⟨?_, ?_, ?_, ?_⟩
  · intro h
    simp only at h
    subst h
    rfl
  · intro h
    simp only at h
    subst h
    rfl
  · intro h
    simp only at h
    obtain ⟨k, rfl⟩ : ∃ k, n = k + 3 := ⟨n - 3, by omega⟩
    choose D hD using (detAux_total (k + 2) : ∀ m : List (List α), ∃ d, detAux (k + 2) m = .ok d)
    refine ⟨fun j => D ((m.eraseIdx 0).map (fun row => row.eraseIdx j)), ?_, ?_⟩
    · intro j _
      exact hD _
    · show detAux (k + 3) m = _
      rw [detAux_expansion k m hm _ (fun j _ => hD _), forLoop_eq_foldl]
  · intro j
    unfold sign
    constructor
    · intro he
      rw [if_pos (Nat.even_iff.mp he)]
    · intro ho
      rw [if_neg (by rw [Nat.odd_iff.mp ho]; decide)]

/-- Witness for C1: the expansion of the determinant of `[[2,-3,1],[2,0,-1],[1,4,5]]` over
the integers. -/
theorem determinant_cofactor_expansion_witness :
    ∃ d : Nat → Int,
      (∀ j, j < 3 →
        (SquareMat.minor (⟨3, [[2, -3, 1], [2, 0, -1], [1, 4, 5]]⟩ : SquareMat Int) 0 j).determinant
          = .ok (d j)) ∧
        SquareMat.determinant (⟨3, [[2, -3, 1], [2, 0, -1], [1, 4, 5]]⟩ : SquareMat Int)
          = .ok ((List.range 3).foldl
              (fun acc j => acc + sign j
                * getCell ([[2, -3, 1], [2, 0, -1], [1, 4, 5]] : List (List Int)) 0 j * d j) 0) :=
  (determinant_cofactor_expansion (⟨3, [[2, -3, 1], [2, 0, -1], [1, 4, 5]]⟩ : SquareMat Int)
    ⟨by decide, by decide, by decide⟩).2.2.1 (by decide)

end Determinant

end squaremat

namespace squaremat

section Leibniz

variable {α : Type}

theorem forLoop_add_eq_sum [AddCommMonoid α] (f : Nat → α) (n : Nat) :
    forLoop n (fun j acc => acc + f j) 0 = ∑ j in Finset.range n, f j := by
  induction n with
  | zero => simp [forLoop]
  | succ k ih =>
    rw [Finset.sum_range_succ, ← ih]
    rfl

theorem sign_eq_neg_one_pow [Ring α] (j : Nat) : (sign j : α) = (-1) ^ j := by
  unfold sign
  by_cases h : j % 2 = 0
  · rw [if_pos h, Even.neg_one_pow (Nat.even_iff.mpr h)]
  · rw [if_neg h, Odd.neg_one_pow (Nat.odd_iff.mpr (by omega))]

/-- The cells of the minor, as a submatrix. -/
theorem minor_eq_submatrix [Zero α] (n : Nat) (m : List (List α)) (j : Fin (n + 1)) :
    (fun (r c : Fin n) => getCell ((m.eraseIdx 0).map (fun row => row.eraseIdx j)) r c)
      = Matrix.submatrix (fun (r c : Fin (n + 1)) => getCell m r c) Fin.succ j.succAbove := by
  funext r c
  rw [getCell_minor, Matrix.submatrix_apply]
  have h1 : ((Fin.succ r : Fin (n + 1)) : Nat) = 1 + r := by
    rw [Fin.val_succ, Nat.add_comm]
  have h2 : ((j.succAbove c : Fin (n + 1)) : Nat) = if (c : Nat) < j then (c : Nat) else c + 1 := by
    unfold Fin.succAbove
    by_cases h : c.castSucc < j
    · have h3 : (c : Nat) < j := h
      simp [h, h3]
    · have h3 : ¬ (c : Nat) < j := h
      simp [h, h3]
  rw [h1, h2]

/-- Over exact arithmetic the recursion of `operator!` computes the determinant. -/
theorem detAux_eq_det [CommRing α] (n : Nat) :
    ∀ m : List (List α), 1 ≤ n → Shape n m →
      detAux n m = .ok (Matrix.det (fun (i j : Fin n) => getCell m i j)) := by
  induction n using Nat.strong_induction_on with
  | _ n ih =>
    intro m hn hm
    match n, ih, hn, hm with
    | 1, _, _, _ =>
      rw [Matrix.det_fin_one]
      rfl
    | 2, _, _, _ =>
      rw [Matrix.det_fin_two]
      rfl
    | k + 3, ih, _, hm =>
      rw [detAux_expansion k m hm
        (fun j => Matrix.det
          (fun (r c : Fin (k + 2)) =>
            getCell ((m.eraseIdx 0).map (fun row => row.eraseIdx j)) r c))
        (fun j hj => ih (k + 2) (by omega) _ (by omega)
          (shape_minor m hm (by omega) j hj))]
      congr 1
      rw [forLoop_add_eq_sum, Matrix.det_succ_row_zero, Finset.sum_range]
      apply Finset.sum_congr rfl
      intro j _
      rw [sign_eq_neg_one_pow, minor_eq_submatrix (k + 2) m j]
      rfl

end Leibniz

end squaremat

namespace squaremat

section ScalarAndCompoundLemmas

variable {α : Type}

theorem scalarMultiply_eq [Zero α] [Mul α] (a : SquareMat α) (ha : 1 ≤ a.size) (s : α) :
    SquareMat.scalarMultiply a s = .ok ⟨a.size,
      forLoop a.size
        (fun i m => forLoop a.size (fun j m => setCell m i j (getCell a.matrix i j * s)) m)
        (List.replicate a.size (List.replicate a.size 0))⟩ := by
  unfold SquareMat.scalarMultiply
  rw [new_eq _ ha]

theorem negate_eq [Zero α] [Neg α] (a : SquareMat α) (ha : 1 ≤ a.size) :
    SquareMat.negate a = .ok ⟨a.size,
      forLoop a.size
        (fun i m => forLoop a.size (fun j m => setCell m i j (-getCell a.matrix i j)) m)
        (List.replicate a.size (List.replicate a.size 0))⟩ := by
  unfold SquareMat.negate
  rw [new_eq _ ha]

theorem scalarDivide_eq [Zero α] [Div α] [DecidableEq α] (a : SquareMat α) (ha : 1 ≤ a.size)
    (s : α) (hs : s ≠ 0) :
    SquareMat.scalarDivide a s = .ok ⟨a.size,
      forLoop a.size
        (fun i m => forLoop a.size (fun j m => setCell m i j (getCell a.matrix i j / s)) m)
        (List.replicate a.size (List.replicate a.size 0))⟩ := by
  unfold SquareMat.scalarDivide
  rw [if_neg hs, new_eq _ ha]

theorem scalarModulo_eq [Zero α] [IntCast α] (fmod : α → α → α) (a : SquareMat α)
    (ha : 1 ≤ a.size) (s : Int) (hs : s ≠ 0) :
    SquareMat.scalarModulo fmod a s = .ok ⟨a.size,
      forLoop a.size
        (fun i m =>
          forLoop a.size (fun j m => setCell m i j (fmod (getCell a.matrix i j) (s : α))) m)
        (List.replicate a.size (List.replicate a.size 0))⟩ := by
  unfold SquareMat.scalarModulo
  rw [if_neg hs, new_eq _ ha]

/-- A fill of a fresh zero matrix: its shape and cells. -/
theorem fresh_fill [Zero α] (n : Nat) (f : Nat → Nat → α) :
    Shape n
        (forLoop n (fun i m => forLoop n (fun j m => setCell m i j (f i j)) m)
          (List.replicate n (List.replicate n 0))) ∧
      ∀ i j, i < n → j < n →
        getCell
            (forLoop n (fun i m => forLoop n (fun j m => setCell m i j (f i j)) m)
              (List.replicate n (List.replicate n 0))) i j = f i j :=
  fill_const f _ (shape_replicate n 0)

/-- An update of every cell in place: its shape and cells. -/
theorem inplace_fill [Zero α] {n : Nat} (g : Nat → Nat → α → α) (m : List (List α))
    (hm : Shape n m) :
    Shape n
        (forLoop n
          (fun i m => forLoop n (fun j m => setCell m i j (g i j (getCell m i j))) m) m) ∧
      ∀ i j, i < n → j < n →
        getCell
            (forLoop n
              (fun i m => forLoop n (fun j m => setCell m i j (g i j (getCell m i j))) m) m)
            i j = g i j (getCell m i j) := by
  obtain ⟨s1, _, e1⟩ := fill_cells (fun i j m => setCell m i j (g i j (getCell m i j))) g
    (fun i j m hs => shape_setCell hs i j _)
    (fun i j m i2 j2 _ hne => getCell_setCell_ne m i j i2 j2 _ hne)
    (fun i j m hi hj hs => getCell_setCell_eq hs hi hj _) m hm n (Nat.le_refl n)
  exact ⟨s1, e1⟩

/-- Updating every cell in place gives the storage that the same values give when
written into a fresh matrix. -/
theorem inplace_eq_fresh [Zero α] {n : Nat} (g : Nat → Nat → α → α) (m : List (List α))
    (hm : Shape n m) :
    forLoop n (fun i m => forLoop n (fun j m => setCell m i j (g i j (getCell m i j))) m) m
      = forLoop n (fun i r => forLoop n (fun j r => setCell r i j (g i j (getCell m i j))) r)
          (List.replicate n (List.replicate n 0)) := by
  obtain ⟨s1, e1⟩ := inplace_fill g m hm
  obtain ⟨s2, e2⟩ := fresh_fill n (fun i j => g i j (getCell m i j))
  apply shape_ext s1 s2
  intro i j hi hj
  rw [e1 i j hi hj, e2 i j hi hj]

/-- Allocating every row again and filling it from a well-shaped storage `t` leaves `t`. -/
theorem refill_eq [Zero α] {n : Nat} (t m0 : List (List α)) (ht : Shape n t)
    (h0 : m0.length = n) :
    forLoop n
        (fun i m =>
          forLoop n (fun j m => setCell m i j (getCell t i j)) (m.set i (List.replicate n 0)))
        m0 = t := by
  obtain ⟨hl, hr⟩ := ht
  apply List.ext_getElem?
  intro r
  rw [copy_loop_getElem?]
  by_cases h : r < n
  · have hlt : r < t.length := by omega
    have hrow : (t[r]).length = n := hr _ (List.getElem_mem hlt)
    have h2 : r < n ∧ r < m0.length := ⟨h, by omega⟩
    simp only [h2, and_self, if_true, List.getElem?_eq_getElem hlt, Option.some.injEq]
    apply List.ext_getElem?
    intro c
    rw [row_loop_getElem?]
    simp only [List.length_replicate, and_self]
    by_cases hc : c < n
    · have hc2 : c < (t[r]).length := by omega
      simp [hc, getCell, List.getElem?_eq_getElem hlt, List.getElem?_eq_getElem hc2]
    · have hc2 : (t[r]).length ≤ c := by omega
      simp [hc, List.getElem?_eq_none hc2, List.getElem?_replicate]
  · have hlt : t.length ≤ r := by omega
    have hlt0 : m0.length ≤ r := by omega
    have h2 : ¬ (r < n ∧ r < m0.length) := fun hh => h hh.1
    simp [h2, List.getElem?_eq_none hlt, List.getElem?_eq_none hlt0]

end ScalarAndCompoundLemmas

end squaremat

namespace squaremat

section PlainOperators

variable {α : Type}

/-- C17: for matrices `a`, `b` of the same order and all `i, j` below the order,
`add(a,b)[i][j] = a[i][j] + b[i][j]` and `subtract(a,b)[i][j] = a[i][j] - b[i][j]`; and
`[[1,2],[3,4]] + [[5,6],[7,8]] = [[6,8],[10,12]]`, their difference being
`[[-4,-4],[-4,-4]]`. -/
theorem add_subtract_cells [Zero α] [Add α] [Sub α] (a b : SquareMat α) (ha : a.WF)
    (h : a.size = b.size) :
    (∃ r, SquareMat.add a b = .ok r ∧ r.size = a.size ∧
        ∀ i j, i < a.size → j < a.size →
          getCell r.matrix i j = getCell a.matrix i j + getCell b.matrix i j) ∧
      (∃ r, SquareMat.subtract a b = .ok r ∧ r.size = a.size ∧
        ∀ i j, i < a.size → j < a.size →
          getCell r.matrix i j = getCell a.matrix i j - getCell b.matrix i j) ∧
      SquareMat.add (⟨2, [[1, 2], [3, 4]]⟩ : SquareMat Int) ⟨2, [[5, 6], [7, 8]]⟩
        = .ok ⟨2, [[6, 8], [10, 12]]⟩ ∧
      SquareMat.subtract (⟨2, [[1, 2], [3, 4]]⟩ : SquareMat Int) ⟨2, [[5, 6], [7, 8]]⟩
        = .ok ⟨2, [[-4, -4], [-4, -4]]⟩ :=
  ⟨⟨_, add_eq a b ha.1 h, rfl,
      (fresh_fill a.size (fun i j => getCell a.matrix i j + getCell b.matrix i j)).2⟩,
    ⟨_, subtract_eq a b ha.1 h, rfl,
      (fresh_fill a.size (fun i j => getCell a.matrix i j - getCell b.matrix i j)).2⟩,
    rfl, rfl⟩

/-- Witness for C17: the sum of the specification's example, over the integers. -/
theorem add_subtract_cells_witness :
    ∃ r, SquareMat.add (⟨2, [[1, 2], [3, 4]]⟩ : SquareMat Int) ⟨2, [[5, 6], [7, 8]]⟩ = .ok r ∧
      r.size = 2 ∧
      ∀ i j, i < 2 → j < 2 →
        getCell r.matrix i j
          = getCell ([[1, 2], [3, 4]] : List (List Int)) i j
            + getCell ([[5, 6], [7, 8]] : List (List Int)) i j :=
  (add_subtract_cells (⟨2, [[1, 2], [3, 4]]⟩ : SquareMat Int) ⟨2, [[5, 6], [7, 8]]⟩
    ⟨by decide, by decide, by decide⟩ rfl).1

/-- C18: for matrices `a`, `b` of the same order and all `i, j` below the order,
`elementwiseMultiply(a,b)[i][j] = a[i][j] * b[i][j]`; and `[[1,2],[3,4]]` element-wise
multiplied by `[[5,6],[7,8]]` is `[[5,12],[21,32]]`. -/
theorem elementwiseMultiply_cells [Zero α] [Mul α] (a b : SquareMat α) (ha : a.WF)
    (h : a.size = b.size) :
    (∃ r, SquareMat.elementwiseMultiply a b = .ok r ∧ r.size = a.size ∧
        ∀ i j, i < a.size → j < a.size →
          getCell r.matrix i j = getCell a.matrix i j * getCell b.matrix i j) ∧
      SquareMat.elementwiseMultiply (⟨2, [[1, 2], [3, 4]]⟩ : SquareMat Int)
          ⟨2, [[5, 6], [7, 8]]⟩
        = .ok ⟨2, [[5, 12], [21, 32]]⟩ :=
  ⟨⟨_, elementwiseMultiply_eq a b ha.1 h, rfl,
      (fresh_fill a.size (fun i j => getCell a.matrix i j * getCell b.matrix i j)).2⟩,
    rfl⟩

/-- Witness for C18: the element-wise product of the specification's example, over the
integers. -/
theorem elementwiseMultiply_cells_witness :
    ∃ r, SquareMat.elementwiseMultiply (⟨2, [[1, 2], [3, 4]]⟩ : SquareMat Int)
        ⟨2, [[5, 6], [7, 8]]⟩ = .ok r ∧ r.size = 2 ∧
      ∀ i j, i < 2 → j < 2 →
        getCell r.matrix i j
          = getCell ([[1, 2], [3, 4]] : List (List Int)) i j
            * getCell ([[5, 6], [7, 8]] : List (List Int)) i j :=
  (elementwiseMultiply_cells (⟨2, [[1, 2], [3, 4]]⟩ : SquareMat Int) ⟨2, [[5, 6], [7, 8]]⟩
    ⟨by decide, by decide, by decide⟩ rfl).1

/-- C19: for every matrix `a` and scalar `s` (zero included) scalarMultiply returns a
matrix of the same order whose cell `[i][j]` is `a[i][j] * s`, and the scalar-by-matrix
ordering `s * a` returns the very result of the matrix-by-scalar ordering `a * s`. -/
theorem scalarMultiply_cells [Zero α] [Mul α] (a : SquareMat α) (ha : a.WF) (s : α) :
    (∃ r, SquareMat.scalarMultiply a s = .ok r ∧ r.size = a.size ∧
        ∀ i j, i < a.size → j < a.size → getCell r.matrix i j = getCell a.matrix i j * s) ∧
      scalarMultiplyLeft s a = SquareMat.scalarMultiply a s :=
  ⟨⟨_, scalarMultiply_eq a ha.1 s, rfl,
      (fresh_fill a.size (fun i j => getCell a.matrix i j * s)).2⟩,
    rfl⟩

/-- Witness for C19: `[[1,2],[3,4]]` times the scalar 0, from the left and from the right,
over the integers. -/
theorem scalarMultiply_cells_witness :
    scalarMultiplyLeft 0 (⟨2, [[1, 2], [3, 4]]⟩ : SquareMat Int)
        = SquareMat.scalarMultiply (⟨2, [[1, 2], [3, 4]]⟩ : SquareMat Int) 0 ∧
      SquareMat.scalarMultiply (⟨2, [[1, 2], [3, 4]]⟩ : SquareMat Int) 0
        = .ok ⟨2, [[0, 0], [0, 0]]⟩ :=
  ⟨(scalarMultiply_cells (⟨2, [[1, 2], [3, 4]]⟩ : SquareMat Int)
    ⟨by decide, by decide, by decide⟩ 0).2, rfl⟩

/-- C20: for every matrix `a`, negate succeeds and returns a matrix of the same order
whose cell `[i][j]` is `-a[i][j]` for all `i, j` below the order. -/
theorem negate_cells [Zero α] [Neg α] (a : SquareMat α) (ha : a.WF) :
    ∃ r, SquareMat.negate a = .ok r ∧ r.size = a.size ∧
      ∀ i j, i < a.size → j < a.size → getCell r.matrix i j = -getCell a.matrix i j :=
  ⟨_, negate_eq a ha.1, rfl, (fresh_fill a.size (fun i j => -getCell a.matrix i j)).2⟩

/-- Witness for C20: the negation of `[[1,2],[3,4]]` over the integers. -/
theorem negate_cells_witness :
    ∃ r, SquareMat.negate (⟨2, [[1, 2], [3, 4]]⟩ : SquareMat Int) = .ok r ∧ r.size = 2 ∧
      ∀ i j, i < 2 → j < 2 →
        getCell r.matrix i j = -getCell ([[1, 2], [3, 4]] : List (List Int)) i j :=
  negate_cells (⟨2, [[1, 2], [3, 4]]⟩ : SquareMat Int) ⟨by decide, by decide, by decide⟩

/-- C15: for every matrix `a` and scalar `s`, scalarDivide fails with `invalid_argument`
exactly when `s = 0`; otherwise it returns a matrix of the same order whose cell `[i][j]`
is `a[i][j] / s`; and `[[1,2],[3,4]] / 2 = [[0.5,1],[1.5,2]]`. -/
theorem scalarDivide_fails_iff_zero [Zero α] [Div α] [DecidableEq α] (a : SquareMat α)
    (ha : a.WF) (s : α) :
    (SquareMat.scalarDivide a s = .error .invalid_argument ↔ s = 0) ∧
      (s ≠ 0 →
        ∃ r, SquareMat.scalarDivide a s = .ok r ∧ r.size = a.size ∧
          ∀ i j, i < a.size → j < a.size →
            getCell r.matrix i j = getCell a.matrix i j / s) ∧
      SquareMat.scalarDivide (⟨2, [[1, 2], [3, 4]]⟩ : SquareMat ℚ) 2
        = .ok ⟨2, [[1 / 2, 1], [3 / 2, 2]]⟩ := by
  refine ⟨⟨?_, ?_⟩, ?_, ?_⟩
  · intro h
    by_contra hs
    rw [scalarDivide_eq a ha.1 s hs] at h
    cases h
  · intro hs
    unfold SquareMat.scalarDivide
    rw [if_pos hs]
  · intro hs
    exact ⟨_, scalarDivide_eq a ha.1 s hs, rfl,
      (fresh_fill a.size (fun i j => getCell a.matrix i j / s)).2⟩
  · simp [SquareMat.scalarDivide, SquareMat.new, forLoop, setCell, getCell]
    norm_num

/-- Witness for C15: division of `[[1,2],[3,4]]` by the scalar 0, over the rationals. -/
theorem scalarDivide_fails_iff_zero_witness :
    SquareMat.scalarDivide (⟨2, [[1, 2], [3, 4]]⟩ : SquareMat ℚ) 0
      = .error .invalid_argument :=
  (scalarDivide_fails_iff_zero (⟨2, [[1, 2], [3, 4]]⟩ : SquareMat ℚ)
    ⟨by decide, by decide, by decide⟩ 0).1.2 rfl

end PlainOperators

end squaremat

namespace squaremat

section CompoundOperators

variable {α : Type}

theorem addAssign_eq [Zero α] [Add α] (a b : SquareMat α) (ha : a.WF) (h : a.size = b.size) :
    SquareMat.addAssign a b = Call.returnThis ⟨a.size,
      forLoop a.size
        (fun i m =>
          forLoop a.size
            (fun j m => setCell m i j (getCell a.matrix i j + getCell b.matrix i j)) m)
        (List.replicate a.size (List.replicate a.size 0))⟩ := by
  unfold SquareMat.addAssign
  rw [if_neg (by simpa using h)]
  congr 2
  exact inplace_eq_fresh (fun i j x => x + getCell b.matrix i j) a.matrix ha.2

theorem subtractAssign_eq [Zero α] [Sub α] (a b : SquareMat α) (ha : a.WF)
    (h : a.size = b.size) :
    SquareMat.subtractAssign a b = Call.returnThis ⟨a.size,
      forLoop a.size
        (fun i m =>
          forLoop a.size
            (fun j m => setCell m i j (getCell a.matrix i j - getCell b.matrix i j)) m)
        (List.replicate a.size (List.replicate a.size 0))⟩ := by
  unfold SquareMat.subtractAssign
  rw [if_neg (by simpa using h)]
  congr 2
  exact inplace_eq_fresh (fun i j x => x - getCell b.matrix i j) a.matrix ha.2

theorem elementwiseMultiplyAssign_eq [Zero α] [Mul α] (a b : SquareMat α) (ha : a.WF)
    (h : a.size = b.size) :
    SquareMat.elementwiseMultiplyAssign a b = Call.returnThis ⟨a.size,
      forLoop a.size
        (fun i m =>
          forLoop a.size
            (fun j m => setCell m i j (getCell a.matrix i j * getCell b.matrix i j)) m)
        (List.replicate a.size (List.replicate a.size 0))⟩ := by
  unfold SquareMat.elementwiseMultiplyAssign
  rw [if_neg (by simpa using h)]
  congr 2
  exact inplace_eq_fresh (fun i j x => x * getCell b.matrix i j) a.matrix ha.2

theorem multiplyAssign_eq [Zero α] [Add α] [Mul α] (a b : SquareMat α) (ha : a.WF)
    (h : a.size = b.size) :
    ∃ r, SquareMat.matrixMultiply a b = .ok r ∧
      SquareMat.multiplyAssign a b = Call.returnThis r := by
  obtain ⟨r, hr, hrs, hrm⟩ := matrixMultiply_wf a b ha.1 h
  refine ⟨r, hr, ?_⟩
  unfold SquareMat.multiplyAssign
  rw [if_neg (by simpa using h), hr]
  simp only
  congr 1
  obtain ⟨rn, rm⟩ := r
  simp only at hrs hrm
  subst hrs
  simp only [SquareMat.mk.injEq, true_and]
  exact refill_eq rm a.matrix hrm ha.2.1

theorem scalarMultiplyAssign_eq [Zero α] [Mul α] [DecidableEq α] (a : SquareMat α)
    (ha : a.WF) (s : α) (hs : s ≠ 0) :
    SquareMat.scalarMultiplyAssign a s = Call.returnThis ⟨a.size,
      forLoop a.size
        (fun i m => forLoop a.size (fun j m => setCell m i j (getCell a.matrix i j * s)) m)
        (List.replicate a.size (List.replicate a.size 0))⟩ := by
  unfold SquareMat.scalarMultiplyAssign
  rw [if_neg hs]
  congr 2
  exact inplace_eq_fresh (fun _ _ x => x * s) a.matrix ha.2

theorem divideAssign_eq [Zero α] [Div α] [DecidableEq α] (a : SquareMat α)
    (ha : a.WF) (s : α) (hs : s ≠ 0) :
    SquareMat.divideAssign a s = Call.returnThis ⟨a.size,
      forLoop a.size
        (fun i m => forLoop a.size (fun j m => setCell m i j (getCell a.matrix i j / s)) m)
        (List.replicate a.size (List.replicate a.size 0))⟩ := by
  unfold SquareMat.divideAssign
  rw [if_neg hs]
  congr 2
  exact inplace_eq_fresh (fun _ _ x => x / s) a.matrix ha.2

theorem moduloAssign_eq [Zero α] [IntCast α] (f : α → α → α) (a : SquareMat α)
    (ha : a.WF) (k : Int) (hk : k ≠ 0) :
    SquareMat.moduloAssign f a k = Call.returnThis ⟨a.size,
      forLoop a.size
        (fun i m =>
          forLoop a.size (fun j m => setCell m i j (f (getCell a.matrix i j) (k : α))) m)
        (List.replicate a.size (List.replicate a.size 0))⟩ := by
  unfold SquareMat.moduloAssign
  rw [if_neg hk]
  congr 2
  exact inplace_eq_fresh (fun _ _ x => f x (k : α)) a.matrix ha.2

/-- An update in place that reads the written cell twice. -/
theorem inplace_self_eq [Zero α] {n : Nat} (op : α → α → α) (m : List (List α))
    (hm : Shape n m) :
    forLoop n
        (fun i m1 => forLoop n (fun j m1 => setCell m1 i j (op (getCell m1 i j) (getCell m1 i j))) m1)
        m
      = forLoop n
          (fun i m1 =>
            forLoop n (fun j m1 => setCell m1 i j (op (getCell m1 i j) (getCell m i j))) m1)
          m := by
  obtain ⟨s1, e1⟩ := inplace_fill (fun _ _ x => op x x) m hm
  obtain ⟨s2, e2⟩ := inplace_fill (fun i j x => op x (getCell m i j)) m hm
  apply shape_ext s1 s2
  intro i j hi hj
  rw [e1 i j hi hj, e2 i j hi hj]

end CompoundOperators

end squaremat

namespace squaremat

section CompoundClaims

variable {α : Type}

/-- C11: for matrices `a`, `b` of the same order each of `+=`, `-=`, matrix `*=` and matrix
`%=` succeeds, leaves the left operand equal (same order, same cells) to the result of
add, subtract, matrixMultiply, elementwiseMultiply on the original `a` and `b`, and returns
that updated left operand; the calls `a += a`, `a -= a`, `a %= a`, whose argument is the
left operand itself, do what the same calls do on a separate copy of `a`. -/
theorem compound_matrix_forms_agree [Zero α] [Add α] [Sub α] [Mul α] (a b : SquareMat α)
    (ha : a.WF) (h : a.size = b.size) :
    (∃ r, SquareMat.add a b = .ok r ∧ (SquareMat.addAssign a b).after = r ∧
        (SquareMat.addAssign a b).returned = .ok r) ∧
      (∃ r, SquareMat.subtract a b = .ok r ∧ (SquareMat.subtractAssign a b).after = r ∧
        (SquareMat.subtractAssign a b).returned = .ok r) ∧
      (∃ r, SquareMat.matrixMultiply a b = .ok r ∧ (SquareMat.multiplyAssign a b).after = r ∧
        (SquareMat.multiplyAssign a b).returned = .ok r) ∧
      (∃ r, SquareMat.elementwiseMultiply a b = .ok r ∧
        (SquareMat.elementwiseMultiplyAssign a b).after = r ∧
        (SquareMat.elementwiseMultiplyAssign a b).returned = .ok r) ∧
      SquareMat.addAssignSelf a = SquareMat.addAssign a a ∧
      SquareMat.subtractAssignSelf a = SquareMat.subtractAssign a a ∧
      SquareMat.elementwiseMultiplyAssignSelf a = SquareMat.elementwiseMultiplyAssign a a := by
  refine ⟨⟨_, add_eq a b ha.1 h, ?_, ?_⟩, ⟨_, subtract_eq a b ha.1 h, ?_, ?_⟩, ?_,
    ⟨_, elementwiseMultiply_eq a b ha.1 h, ?_, ?_⟩, ?_, ?_, ?_⟩
  · rw [addAssign_eq a b ha h]; rfl
  · rw [addAssign_eq a b ha h]; rfl
  · rw [subtractAssign_eq a b ha h]; rfl
  · rw [subtractAssign_eq a b ha h]; rfl
  · obtain ⟨r, hr, hc⟩ := multiplyAssign_eq a b ha h
    exact ⟨r, hr, by rw [hc]; rfl, by rw [hc]; rfl⟩
  · rw [elementwiseMultiplyAssign_eq a b ha h]; rfl
  · rw [elementwiseMultiplyAssign_eq a b ha h]; rfl
  · unfold SquareMat.addAssignSelf SquareMat.addAssign
    rw [inplace_self_eq (fun x y => x + y) a.matrix ha.2]
  · unfold SquareMat.subtractAssignSelf SquareMat.subtractAssign
    rw [inplace_self_eq (fun x y => x - y) a.matrix ha.2]
  · unfold SquareMat.elementwiseMultiplyAssignSelf SquareMat.elementwiseMultiplyAssign
    rw [inplace_self_eq (fun x y => x * y) a.matrix ha.2]

/-- Witness for C11: the four compound forms on `[[1,2],[3,4]]` and `[[5,6],[7,8]]`, over
the integers. -/
theorem compound_matrix_forms_agree_witness :
    (SquareMat.addAssign (⟨2, [[1, 2], [3, 4]]⟩ : SquareMat Int) ⟨2, [[5, 6], [7, 8]]⟩).after
        = ⟨2, [[6, 8], [10, 12]]⟩ ∧
      (SquareMat.multiplyAssign (⟨2, [[1, 2], [3, 4]]⟩ : SquareMat Int)
          ⟨2, [[5, 6], [7, 8]]⟩).after = ⟨2, [[19, 22], [43, 50]]⟩ ∧
      ∃ r, SquareMat.matrixMultiply (⟨2, [[1, 2], [3, 4]]⟩ : SquareMat Int)
          ⟨2, [[5, 6], [7, 8]]⟩ = .ok r ∧
        (SquareMat.multiplyAssign (⟨2, [[1, 2], [3, 4]]⟩ : SquareMat Int)
          ⟨2, [[5, 6], [7, 8]]⟩).after = r ∧
        (SquareMat.multiplyAssign (⟨2, [[1, 2], [3, 4]]⟩ : SquareMat Int)
          ⟨2, [[5, 6], [7, 8]]⟩).returned = .ok r :=
  ⟨rfl, rfl,
    (compound_matrix_forms_agree (⟨2, [[1, 2], [3, 4]]⟩ : SquareMat Int) ⟨2, [[5, 6], [7, 8]]⟩
      ⟨by decide, by decide, by decide⟩ rfl).2.2.1⟩

/-- C12: compound scalar multiply `a *= s` fails with `invalid_argument` exactly when `s` is
zero, and for `s != 0` leaves `a` equal to `scalarMultiply(a, s)` and returns it; whereas
plain `scalarMultiply(a, 0)` succeeds and returns a matrix of the same order. -/
theorem scalarMultiplyAssign_fails_iff_zero [Zero α] [Mul α] [DecidableEq α]
    (a : SquareMat α) (ha : a.WF) (s : α) :
    ((SquareMat.scalarMultiplyAssign a s).returned = .error .invalid_argument ↔ s = 0) ∧
      (s ≠ 0 →
        ∃ r, SquareMat.scalarMultiply a s = .ok r ∧
          (SquareMat.scalarMultiplyAssign a s).after = r ∧
          (SquareMat.scalarMultiplyAssign a s).returned = .ok r) ∧
      ∃ r, SquareMat.scalarMultiply a 0 = .ok r ∧ r.size = a.size := by
  refine ⟨⟨?_, ?_⟩, ?_, ⟨_, scalarMultiply_eq a ha.1 0, rfl⟩⟩
  · intro h
    by_contra hs
    rw [scalarMultiplyAssign_eq a ha s hs] at h
    cases h
  · intro hs
    unfold SquareMat.scalarMultiplyAssign
    rw [if_pos hs]
    rfl
  · intro hs
    refine ⟨_, scalarMultiply_eq a ha.1 s, ?_, ?_⟩
    · rw [scalarMultiplyAssign_eq a ha s hs]; rfl
    · rw [scalarMultiplyAssign_eq a ha s hs]; rfl

/-- Witness for C12: `[[1,2],[3,4]] *= 0` against `[[1,2],[3,4]] * 0`, over the
integers. -/
theorem scalarMultiplyAssign_fails_iff_zero_witness :
    (SquareMat.scalarMultiplyAssign (⟨2, [[1, 2], [3, 4]]⟩ : SquareMat Int) 0).returned
        = .error .invalid_argument ∧
      SquareMat.scalarMultiply (⟨2, [[1, 2], [3, 4]]⟩ : SquareMat Int) 0
        = .ok ⟨2, [[0, 0], [0, 0]]⟩ :=
  ⟨(scalarMultiplyAssign_fails_iff_zero (⟨2, [[1, 2], [3, 4]]⟩ : SquareMat Int)
    ⟨by decide, by decide, by decide⟩ 0).1.2 rfl, rfl⟩

/-- C13: for every matrix `a`, compound divide `a /= s` and compound modulo `a %= k` fail
with `invalid_argument` exactly when the scalar is 0; for a nonzero scalar they leave `a`
equal (same order, same cells) to `scalarDivide(a, s)` and `scalarModulo(a, k)`, whatever
function `fmod` is; and `[[1,2],[3,4]] /= 2` gives `[[0.5,1],[1.5,2]]`, and with the
library's `fmod` `[[5,6],[7,8]] %= 4` gives `[[1,2],[3,0]]`. -/
theorem divide_modulo_assign_agree [Zero α] [Div α] [DecidableEq α] [IntCast α]
    (f : α → α → α) (a : SquareMat α) (ha : a.WF) (s : α) (k : Int) :
    ((SquareMat.divideAssign a s).returned = .error .invalid_argument ↔ s = 0) ∧
      (s ≠ 0 →
        ∃ r, SquareMat.scalarDivide a s = .ok r ∧ (SquareMat.divideAssign a s).after = r ∧
          (SquareMat.divideAssign a s).returned = .ok r) ∧
      ((SquareMat.moduloAssign f a k).returned = .error .invalid_argument ↔ k = 0) ∧
      (k ≠ 0 →
        ∃ r, SquareMat.scalarModulo f a k = .ok r ∧ (SquareMat.moduloAssign f a k).after = r ∧
          (SquareMat.moduloAssign f a k).returned = .ok r) ∧
      (SquareMat.divideAssign (⟨2, [[1, 2], [3, 4]]⟩ : SquareMat ℚ) 2).after
        = ⟨2, [[1 / 2, 1], [3 / 2, 2]]⟩ ∧
      (SquareMat.moduloAssign fmod (⟨2, [[5, 6], [7, 8]]⟩ : SquareMat ℚ) 4).after
        = ⟨2, [[1, 2], [3, 0]]⟩ := by
  refine ⟨⟨?_, ?_⟩, ?_, ⟨?_, ?_⟩, ?_, ?_, ?_⟩
  · intro h
    by_contra hs
    rw [divideAssign_eq a ha s hs] at h
    cases h
  · intro hs
    unfold SquareMat.divideAssign
    rw [if_pos hs]
    rfl
  · intro hs
    refine ⟨_, scalarDivide_eq a ha.1 s hs, ?_, ?_⟩
    · rw [divideAssign_eq a ha s hs]; rfl
    · rw [divideAssign_eq a ha s hs]; rfl
  · intro h
    by_contra hk
    rw [moduloAssign_eq f a ha k hk] at h
    cases h
  · intro hk
    unfold SquareMat.moduloAssign
    rw [if_pos hk]
    rfl
  · intro hk
    refine ⟨_, scalarModulo_eq f a ha.1 k hk, ?_, ?_⟩
    · rw [moduloAssign_eq f a ha k hk]; rfl
    · rw [moduloAssign_eq f a ha k hk]; rfl
  · simp [SquareMat.divideAssign, Call.returnThis, forLoop, setCell, getCell]
    norm_num
  · simp [SquareMat.moduloAssign, Call.returnThis, forLoop, setCell, getCell, fmod, trunc]
    norm_num

/-- Witness for C13: `[[5,6],[7,8]] %= 0` with the library's `fmod`, over the rationals. -/
theorem divide_modulo_assign_agree_witness :
    (SquareMat.moduloAssign fmod (⟨2, [[5, 6], [7, 8]]⟩ : SquareMat ℚ) 0).returned
      = .error .invalid_argument :=
  (divide_modulo_assign_agree fmod (⟨2, [[5, 6], [7, 8]]⟩ : SquareMat ℚ)
    ⟨by decide, by decide, by decide⟩ 0 0).2.2.1.2 rfl

/-- C14: whenever a compound operator fails (`+=`, `-=`, matrix `*=`, matrix `%=`, scalar
`*=`, `/=`, scalar `%=`), the left operand is as before the call: same order, same cells. -/
theorem failed_compound_leaves_operand [Zero α] [Add α] [Sub α] [Mul α] [Div α]
    [DecidableEq α] [IntCast α] (f : α → α → α) (a b : SquareMat α) (s : α) (k : Int)
    (e : Error) :
    ((SquareMat.addAssign a b).returned = .error e → (SquareMat.addAssign a b).after = a) ∧
      ((SquareMat.subtractAssign a b).returned = .error e →
        (SquareMat.subtractAssign a b).after = a) ∧
      ((SquareMat.multiplyAssign a b).returned = .error e →
        (SquareMat.multiplyAssign a b).after = a) ∧
      ((SquareMat.elementwiseMultiplyAssign a b).returned = .error e →
        (SquareMat.elementwiseMultiplyAssign a b).after = a) ∧
      ((SquareMat.scalarMultiplyAssign a s).returned = .error e →
        (SquareMat.scalarMultiplyAssign a s).after = a) ∧
      ((SquareMat.divideAssign a s).returned = .error e →
        (SquareMat.divideAssign a s).after = a) ∧
      ((SquareMat.moduloAssign f a k).returned = .error e →
        (SquareMat.moduloAssign f a k).after = a) := by
  refine ⟨?_, ?_, ?_, ?_, ?_, ?_, ?_⟩
  · unfold SquareMat.addAssign
    split
    · intro _; rfl
    · intro h; cases h
  · unfold SquareMat.subtractAssign
    split
    · intro _; rfl
    · intro h; cases h
  · unfold SquareMat.multiplyAssign
    split
    · intro _; rfl
    · split
      · intro _; rfl
      · intro h; cases h
  · unfold SquareMat.elementwiseMultiplyAssign
    split
    · intro _; rfl
    · intro h; cases h
  · unfold SquareMat.scalarMultiplyAssign
    split
    · intro _; rfl
    · intro h; cases h
  · unfold SquareMat.divideAssign
    split
    · intro _; rfl
    · intro h; cases h
  · unfold SquareMat.moduloAssign
    split
    · intro _; rfl
    · intro h; cases h

/-- Witness for C14: `+=` of a matrix of order 3 onto `[[1,2],[3,4]]`, over the integers. -/
theorem failed_compound_leaves_operand_witness :
    (SquareMat.addAssign (⟨2, [[1, 2], [3, 4]]⟩ : SquareMat Int)
        ⟨3, [[0, 0, 0], [0, 0, 0], [0, 0, 0]]⟩).returned = .error .invalid_argument ∧
      (SquareMat.addAssign (⟨2, [[1, 2], [3, 4]]⟩ : SquareMat Int)
        ⟨3, [[0, 0, 0], [0, 0, 0], [0, 0, 0]]⟩).after = ⟨2, [[1, 2], [3, 4]]⟩ :=
  ⟨rfl,
    (failed_compound_leaves_operand (fun x _ => x) (⟨2, [[1, 2], [3, 4]]⟩ : SquareMat Int)
      ⟨3, [[0, 0, 0], [0, 0, 0], [0, 0, 0]]⟩ 0 0 .invalid_argument).1 rfl⟩

end CompoundClaims

end squaremat

namespace squaremat

section Remainder

variable {α : Type}

/-- What truncation leaves: less than 1 in absolute value, and of the sign of `q`. -/
theorem sub_trunc_bounds [LinearOrderedField α] [FloorRing α] (q : α) :
    |q - (trunc q : α)| < 1 ∧ (0 ≤ q → 0 ≤ q - (trunc q : α)) ∧
      (q ≤ 0 → q - (trunc q : α) ≤ 0) := by
  unfold trunc
  by_cases h : 0 ≤ q
  · rw [if_pos h]
    have h1 : (⌊q⌋ : α) ≤ q := Int.floor_le q
    have h2 : q < (⌊q⌋ : α) + 1 := Int.lt_floor_add_one q
    refine ⟨?_, fun _ => by linarith, fun hq => ?_⟩
    · rw [abs_lt]; constructor <;> linarith
    · have hq0 : q = 0 := le_antisymm hq h
      subst hq0
      simp
  · rw [if_neg h]
    have h1 : q ≤ (⌈q⌉ : α) := Int.le_ceil q
    have h2 : (⌈q⌉ : α) < q + 1 := Int.ceil_lt_add_one q
    refine ⟨?_, fun hq => absurd hq h, fun _ => by linarith⟩
    rw [abs_lt]; constructor <;> linarith

theorem fmod_eq_mul [LinearOrderedField α] [FloorRing α] (x y : α) (hy : y ≠ 0) :
    fmod x y = y * (x / y - (trunc (x / y) : α)) := by
  unfold fmod
  rw [mul_sub, mul_div_cancel₀ x hy]

/-- The remainder is smaller than the divisor in absolute value. -/
theorem abs_fmod_lt [LinearOrderedField α] [FloorRing α] (x y : α) (hy : y ≠ 0) :
    |fmod x y| < |y| := by
  rw [fmod_eq_mul x y hy, abs_mul]
  have h1 := (sub_trunc_bounds (x / y)).1
  have h2 : 0 < |y| := abs_pos.mpr hy
  calc |y| * |x / y - (trunc (x / y) : α)| < |y| * 1 := mul_lt_mul_of_pos_left h1 h2
    _ = |y| := mul_one _

/-- The remainder is zero or has the sign of the dividend. -/
theorem fmod_sign [LinearOrderedField α] [FloorRing α] (x y : α) (hy : y ≠ 0) :
    fmod x y = 0 ∨ (0 < fmod x y ∧ 0 < x) ∨ (fmod x y < 0 ∧ x < 0) := by
  obtain ⟨_, hpos, hneg⟩ := sub_trunc_bounds (x / y)
  have hnonneg : 0 < x → 0 ≤ fmod x y := by
    intro hx
    rw [fmod_eq_mul x y hy]
    rcases lt_or_gt_of_ne hy with hy1 | hy1
    · exact mul_nonneg_of_nonpos_of_nonpos hy1.le (hneg (div_nonpos_of_nonneg_of_nonpos hx.le hy1.le))
    · exact mul_nonneg hy1.le (hpos (div_nonneg hx.le hy1.le))
  have hnonpos : x < 0 → fmod x y ≤ 0 := by
    intro hx
    rw [fmod_eq_mul x y hy]
    rcases lt_or_gt_of_ne hy with hy1 | hy1
    · exact mul_nonpos_of_nonpos_of_nonneg hy1.le (hpos (div_nonneg_of_nonpos hx.le hy1.le))
    · exact mul_nonpos_of_nonneg_of_nonpos hy1.le (hneg (div_nonpos_of_nonpos_of_nonneg hx.le hy1.le))
  rcases lt_trichotomy x 0 with hx | hx | hx
  · rcases (hnonpos hx).lt_or_eq with h | h
    · exact Or.inr (Or.inr ⟨h, hx⟩)
    · exact Or.inl h
  · subst hx
    left
    simp [fmod, trunc]
  · rcases (hnonneg hx).lt_or_eq with h | h
    · exact Or.inr (Or.inl ⟨h, hx⟩)
    · exact Or.inl h.symm

end Remainder

end squaremat

namespace squaremat

section Modulo

variable {α : Type}

/-- C16: with `fmod` the remainder of the truncated division, for every matrix `a` and
integer scalar `s`, `scalarModulo(a, s)` fails with `invalid_argument` exactly when
`s = 0`; otherwise each result cell is `r = fmod(a[i][j], s) = a[i][j] - s*trunc(a[i][j]/s)`,
with `|r| < |s|` and `r` zero or of the sign of the dividend `a[i][j]`; and
`[[5,6],[7,8]] % 4 = [[1,2],[3,0]]`, while `[[-5]] % 4 = [[-1]]`. -/
theorem scalarModulo_truncated_remainder [LinearOrderedField α] [FloorRing α]
    (a : SquareMat α) (ha : a.WF) (s : Int) :
    (SquareMat.scalarModulo fmod a s = .error .invalid_argument ↔ s = 0) ∧
      (s ≠ 0 →
        ∃ r, SquareMat.scalarModulo fmod a s = .ok r ∧ r.size = a.size ∧
          ∀ i j, i < a.size → j < a.size →
            getCell r.matrix i j = fmod (getCell a.matrix i j) (s : α) ∧
              getCell r.matrix i j
                = getCell a.matrix i j - (s : α) * (trunc (getCell a.matrix i j / (s : α)) : α) ∧
              |getCell r.matrix i j| < |(s : α)| ∧
              (getCell r.matrix i j = 0 ∨
                (0 < getCell r.matrix i j ∧ 0 < getCell a.matrix i j) ∨
                (getCell r.matrix i j < 0 ∧ getCell a.matrix i j < 0))) ∧
      SquareMat.scalarModulo fmod (⟨2, [[5, 6], [7, 8]]⟩ : SquareMat ℚ) 4
        = .ok ⟨2, [[1, 2], [3, 0]]⟩ ∧
      SquareMat.scalarModulo fmod (⟨1, [[-5]]⟩ : SquareMat ℚ) 4 = .ok ⟨1, [[-1]]⟩ := by
  refine ⟨⟨?_, ?_⟩, ?_, ?_, ?_⟩
  · intro h
    by_contra hs
    rw [scalarModulo_eq fmod a ha.1 s hs] at h
    cases h
  · intro hs
    unfold SquareMat.scalarModulo
    rw [if_pos hs]
  · intro hs
    have hs2 : (s : α) ≠ 0 := Int.cast_ne_zero.mpr hs
    refine ⟨_, scalarModulo_eq fmod a ha.1 s hs, rfl, ?_⟩
    intro i j hi hj
    have hc := (fresh_fill a.size (fun i j => fmod (getCell a.matrix i j) (s : α))).2 i j hi hj
    simp only at hc
    refine ⟨hc, ?_, ?_, ?_⟩
    · rw [hc]; rfl
    · rw [hc]; exact abs_fmod_lt _ _ hs2
    · rw [hc]; exact fmod_sign _ _ hs2
  · simp [SquareMat.scalarModulo, SquareMat.new, forLoop, setCell, getCell, fmod, trunc]
    norm_num
  · have h : fmod (-5 : ℚ) 4 = -1 := by
      have hc : ⌈(-5 / 4 : ℚ)⌉ = -1 := by rw [Int.ceil_eq_iff]; norm_num
      unfold fmod trunc
      rw [if_neg (by norm_num), hc]
      norm_num
    simp [SquareMat.scalarModulo, SquareMat.new, forLoop, setCell, getCell, h]

/-- Witness for C16: `[[5,6],[7,8]] % 0` over the rationals. -/
theorem scalarModulo_truncated_remainder_witness :
    SquareMat.scalarModulo fmod (⟨2, [[5, 6], [7, 8]]⟩ : SquareMat ℚ) 0
      = .error .invalid_argument :=
  (scalarModulo_truncated_remainder (⟨2, [[5, 6], [7, 8]]⟩ : SquareMat ℚ)
    ⟨by decide, by decide, by decide⟩ 0).1.2 rfl

end Modulo

end squaremat

namespace squaremat

section TransposeLemmas

variable {α : Type}

/-- One turn of the outer loop of the transpose: column `i` is written. -/
theorem fill_column [Zero α] {n : Nat} (f : Nat → α) (i : Nat) (hi : i < n)
    (m : List (List α)) (hm : Shape n m) (k : Nat) (hk : k ≤ n) :
    Shape n (forLoop k (fun j m => setCell m j i (f j)) m) ∧
      (∀ r c, ¬ (c = i ∧ r < k) →
        getCell (forLoop k (fun j m => setCell m j i (f j)) m) r c = getCell m r c) ∧
      (∀ r, r < k → getCell (forLoop k (fun j m => setCell m j i (f j)) m) r i = f r) := by
  induction k with
  | zero => exact ⟨hm, fun _ _ _ => rfl, fun r hr => absurd hr (Nat.not_lt_zero r)⟩
  | succ k ih =>
    obtain ⟨s1, f1, e1⟩ := ih (Nat.le_of_succ_le hk)
    refine ⟨shape_setCell s1 k i _, ?_, ?_⟩
    · intro r c hne
      show getCell (setCell _ k i _) r c = _
      rw [getCell_setCell_ne _ k i r c _ (fun hh => hne ⟨hh.2, by omega⟩)]
      exact f1 r c (fun hh => hne ⟨hh.1, by omega⟩)
    · intro r hr
      show getCell (setCell _ k i _) r i = _
      by_cases hrk : r = k
      · subst hrk
        rw [getCell_setCell_eq s1 (by omega) hi]
      · rw [getCell_setCell_ne _ k i r i _ (fun hh => hrk hh.1)]
        exact e1 r (by omega)

/-- The loops of the transpose: the cell `(r, c)` receives the value computed at `(c, r)`. -/
theorem fill_transposed [Zero α] {n : Nat} (f : Nat → Nat → α) (m : List (List α))
    (hm : Shape n m) (k : Nat) (hk : k ≤ n) :
    Shape n (forLoop k (fun i m => forLoop n (fun j m => setCell m j i (f i j)) m) m) ∧
      (∀ r c, ¬ c < k →
        getCell (forLoop k (fun i m => forLoop n (fun j m => setCell m j i (f i j)) m) m) r c
          = getCell m r c) ∧
      (∀ r c, r < n → c < k →
        getCell (forLoop k (fun i m => forLoop n (fun j m => setCell m j i (f i j)) m) m) r c
          = f c r) := by
  induction k with
  | zero => exact ⟨hm, fun _ _ _ => rfl, fun r c _ hc => absurd hc (Nat.not_lt_zero c)⟩
  | succ k ih =>
    obtain ⟨s1, f1, e1⟩ := ih (Nat.le_of_succ_le hk)
    obtain ⟨s2, f2, e2⟩ := fill_column (f k) k (by omega) _ s1 n (Nat.le_refl n)
    refine ⟨s2, ?_, ?_⟩
    · intro r c hne
      show getCell (forLoop n (fun j m => setCell m j k (f k j)) _) r c = _
      rw [f2 r c (fun hh => hne (by omega))]
      exact f1 r c (fun hh => hne (by omega))
    · intro r c hr hc
      show getCell (forLoop n (fun j m => setCell m j k (f k j)) _) r c = _
      by_cases hck : c = k
      · subst hck
        exact e2 r hr
      · rw [f2 r c (fun hh => hck hh.1)]
        exact e1 r c hr (by omega)

theorem transpose_eq [Zero α] (a : SquareMat α) (ha : 1 ≤ a.size) :
    SquareMat.transpose a = .ok ⟨a.size,
      forLoop a.size
        (fun i m => forLoop a.size (fun j m => setCell m j i (getCell a.matrix i j)) m)
        (List.replicate a.size (List.replicate a.size 0))⟩ := by
  unfold SquareMat.transpose
  rw [new_eq _ ha]

/-- The storage the transpose leaves: well shaped, with `[r][c]` the cell `[c][r]`. -/
theorem transpose_storage [Zero α] (n : Nat) (m : List (List α)) :
    Shape n
        (forLoop n (fun i t => forLoop n (fun j t => setCell t j i (getCell m i j)) t)
          (List.replicate n (List.replicate n 0))) ∧
      ∀ r c, r < n → c < n →
        getCell
            (forLoop n (fun i t => forLoop n (fun j t => setCell t j i (getCell m i j)) t)
              (List.replicate n (List.replicate n 0))) r c = getCell m c r := by
  obtain ⟨s1, _, e1⟩ := fill_transposed (fun i j => getCell m i j) _ (shape_replicate n (0 : α))
    n (Nat.le_refl n)
  exact ⟨s1, fun r c hr hc => e1 r c hr hc⟩

end TransposeLemmas

section Transpose

variable {α : Type}

/-- C21: for every matrix `a`, transpose succeeds and returns a matrix of the same order
with `transpose(a)[j][i] = a[i][j]` for all `i, j` below the order; and
`transpose([[1,2],[3,4]]) = [[1,3],[2,4]]`. -/
theorem transpose_cells [Zero α] (a : SquareMat α) (ha : a.WF) :
    (∃ r, SquareMat.transpose a = .ok r ∧ r.size = a.size ∧
        ∀ i j, i < a.size → j < a.size → getCell r.matrix j i = getCell a.matrix i j) ∧
      SquareMat.transpose (⟨2, [[1, 2], [3, 4]]⟩ : SquareMat Int) = .ok ⟨2, [[1, 3], [2, 4]]⟩ :=
  ⟨⟨_, transpose_eq a ha.1, rfl,
      fun i j hi hj => (transpose_storage a.size a.matrix).2 j i hj hi⟩, rfl⟩

/-- Witness for C21: the transpose of `[[1,2],[3,4]]` over the integers. -/
theorem transpose_cells_witness :
    ∃ r, SquareMat.transpose (⟨2, [[1, 2], [3, 4]]⟩ : SquareMat Int) = .ok r ∧ r.size = 2 ∧
      ∀ i j, i < 2 → j < 2 →
        getCell r.matrix j i = getCell ([[1, 2], [3, 4]] : List (List Int)) i j :=
  (transpose_cells (⟨2, [[1, 2], [3, 4]]⟩ : SquareMat Int) ⟨by decide, by decide, by decide⟩).1

/-- C22: for every matrix `M`, the transpose of the transpose of `M` is `M`: same order and
every cell equal. -/
theorem transpose_transpose [Zero α] (M : SquareMat α) (hM : M.WF) :
    ∃ t, SquareMat.transpose M = .ok t ∧ SquareMat.transpose t = .ok M := by
  obtain ⟨n, m⟩ := M
  obtain ⟨h1, hm⟩ := hM
  simp only at h1 hm
  obtain ⟨s1, e1⟩ := transpose_storage n m
  obtain ⟨s2, e2⟩ := transpose_storage n
    (forLoop n (fun i t => forLoop n (fun j t => setCell t j i (getCell m i j)) t)
      (List.replicate n (List.replicate n 0)))
  refine ⟨_, transpose_eq ⟨n, m⟩ h1, ?_⟩
  rw [transpose_eq
    ⟨n, forLoop n (fun i t => forLoop n (fun j t => setCell t j i (getCell m i j)) t)
      (List.replicate n (List.replicate n 0))⟩ h1]
  congr 2
  apply shape_ext s2 hm
  intro i j hi hj
  rw [e2 i j hi hj, e1 j i hj hi]

/-- Witness for C22: transposing `[[1,2],[3,4]]` twice, over the integers. -/
theorem transpose_transpose_witness :
    ∃ t, SquareMat.transpose (⟨2, [[1, 2], [3, 4]]⟩ : SquareMat Int) = .ok t ∧
      SquareMat.transpose t = .ok ⟨2, [[1, 2], [3, 4]]⟩ :=
  transpose_transpose (⟨2, [[1, 2], [3, 4]]⟩ : SquareMat Int) ⟨by decide, by decide, by decide⟩

end Transpose

end squaremat

namespace squaremat

section IncrementLemmas

variable {α : Type}

theorem incrementCells_wf [Zero α] [One α] [Add α] (a : SquareMat α) (ha : a.WF) :
    (SquareMat.incrementCells a).WF ∧ (SquareMat.incrementCells a).size = a.size ∧
      ∀ i j, i < a.size → j < a.size →
        getCell (SquareMat.incrementCells a).matrix i j = getCell a.matrix i j + 1 := by
  obtain ⟨s1, e1⟩ := inplace_fill (fun _ _ (x : α) => x + 1) a.matrix ha.2
  exact ⟨⟨ha.1, s1⟩, rfl, e1⟩

theorem decrementCells_wf [Zero α] [One α] [Sub α] (a : SquareMat α) (ha : a.WF) :
    (SquareMat.decrementCells a).WF ∧ (SquareMat.decrementCells a).size = a.size ∧
      ∀ i j, i < a.size → j < a.size →
        getCell (SquareMat.decrementCells a).matrix i j = getCell a.matrix i j - 1 := by
  obtain ⟨s1, e1⟩ := inplace_fill (fun _ _ (x : α) => x - 1) a.matrix ha.2
  exact ⟨⟨ha.1, s1⟩, rfl, e1⟩

end IncrementLemmas

section Increment

variable {α : Type}

/-- C23: for every matrix `a`, prefix increment leaves `a` with the same order and every
cell increased by 1, and returns a matrix equal to `a` after the call; prefix decrement
does the same with every cell decreased by 1. -/
theorem prefix_increment_decrement [Zero α] [One α] [Add α] [Sub α] (a : SquareMat α)
    (ha : a.WF) :
    ((SquareMat.prefixIncrement a).after.size = a.size ∧
        Shape a.size (SquareMat.prefixIncrement a).after.matrix ∧
        (∀ i j, i < a.size → j < a.size →
          getCell (SquareMat.prefixIncrement a).after.matrix i j = getCell a.matrix i j + 1) ∧
        (SquareMat.prefixIncrement a).returned = .ok (SquareMat.prefixIncrement a).after) ∧
      ((SquareMat.prefixDecrement a).after.size = a.size ∧
        Shape a.size (SquareMat.prefixDecrement a).after.matrix ∧
        (∀ i j, i < a.size → j < a.size →
          getCell (SquareMat.prefixDecrement a).after.matrix i j = getCell a.matrix i j - 1) ∧
        (SquareMat.prefixDecrement a).returned = .ok (SquareMat.prefixDecrement a).after) := by
  obtain ⟨w1, _, c1⟩ := incrementCells_wf a ha
  obtain ⟨w2, _, c2⟩ := decrementCells_wf a ha
  refine ⟨⟨rfl, w1.2, c1, ?_⟩, ⟨rfl, w2.2, c2, ?_⟩⟩
  · show Except.ok (SquareMat.copy (SquareMat.incrementCells a)) = _
    rw [copy_eq _ w1]
    rfl
  · show Except.ok (SquareMat.copy (SquareMat.decrementCells a)) = _
    rw [copy_eq _ w2]
    rfl

/-- Witness for C23: `++` on `[[1,2],[3,4]]` over the integers. -/
theorem prefix_increment_decrement_witness :
    (SquareMat.prefixIncrement (⟨2, [[1, 2], [3, 4]]⟩ : SquareMat Int)).after
        = ⟨2, [[2, 3], [4, 5]]⟩ ∧
      (SquareMat.prefixIncrement (⟨2, [[1, 2], [3, 4]]⟩ : SquareMat Int)).returned
        = .ok (SquareMat.prefixIncrement (⟨2, [[1, 2], [3, 4]]⟩ : SquareMat Int)).after :=
  ⟨rfl,
    (prefix_increment_decrement (⟨2, [[1, 2], [3, 4]]⟩ : SquareMat Int)
      ⟨by decide, by decide, by decide⟩).1.2.2.2⟩

/-- C24: for every matrix `a`, postfix increment returns a matrix equal to `a` before the
call and leaves `a` with the same order and every cell increased by 1; postfix decrement
returns the matrix before the call and leaves every cell decreased by 1. -/
theorem postfix_increment_decrement [Zero α] [One α] [Add α] [Sub α] (a : SquareMat α)
    (ha : a.WF) :
    ((SquareMat.postfixIncrement a).returned = .ok a ∧
        (SquareMat.postfixIncrement a).after.size = a.size ∧
        Shape a.size (SquareMat.postfixIncrement a).after.matrix ∧
        ∀ i j, i < a.size → j < a.size →
          getCell (SquareMat.postfixIncrement a).after.matrix i j = getCell a.matrix i j + 1) ∧
      ((SquareMat.postfixDecrement a).returned = .ok a ∧
        (SquareMat.postfixDecrement a).after.size = a.size ∧
        Shape a.size (SquareMat.postfixDecrement a).after.matrix ∧
        ∀ i j, i < a.size → j < a.size →
          getCell (SquareMat.postfixDecrement a).after.matrix i j = getCell a.matrix i j - 1) := by
  obtain ⟨w1, _, c1⟩ := incrementCells_wf a ha
  obtain ⟨w2, _, c2⟩ := decrementCells_wf a ha
  refine ⟨⟨?_, rfl, w1.2, c1⟩, ⟨?_, rfl, w2.2, c2⟩⟩
  · show Except.ok (SquareMat.copy a) = _
    rw [copy_eq a ha]
  · show Except.ok (SquareMat.copy a) = _
    rw [copy_eq a ha]

/-- Witness for C24: `[[1,2],[3,4]]++` over the integers. -/
theorem postfix_increment_decrement_witness :
    (SquareMat.postfixIncrement (⟨2, [[1, 2], [3, 4]]⟩ : SquareMat Int)).returned
        = .ok ⟨2, [[1, 2], [3, 4]]⟩ ∧
      (SquareMat.postfixIncrement (⟨2, [[1, 2], [3, 4]]⟩ : SquareMat Int)).after
        = ⟨2, [[2, 3], [4, 5]]⟩ :=
  ⟨(postfix_increment_decrement (⟨2, [[1, 2], [3, 4]]⟩ : SquareMat Int)
    ⟨by decide, by decide, by decide⟩).1.1, rfl⟩

end Increment

end squaremat

namespace squaremat

section RoundTrip

variable {α : Type}

/-- In `double`, `2^-60 + 1.0` is `1.0`. -/
theorem roundDouble_tiny_add_one : roundDouble (1 / 2 ^ 60 + 1) = 1 := by
  have hq : (1 : ℚ) ≤ 1 / 2 ^ 60 + 1 := by norm_num
  have habs : |(1 / 2 ^ 60 + 1 : ℚ)| = 1 / 2 ^ 60 + 1 := abs_of_pos (by norm_num)
  have hfloor : ⌊(1 / 2 ^ 60 + 1 : ℚ)⌋₊ = 1 := by
    rw [Nat.floor_eq_iff (by norm_num)]
    norm_num
  have hlog : Int.log 2 (1 / 2 ^ 60 + 1 : ℚ) = 0 := by
    rw [Int.log_of_one_le_right 2 hq, hfloor]
    simp
  have hfl : ⌊((1 / 2 ^ 60 + 1 : ℚ) / 2 ^ ((0 : ℤ) - 52))⌋ = 2 ^ 52 := by
    rw [Int.floor_eq_iff]
    norm_num
  unfold roundDouble
  rw [if_neg (by norm_num), habs, hlog]
  unfold roundTiesEven
  rw [hfl, if_pos (by norm_num)]
  norm_num

theorem roundDouble_zero : roundDouble 0 = 0 := by
  unfold roundDouble
  rw [if_pos rfl]

/-- The value `2^-60` is a `double`: rounding leaves it as it is. -/
theorem roundDouble_tiny : roundDouble (1 / 2 ^ 60) = 1 / 2 ^ 60 := by
  have habs : |(1 / 2 ^ 60 : ℚ)| = 1 / 2 ^ 60 := abs_of_pos (by norm_num)
  have hz : (1 / 2 ^ 60 : ℚ) = ((2 : ℕ) : ℚ) ^ (-60 : ℤ) := by norm_num
  have hlog : Int.log 2 (1 / 2 ^ 60 : ℚ) = -60 := by
    rw [hz, Int.log_zpow (by decide)]
  have hfl : ⌊((1 / 2 ^ 60 : ℚ) / 2 ^ ((-60 : ℤ) - 52))⌋ = 2 ^ 52 := by
    rw [Int.floor_eq_iff]
    norm_num
  unfold roundDouble
  rw [if_neg (by norm_num), habs, hlog]
  unfold roundTiesEven
  rw [hfl, if_pos (by norm_num)]
  norm_num

/-- C25, as stated, fails on `double` cells: on the matrix of order 1 whose cell is the
`double` `2^-60`, prefix increment gives the cell `1.0` (the sum is rounded) and prefix
decrement then gives `0.0`, not the original value. -/
theorem increment_then_decrement_double :
    SquareMat.WF (⟨1, [[⟨1 / 2 ^ 60⟩]]⟩ : SquareMat Double) ∧
      roundDouble (1 / 2 ^ 60) = 1 / 2 ^ 60 ∧
      (SquareMat.prefixIncrement (⟨1, [[⟨1 / 2 ^ 60⟩]]⟩ : SquareMat Double)).after
        = ⟨1, [[⟨1⟩]]⟩ ∧
      (SquareMat.prefixDecrement
          (SquareMat.prefixIncrement (⟨1, [[⟨1 / 2 ^ 60⟩]]⟩ : SquareMat Double)).after).after
        = ⟨1, [[⟨0⟩]]⟩ ∧
      getCell
          (SquareMat.prefixDecrement
            (SquareMat.prefixIncrement
              (⟨1, [[⟨1 / 2 ^ 60⟩]]⟩ : SquareMat Double)).after).after.matrix 0 0
        ≠ getCell ([[⟨1 / 2 ^ 60⟩]] : List (List Double)) 0 0 := by
  have hinc : (SquareMat.prefixIncrement (⟨1, [[⟨1 / 2 ^ 60⟩]]⟩ : SquareMat Double)).after
      = ⟨1, [[⟨1⟩]]⟩ := by
    show (⟨1, [[(⟨roundDouble (1 / 2 ^ 60 + 1)⟩ : Double)]]⟩ : SquareMat Double) = _
    rw [roundDouble_tiny_add_one]
  have hdec : (SquareMat.prefixDecrement (⟨1, [[⟨1⟩]]⟩ : SquareMat Double)).after
      = ⟨1, [[⟨0⟩]]⟩ := by
    show (⟨1, [[(⟨roundDouble (1 - 1)⟩ : Double)]]⟩ : SquareMat Double) = _
    rw [sub_self, roundDouble_zero]
  refine ⟨⟨by decide, by decide, by decide⟩, roundDouble_tiny, hinc, ?_, ?_⟩
  · rw [hinc, hdec]
  · rw [hinc, hdec]
    show (⟨0⟩ : Double) ≠ ⟨1 / 2 ^ 60⟩
    intro h
    have h2 := congrArg Double.val h
    norm_num at h2

end RoundTrip

end squaremat

namespace squaremat

section RowAccess

variable {α : Type}

/-- C26: for every matrix `a` and row index `i`, row access, in the mutable and in the
read-only form, fails with `out_of_range` exactly when `i >= order(a)`; when
`i < order(a)` it returns row `i`, whose `k`-th entry for `k < order` is the cell `(i, k)`;
and the outcome of `a[i][k]` depends on `i` only: whatever the column index `k`, it throws
exactly when `i >= order(a)`, a column `k >= order` being a read outside the row. -/
theorem row_access_fails_iff [Zero α] (a : SquareMat α) (ha : a.WF) (i : Nat) :
    (a.row i = .error .out_of_range ↔ a.size ≤ i) ∧
      (a.rowConst i = .error .out_of_range ↔ a.size ≤ i) ∧
      (i < a.size →
        ∃ row, a.row i = .ok row ∧ a.rowConst i = .ok row ∧ a.matrix[i]? = some row ∧
          row.length = a.size ∧ ∀ k, k < a.size → row[k]? = some (getCell a.matrix i k)) ∧
      (∀ k, a.readCell i k = .error .out_of_range ↔ a.size ≤ i) ∧
      (i < a.size →
        ∀ k, (k < a.size → a.readCell i k = .ok (some (getCell a.matrix i k))) ∧
          (a.size ≤ k → a.readCell i k = .ok none)) := by
  have hrow : i < a.size →
      ∃ row, a.matrix[i]? = some row ∧ row.length = a.size ∧
        ∀ k, k < a.size → row[k]? = some (getCell a.matrix i k) := by
    intro hi
    have hlt : i < a.matrix.length := by rw [ha.2.1]; exact hi
    have hlen : (a.matrix[i]).length = a.size := ha.2.2 _ (List.getElem_mem hlt)
    refine ⟨a.matrix[i], List.getElem?_eq_getElem hlt, hlen, ?_⟩
    intro k hk
    have hk2 : k < (a.matrix[i]).length := by rw [hlen]; exact hk
    simp [getCell, List.getElem?_eq_getElem hlt, List.getElem?_eq_getElem hk2]
  have hfail : ∀ k, a.readCell i k = .error .out_of_range ↔ a.size ≤ i := by
    intro k
    unfold SquareMat.readCell SquareMat.rowConst
    by_cases h : i ≥ a.size
    · rw [if_pos h]
      exact ⟨fun _ => h, fun _ => rfl⟩
    · rw [if_neg h]
      exact ⟨fun hh => (by cases hh), fun hh => absurd hh h⟩
  refine ⟨?_, ?_, ?_, hfail, ?_⟩
  · unfold SquareMat.row
    by_cases h : i ≥ a.size
    · rw [if_pos h]
      exact ⟨fun _ => h, fun _ => rfl⟩
    · rw [if_neg h]
      exact ⟨fun hh => (by cases hh), fun hh => absurd hh h⟩
  · unfold SquareMat.rowConst
    by_cases h : i ≥ a.size
    · rw [if_pos h]
      exact ⟨fun _ => h, fun _ => rfl⟩
    · rw [if_neg h]
      exact ⟨fun hh => (by cases hh), fun hh => absurd hh h⟩
  · intro hi
    obtain ⟨row, h1, h2, h3⟩ := hrow hi
    have hn : ¬ i ≥ a.size := by omega
    refine ⟨row, ?_, ?_, h1, h2, h3⟩
    · unfold SquareMat.row
      rw [if_neg hn, h1]
      rfl
    · unfold SquareMat.rowConst
      rw [if_neg hn, h1]
      rfl
  · intro hi k
    obtain ⟨row, h1, h2, h3⟩ := hrow hi
    have hn : ¬ i ≥ a.size := by omega
    have hread : a.readCell i k = .ok row[k]? := by
      unfold SquareMat.readCell SquareMat.rowConst
      rw [if_neg hn, h1]
      rfl
    refine ⟨fun hk => by rw [hread, h3 k hk], fun hk => ?_⟩
    rw [hread, List.getElem?_eq_none (by omega)]

/-- Witness for C26: the rows 1 and 2 of `[[1,2],[3,4]]` over the integers. -/
theorem row_access_fails_iff_witness :
    SquareMat.row (⟨2, [[1, 2], [3, 4]]⟩ : SquareMat Int) 2 = .error .out_of_range ∧
      SquareMat.row (⟨2, [[1, 2], [3, 4]]⟩ : SquareMat Int) 1 = .ok [3, 4] ∧
      SquareMat.readCell (⟨2, [[1, 2], [3, 4]]⟩ : SquareMat Int) 1 7 = .ok none :=
  ⟨(row_access_fails_iff (⟨2, [[1, 2], [3, 4]]⟩ : SquareMat Int)
    ⟨by decide, by decide, by decide⟩ 2).1.2 (by decide), rfl, rfl⟩

end RowAccess

end squaremat

namespace squaremat

section Rendering

variable {α : Type}

/-- A loop that appends one text per turn appends the texts joined. -/
theorem forLoop_append_join (g : Nat → String) (os : String) (n : Nat) :
    forLoop n (fun i os => os ++ g i) os = os ++ String.join ((List.range n).map g) := by
  induction n with
  | zero =>
    apply String.ext
    simp [forLoop]
  | succ k ih =>
    show forLoop k _ os ++ g k = _
    rw [ih]
    apply String.ext
    simp [List.range_succ]

/-- What `operator<<` appends to the stream is the rendering of the specification. -/
theorem render_eq_renderSpec [Zero α] (fmt : α → String) (os : String) (a : SquareMat α) :
    render fmt os a = os ++ renderSpec fmt a := by
  unfold render renderSpec
  have hinner : ∀ i, i < a.size → ∀ t : String,
      forLoop a.size (fun j os => os ++ fmt (getCell a.matrix i j) ++ "\t") t ++ "\n"
        = t ++ (String.join ((List.range a.size).map
            (fun j => fmt (getCell a.matrix i j) ++ "\t")) ++ "\n") := by
    intro i _ t
    have h := forLoop_append_join (fun j => fmt (getCell a.matrix i j) ++ "\t") t a.size
    have h2 : forLoop a.size (fun j os => os ++ fmt (getCell a.matrix i j) ++ "\t") t
        = forLoop a.size (fun j os => os ++ (fmt (getCell a.matrix i j) ++ "\t")) t :=
      forLoop_congr _ _ _ _ (fun j _ t => String.append_assoc _ _ _)
    rw [h2, h, String.append_assoc]
  rw [forLoop_congr a.size _ _ os hinner]
  exact forLoop_append_join _ os a.size

/-- Counting a character in the joined rows of a rendering. -/
theorem count_join_rows (c : Char) (n : Nat) (cell : Nat → Nat → String)
    (hcell : ∀ i j, i < n → j < n → (cell i j).data.count c = 0) (m : Nat) (hm : m ≤ n) :
    (String.join ((List.range m).map
        (fun i => String.join ((List.range n).map (fun j => cell i j ++ "\t")) ++ "\n"))).data.count c
      = m * (n * ("\t" : String).data.count c + ("\n" : String).data.count c) := by
  have hrow : ∀ i, i < n → ∀ q, q ≤ n →
      (String.join ((List.range q).map (fun j => cell i j ++ "\t"))).data.count c
        = q * ("\t" : String).data.count c := by
    intro i hi q
    induction q with
    | zero => intro _; simp
    | succ q ih =>
      intro hq
      have h1 := ih (Nat.le_of_succ_le hq)
      rw [String.data_join] at h1 ⊢
      rw [List.range_succ, List.map_append, List.map_append, List.flatten_append,
        List.count_append, h1]
      simp only [List.map_cons, List.map_nil, List.flatten_cons, List.flatten_nil,
        List.append_nil, String.data_append, List.count_append, hcell i q hi (by omega)]
      ring
  induction m with
  | zero => simp
  | succ m ih =>
    have h1 := ih (Nat.le_of_succ_le hm)
    rw [String.data_join] at h1 ⊢
    rw [List.range_succ, List.map_append, List.map_append, List.flatten_append,
      List.count_append, h1]
    simp only [List.map_cons, List.map_nil, List.flatten_cons, List.flatten_nil,
      List.append_nil, String.data_append, List.count_append, hrow m (by omega) n (Nat.le_refl n)]
    ring

/-- C27: for every matrix `a` of order `n`, what `operator<<` writes is, for the rows
`i = 0..n-1` in order, the texts of the cells `a[i][0..n-1]` in order, each followed by one
tab, then one line break; so, the numeric texts of its cells holding neither character, it
holds exactly `n` line breaks and `n*n` tabs; and `[[1,2],[3,4]]` renders as
`"1\t2\t\n3\t4\t\n"` when 1, 2, 3, 4 are written as "1", "2", "3", "4". -/
theorem render_rows [Zero α] (fmt : α → String) (a : SquareMat α)
    (hfmt : ∀ i j, i < a.size → j < a.size →
      '\t' ∉ (fmt (getCell a.matrix i j)).data ∧ '\n' ∉ (fmt (getCell a.matrix i j)).data) :
    (∀ os, render fmt os a = os ++ renderSpec fmt a) ∧
      render fmt "" a = renderSpec fmt a ∧
      (render fmt "" a).data.count '\n' = a.size ∧
      (render fmt "" a).data.count '\t' = a.size * a.size ∧
      ∀ g : Int → String, g 1 = "1" → g 2 = "2" → g 3 = "3" → g 4 = "4" →
        render g "" (⟨2, [[1, 2], [3, 4]]⟩ : SquareMat Int) = "1\t2\t\n3\t4\t\n" := by
  have h0 : render fmt "" a = renderSpec fmt a := by
    rw [render_eq_renderSpec]
    apply String.ext
    simp
  refine ⟨fun os => render_eq_renderSpec fmt os a, h0, ?_, ?_, ?_⟩
  · rw [h0]
    unfold renderSpec
    rw [count_join_rows (Char.ofNat 10) a.size (fun i j => fmt (getCell a.matrix i j))
      (fun i j hi hj => List.count_eq_zero.mpr (hfmt i j hi hj).2) a.size (Nat.le_refl _)]
    simp
  · rw [h0]
    unfold renderSpec
    rw [count_join_rows (Char.ofNat 9) a.size (fun i j => fmt (getCell a.matrix i j))
      (fun i j hi hj => List.count_eq_zero.mpr (hfmt i j hi hj).1) a.size (Nat.le_refl _)]
    simp
  · intro g h1 h2 h3 h4
    simp only [render, forLoop, getCell]
    simp [h1, h2, h3, h4]

/-- Witness for C27: `[[1,2],[3,4]]` over the integers, the text of an integer being its
decimal numeral. -/
theorem render_rows_witness :
    (render (fun x : Int => toString x) "" (⟨2, [[1, 2], [3, 4]]⟩ : SquareMat Int)).data.count
        '\n' = 2 ∧
      (render (fun x : Int => toString x) "" (⟨2, [[1, 2], [3, 4]]⟩ : SquareMat Int)).data.count
        '\t' = 2 * 2 :=
  have h := render_rows (fun x : Int => toString x) (⟨2, [[1, 2], [3, 4]]⟩ : SquareMat Int)
    (by
      intro i j hi hj
      have hi1 : i < 2 := hi
      have hj1 : j < 2 := hj
      have hi2 : i = 0 ∨ i = 1 := by omega
      have hj2 : j = 0 ∨ j = 1 := by omega
      rcases hi2 with rfl | rfl <;> rcases hj2 with rfl | rfl <;> decide)
  ⟨h.2.2.1, h.2.2.2.1⟩

end Rendering

end squaremat

namespace squaremat

section TracedSubmatrix

variable {α : Type}

theorem forLoop_succ {σ : Type} (n : Nat) (body : Nat → σ → σ) (s : σ) :
    forLoop (n + 1) body s = body n (forLoop n body s) := rfl

/-- The value of `col_idx` after the columns `0 .. K-1`. -/
theorem submat_col_count [Zero α] (m : List (List α)) (j i ri : Nat) (sm : List (List α))
    (K : Nat) :
    (forLoop K
        (fun k (st : List (List α) × Nat) =>
          if k ≠ j then (setCell st.1 ri st.2 (getCell m i k), st.2 + 1) else st)
        (sm, 0)).2 = if j < K then K - 1 else K := by
  induction K with
  | zero => simp [forLoop]
  | succ K ih =>
    show (if K ≠ j then _ else _ : List (List α) × Nat).2 = _
    by_cases hKj : K = j
    · subst hKj
      simp only [ne_eq, not_true_eq_false, if_false, ih, Nat.lt_irrefl, Nat.lt_succ_self,
        if_true, Nat.add_sub_cancel]
    · simp only [ne_eq, hKj, not_false_eq_true, if_true, ih]
      by_cases h : j < K
      · have h2 : j < K + 1 := by omega
        simp only [h, h2, if_true]
        omega
      · have h2 : ¬ j < K + 1 := by omega
        simp only [h, h2, if_false]

/-- The traced column loop does what the column loop does, and records the columns
`0 .. col_idx - 1` of row `ri`, in that order. -/
theorem traced_row_loop [Zero α] (m : List (List α)) (j i ri : Nat) (sm : List (List α))
    (tr : List (Nat × Nat)) (K : Nat) :
    (forLoop K
        (fun k (st : (List (List α) × List (Nat × Nat)) × Nat) =>
          if k ≠ j then
            ((setCell st.1.1 ri st.2 (getCell m i k), st.1.2 ++ [(ri, st.2)]), st.2 + 1)
          else st)
        ((sm, tr), 0))
      = (((forLoop K
            (fun k (st : List (List α) × Nat) =>
              if k ≠ j then (setCell st.1 ri st.2 (getCell m i k), st.2 + 1) else st)
            (sm, 0)).1,
          tr ++ (List.range (forLoop K
            (fun k (st : List (List α) × Nat) =>
              if k ≠ j then (setCell st.1 ri st.2 (getCell m i k), st.2 + 1) else st)
            (sm, 0)).2).map (fun c => (ri, c))),
        (forLoop K
            (fun k (st : List (List α) × Nat) =>
              if k ≠ j then (setCell st.1 ri st.2 (getCell m i k), st.2 + 1) else st)
            (sm, 0)).2) := by
  induction K with
  | zero => simp [forLoop]
  | succ K ih =>
    simp only [forLoop_succ]
    rw [ih]
    generalize forLoop K
      (fun k (st : List (List α) × Nat) =>
        if k ≠ j then (setCell st.1 ri st.2 (getCell m i k), st.2 + 1) else st) (sm, 0) = st
    by_cases hKj : K = j
    · simp [hKj]
    · simp [hKj, List.range_succ]

/-- The traced row loop does what the row loop does, and records the cells of the rows
`0 .. T-1` of `submat` in row-major order. -/
theorem traced_rows_loop [Zero α] {N : Nat} (m : List (List α)) (j : Nat) (hj : j < N)
    (sm : List (List α)) (T : Nat) :
    forLoop T
        (fun t (s : List (List α) × List (Nat × Nat)) =>
          (forLoop N
            (fun k (st : (List (List α) × List (Nat × Nat)) × Nat) =>
              if k ≠ j then
                ((setCell st.1.1 (1 + t - 1) st.2 (getCell m (1 + t) k),
                    st.1.2 ++ [(1 + t - 1, st.2)]),
                  st.2 + 1)
              else st)
            (s, 0)).1)
        (sm, [])
      = (forLoop T
            (fun t sm =>
              (forLoop N
                (fun k (st : List (List α) × Nat) =>
                  if k ≠ j then (setCell st.1 (1 + t - 1) st.2 (getCell m (1 + t) k), st.2 + 1)
                  else st)
                (sm, 0)).1)
            sm,
          (List.range T).flatMap (fun r => (List.range (N - 1)).map (fun c => (r, c)))) := by
  induction T with
  | zero => simp [forLoop]
  | succ T ih =>
    simp only [forLoop_succ]
    rw [ih, traced_row_loop, submat_col_count]
    simp only [hj, if_true, Nat.add_sub_cancel_left, List.range_succ, List.flatMap_append,
      List.flatMap_cons, List.flatMap_nil, List.append_nil]

theorem mem_cells_rowMajor (n r c : Nat) :
    (r, c) ∈ (List.range n).flatMap (fun r => (List.range n).map (fun c => (r, c)))
      ↔ r < n ∧ c < n := by
  simp only [List.mem_flatMap, List.mem_map, List.mem_range, Prod.mk.injEq]
  constructor
  · rintro ⟨r2, hr2, c2, hc2, h1, h2⟩
    subst h1
    subst h2
    exact ⟨hr2, hc2⟩
  · rintro ⟨hr, hc⟩
    exact ⟨r, hr, c, hc, rfl, rfl⟩

theorem length_cells_rowMajor (n k : Nat) :
    ((List.range k).flatMap (fun r => (List.range n).map (fun c => (r, c)))).length = k * n := by
  induction k with
  | zero => simp
  | succ k ih =>
    rw [List.range_succ, List.flatMap_append, List.length_append, ih]
    simp
    ring

end TracedSubmatrix

section Submatrix

variable {α : Type}

/-- C29: in the determinant of a matrix `a` of order `n >= 3`, the `submat` built for the
column `j < n` has order `n-1` and is `a` with row 0 and column `j` deleted: for
`r, c < n-1`, `submat[r][c]` is `a[r+1][c]` when `c < j` and `a[r+1][c+1]` when `c >= j`;
the writes of the loops are exactly the `(n-1)*(n-1)` cells of `submat`, in row-major
order, so that every cell is written and no write falls outside. -/
theorem submatrix_is_minor [Zero α] (a : SquareMat α) (ha : a.WF) (hn : 3 ≤ a.size) (j : Nat)
    (hj : j < a.size) :
    ∃ submat : SquareMat α, SquareMat.new (a.size - 1) = .ok submat ∧
      submat.size = a.size - 1 ∧
      (buildSubmatTraced a.size a.matrix j submat.matrix).1
        = buildSubmat a.size a.matrix j submat.matrix ∧
      Shape (a.size - 1) (buildSubmat a.size a.matrix j submat.matrix) ∧
      buildSubmat a.size a.matrix j submat.matrix = (a.minor 0 j).matrix ∧
      (∀ r c, r < a.size - 1 → c < a.size - 1 →
        getCell (buildSubmat a.size a.matrix j submat.matrix) r c
          = if c < j then getCell a.matrix (r + 1) c else getCell a.matrix (r + 1) (c + 1)) ∧
      (buildSubmatTraced a.size a.matrix j submat.matrix).2
        = (List.range (a.size - 1)).flatMap
            (fun r => (List.range (a.size - 1)).map (fun c => (r, c))) ∧
      (∀ r c, (r, c) ∈ (buildSubmatTraced a.size a.matrix j submat.matrix).2
        ↔ r < a.size - 1 ∧ c < a.size - 1) ∧
      (buildSubmatTraced a.size a.matrix j submat.matrix).2.length
        = (a.size - 1) * (a.size - 1) := by
  have htr := traced_rows_loop a.matrix j hj
    (List.replicate (a.size - 1) (List.replicate (a.size - 1) (0 : α))) (a.size - 1)
  have hmin := buildSubmat_eq_minor a.matrix ha.2 ha.1 j hj
  have hwr : (buildSubmatTraced a.size a.matrix j
      (List.replicate (a.size - 1) (List.replicate (a.size - 1) (0 : α)))).2
        = (List.range (a.size - 1)).flatMap
            (fun r => (List.range (a.size - 1)).map (fun c => (r, c))) :=
    congrArg Prod.snd htr
  refine ⟨_, new_eq (a.size - 1) (by omega), rfl, congrArg Prod.fst htr, ?_, hmin, ?_, hwr,
    ?_, ?_⟩
  · rw [hmin]
    exact shape_minor a.matrix ha.2 ha.1 j hj
  · intro r c _ _
    rw [hmin]
    show getCell ((a.matrix.eraseIdx 0).map (fun row => row.eraseIdx j)) r c = _
    rw [getCell_minor, Nat.add_comm 1 r]
    by_cases hc : c < j
    · simp only [hc, if_true]
    · simp only [hc, if_false]
  · intro r c
    rw [hwr]
    exact mem_cells_rowMajor (a.size - 1) r c
  · rw [hwr]
    exact length_cells_rowMajor (a.size - 1) (a.size - 1)

/-- Witness for C29: the `submat` of column 1 of `[[1,2,3],[4,5,6],[7,8,9]]` over the
integers. -/
theorem submatrix_is_minor_witness :
    buildSubmatTraced 3 ([[1, 2, 3], [4, 5, 6], [7, 8, 9]] : List (List Int)) 1 [[0, 0], [0, 0]]
        = ([[4, 6], [7, 9]], [(0, 0), (0, 1), (1, 0), (1, 1)]) ∧
      ∃ submat : SquareMat Int, SquareMat.new (3 - 1) = .ok submat ∧ submat.size = 3 - 1 ∧
        (buildSubmatTraced 3 [[1, 2, 3], [4, 5, 6], [7, 8, 9]] 1 submat.matrix).1
          = buildSubmat 3 [[1, 2, 3], [4, 5, 6], [7, 8, 9]] 1 submat.matrix :=
  ⟨rfl,
    match submatrix_is_minor (⟨3, [[1, 2, 3], [4, 5, 6], [7, 8, 9]]⟩ : SquareMat Int)
      ⟨by decide, by decide, by decide⟩ (by decide) 1 (by decide) with
    | ⟨submat, h1, h2, h3, _⟩ => ⟨submat, h1, h2, h3⟩⟩

end Submatrix

end squaremat

namespace squaremat

section OrderTwoBranch

variable {α : Type}

theorem forLoopE_congr {σ : Type} (n : Nat) (body1 body2 : Nat → σ → Except Error σ) (s : σ)
    (h : ∀ i, i < n → ∀ t, body1 i t = body2 i t) :
    forLoopE n body1 s = forLoopE n body2 s := by
  induction n with
  | zero => rfl
  | succ k ih =>
    simp only [forLoopE]
    rw [ih (fun i hi t => h i (Nat.lt_succ_of_lt hi) t)]
    cases forLoopE k body2 s with
    | error e => rfl
    | ok s1 => exact h k (Nat.lt_succ_self k) s1

/-- The loop of `detAuxGeneral` with the constructor call of `submat` resolved. -/
theorem detAuxGeneral_step [Zero α] [One α] [Add α] [Sub α] [Mul α] [Neg α] (n : Nat)
    (m : List (List α)) :
    detAuxGeneral (n + 2) m
      = forLoopE (n + 2)
          (fun j det =>
            match detAuxGeneral (n + 1)
                (buildSubmat (n + 2) m j (List.replicate (n + 1) (List.replicate (n + 1) 0))) with
            | .error e => .error e
            | .ok d => .ok (det + sign j * getCell m 0 j * d))
          0 := by
  rw [detAuxGeneral]
  have h : (SquareMat.new (n + 2 - 1) : Except Error (SquareMat α))
      = .ok ⟨n + 1, List.replicate (n + 1) (List.replicate (n + 1) 0)⟩ :=
    new_eq (n + 1) (by omega)
  simp only [h]

/-- On order 2 the loop over the columns gives the result of the branch `size == 2`. -/
theorem detAuxGeneral_two [CommRing α] (m : List (List α)) (hm : Shape 2 m) :
    detAuxGeneral 2 m = detAux 2 m := by
  rw [detAuxGeneral_step 0 m]
  have hbody : ∀ j, j < 2 → ∀ acc : α,
      (match detAuxGeneral (0 + 1)
          (buildSubmat (0 + 2) m j (List.replicate (0 + 1) (List.replicate (0 + 1) 0))) with
        | .error e => (Except.error e : Except Error α)
        | .ok d => Except.ok (acc + sign j * getCell m 0 j * d))
        = .ok (acc + sign j * getCell m 0 j * getCell m 1 (if 0 < j then 0 else 1)) := by
    intro j hj acc
    have hb : buildSubmat (0 + 2) m j (List.replicate (0 + 1) (List.replicate (0 + 1) 0))
        = (m.eraseIdx 0).map (fun row => row.eraseIdx j) :=
      buildSubmat_eq_minor m hm (by omega) j hj
    rw [hb]
    show (.ok (acc + sign j * getCell m 0 j
      * getCell ((m.eraseIdx 0).map (fun row => row.eraseIdx j)) 0 0) : Except Error α) = _
    rw [getCell_minor]
  rw [forLoopE_ok 2 _ (fun j acc => acc + sign j * getCell m 0 j
    * getCell m 1 (if 0 < j then 0 else 1)) 0 hbody]
  show (.ok _ : Except Error α) = .ok _
  congr 1
  simp [forLoop, sign]
  ring

/-- With exact arithmetic the recursion without the branch `size == 2` returns what
`operator!` returns. -/
theorem detAuxGeneral_eq [CommRing α] (n : Nat) :
    ∀ m : List (List α), Shape n m → detAuxGeneral n m = detAux n m := by
  induction n using Nat.strong_induction_on with
  | _ n ih =>
    intro m hm
    match n, ih, hm with
    | 0, _, _ => rfl
    | 1, _, _ => rfl
    | 2, _, hm => exact detAuxGeneral_two m hm
    | k + 3, ih, hm =>
      rw [detAuxGeneral_step (k + 1) m, detAux_step k m]
      apply forLoopE_congr
      intro j hj acc
      have hb : buildSubmat (k + 3) m j (List.replicate (k + 2) (List.replicate (k + 2) 0))
          = (m.eraseIdx 0).map (fun row => row.eraseIdx j) :=
        buildSubmat_eq_minor m hm (by omega) j hj
      show (match detAuxGeneral (k + 2)
          (buildSubmat (k + 3) m j (List.replicate (k + 2) (List.replicate (k + 2) 0))) with
        | .error e => (Except.error e : Except Error α)
        | .ok d => Except.ok (acc + sign j * getCell m 0 j * d)) = _
      rw [hb, ih (k + 2) (by omega) _ (shape_minor m hm (by omega) j hj)]

/-- C30: over exact arithmetic, for every matrix `a` of order 2 the value
`a[0][0]*a[1][1] - a[0][1]*a[1][0]` of the order-2 branch is the first-row cofactor
expansion, the sum over `j` of `sign(j) * a[0][j] * determinant(minor(a,0,j))` with minors
of order 1; and on every matrix the body of `operator!` without the order-2 branch
returns what `operator!` returns. -/
theorem order_two_branch_agrees [CommRing α] (a : SquareMat α) (ha : a.WF) :
    (a.size = 2 →
      ∃ d : Nat → α,
        (∀ j, j < 2 → (a.minor 0 j).size = 1 ∧ (a.minor 0 j).determinant = .ok (d j)) ∧
          getCell a.matrix 0 0 * getCell a.matrix 1 1 - getCell a.matrix 0 1 * getCell a.matrix 1 0
            = (List.range 2).foldl (fun acc j => acc + sign j * getCell a.matrix 0 j * d j) 0 ∧
          a.determinant
            = .ok ((List.range 2).foldl
                (fun acc j => acc + sign j * getCell a.matrix 0 j * d j) 0)) ∧
      detAuxGeneral a.size a.matrix = a.determinant := by
  refine ⟨?_, detAuxGeneral_eq a.size a.matrix ha.2⟩
  obtain ⟨n, m⟩ := a
  intro h
  simp only at h
  subst h
  have hr : List.range 2 = [0, 1] := rfl
  have e0 := getCell_minor m 0 0 0
  have e1 := getCell_minor m 1 0 0
  have hsum : getCell m 0 0 * getCell m 1 1 - getCell m 0 1 * getCell m 1 0
      = (List.range 2).foldl
          (fun acc j => acc + sign j * getCell m 0 j
            * getCell ((m.eraseIdx 0).map (fun (row : List α) => row.eraseIdx j)) 0 0) 0 := by
    rw [hr]
    simp only [List.foldl, e0, e1]
    simp [sign]
    ring
  refine ⟨fun j => getCell ((m.eraseIdx 0).map (fun (row : List α) => row.eraseIdx j)) 0 0,
    fun j _ => ⟨rfl, ?_⟩, hsum, ?_⟩
  · show detAux 1 ((m.eraseIdx 0).map (fun (row : List α) => row.eraseIdx j)) = _
    rfl
  · show (Except.ok _ : Except Error α) = _
    rw [← hsum]

/-- Witness for C30: `[[4,3],[2,1]]` over the integers, with and without the order-2
branch. -/
theorem order_two_branch_agrees_witness :
    detAuxGeneral 2 ([[4, 3], [2, 1]] : List (List Int)) = .ok (-2) ∧
      detAuxGeneral 2 ([[4, 3], [2, 1]] : List (List Int))
        = SquareMat.determinant (⟨2, [[4, 3], [2, 1]]⟩ : SquareMat Int) :=
  ⟨rfl,
    (order_two_branch_agrees (⟨2, [[4, 3], [2, 1]]⟩ : SquareMat Int)
      ⟨by decide, by decide, by decide⟩).2⟩

end OrderTwoBranch

end squaremat

namespace squaremat

section Invariant

variable {α : Type}

theorem returns_wf_of_ok (a r0 : SquareMat α) (x : Except Error (SquareMat α))
    (hx : x = .ok r0) (h : r0.WF ∧ r0.size = a.size) : ReturnsWellFormed a x := by
  intro r hr
  rw [hx] at hr
  cases hr
  exact h

theorem returns_wf_of_error (a : SquareMat α) (x : Except Error (SquareMat α)) (e : Error)
    (hx : x = .error e) : ReturnsWellFormed a x := by
  intro r hr
  rw [hx] at hr
  cases hr

/-- A freshly filled result is well formed. -/
theorem fresh_result_wf [Zero α] (n : Nat) (hn : 1 ≤ n) (f : Nat → Nat → α) :
    SquareMat.WF (⟨n, forLoop n (fun i m => forLoop n (fun j m => setCell m i j (f i j)) m)
      (List.replicate n (List.replicate n 0))⟩ : SquareMat α) :=
  ⟨hn, (fresh_fill n f).1⟩

theorem add_returns_wf [Zero α] [Add α] (a b : SquareMat α) (ha : a.WF) :
    ReturnsWellFormed a (SquareMat.add a b) := by
  by_cases h : a.size = b.size
  · exact returns_wf_of_ok a _ _ (add_eq a b ha.1 h) ⟨fresh_result_wf _ ha.1 _, rfl⟩
  · exact returns_wf_of_error a _ .invalid_argument (by unfold SquareMat.add; rw [if_pos h])

theorem subtract_returns_wf [Zero α] [Sub α] (a b : SquareMat α) (ha : a.WF) :
    ReturnsWellFormed a (SquareMat.subtract a b) := by
  by_cases h : a.size = b.size
  · exact returns_wf_of_ok a _ _ (subtract_eq a b ha.1 h) ⟨fresh_result_wf _ ha.1 _, rfl⟩
  · exact returns_wf_of_error a _ .invalid_argument
      (by unfold SquareMat.subtract; rw [if_pos h])

theorem elementwiseMultiply_returns_wf [Zero α] [Mul α] (a b : SquareMat α) (ha : a.WF) :
    ReturnsWellFormed a (SquareMat.elementwiseMultiply a b) := by
  by_cases h : a.size = b.size
  · exact returns_wf_of_ok a _ _ (elementwiseMultiply_eq a b ha.1 h)
      ⟨fresh_result_wf _ ha.1 _, rfl⟩
  · exact returns_wf_of_error a _ .invalid_argument
      (by unfold SquareMat.elementwiseMultiply; rw [if_pos h])

theorem matrixMultiply_returns_wf [Zero α] [Add α] [Mul α] (a b : SquareMat α) (ha : a.WF) :
    ReturnsWellFormed a (SquareMat.matrixMultiply a b) := by
  by_cases h : a.size = b.size
  · obtain ⟨r, hr, hs, hm⟩ := matrixMultiply_wf a b ha.1 h
    exact returns_wf_of_ok a r _ hr ⟨⟨by rw [hs]; exact ha.1, by rw [hs]; exact hm⟩, hs⟩
  · exact returns_wf_of_error a _ .invalid_argument
      (by unfold SquareMat.matrixMultiply; rw [if_pos h])

theorem scalarDivide_returns_wf [Zero α] [Div α] [DecidableEq α] (a : SquareMat α)
    (ha : a.WF) (s : α) : ReturnsWellFormed a (SquareMat.scalarDivide a s) := by
  by_cases h : s = 0
  · exact returns_wf_of_error a _ .invalid_argument
      (by unfold SquareMat.scalarDivide; rw [if_pos h])
  · exact returns_wf_of_ok a _ _ (scalarDivide_eq a ha.1 s h) ⟨fresh_result_wf _ ha.1 _, rfl⟩

theorem scalarModulo_returns_wf [Zero α] [IntCast α] (f : α → α → α) (a : SquareMat α)
    (ha : a.WF) (k : Int) : ReturnsWellFormed a (SquareMat.scalarModulo f a k) := by
  by_cases h : k = 0
  · exact returns_wf_of_error a _ .invalid_argument
      (by unfold SquareMat.scalarModulo; rw [if_pos h])
  · exact returns_wf_of_ok a _ _ (scalarModulo_eq f a ha.1 k h) ⟨fresh_result_wf _ ha.1 _, rfl⟩

theorem power_returns_wf [Zero α] [One α] [Add α] [Mul α] (a : SquareMat α) (ha : a.WF)
    (p : Int) : ReturnsWellFormed a (SquareMat.power a p) := by
  by_cases hneg : p < 0
  · exact returns_wf_of_error a _ .invalid_argument
      (by unfold SquareMat.power; rw [if_pos hneg])
  · by_cases h0 : p = 0
    · subst h0
      exact returns_wf_of_ok a _ _ (power_zero_eq a ha.1)
        ⟨⟨ha.1, (diagonal_loop _ (shape_replicate a.size 0) a.size (Nat.le_refl _)).1⟩, rfl⟩
    · by_cases h1 : p = 1
      · subst h1
        exact returns_wf_of_ok a _ _ (power_one_eq a ha) ⟨ha, rfl⟩
      · obtain ⟨r, hr, hwf, hs⟩ := power_loop a ha (p - 1).toNat
        exact returns_wf_of_ok a r _ (by rw [power_ge_two_eq a ha p (by omega), hr]) ⟨hwf, hs⟩

theorem leaves_wf_returnThis (a r0 : SquareMat α) (c : Call α) (hc : c = Call.returnThis r0)
    (h : r0.WF ∧ r0.size = a.size) : LeavesWellFormed a c := by
  rw [hc]
  exact h

theorem leaves_wf_throw (a : SquareMat α) (ha : a.WF) (c : Call α) (e : Error)
    (hc : c = Call.throw e a) : LeavesWellFormed a c := by
  rw [hc]
  exact ⟨ha, rfl⟩

theorem addAssign_leaves_wf [Zero α] [Add α] (a b : SquareMat α) (ha : a.WF) :
    LeavesWellFormed a (SquareMat.addAssign a b) := by
  by_cases h : a.size = b.size
  · exact leaves_wf_returnThis a _ _ (addAssign_eq a b ha h) ⟨fresh_result_wf _ ha.1 _, rfl⟩
  · exact leaves_wf_throw a ha _ .invalid_argument
      (by unfold SquareMat.addAssign; rw [if_pos h])

theorem subtractAssign_leaves_wf [Zero α] [Sub α] (a b : SquareMat α) (ha : a.WF) :
    LeavesWellFormed a (SquareMat.subtractAssign a b) := by
  by_cases h : a.size = b.size
  · exact leaves_wf_returnThis a _ _ (subtractAssign_eq a b ha h)
      ⟨fresh_result_wf _ ha.1 _, rfl⟩
  · exact leaves_wf_throw a ha _ .invalid_argument
      (by unfold SquareMat.subtractAssign; rw [if_pos h])

theorem elementwiseMultiplyAssign_leaves_wf [Zero α] [Mul α] (a b : SquareMat α) (ha : a.WF) :
    LeavesWellFormed a (SquareMat.elementwiseMultiplyAssign a b) := by
  by_cases h : a.size = b.size
  · exact leaves_wf_returnThis a _ _ (elementwiseMultiplyAssign_eq a b ha h)
      ⟨fresh_result_wf _ ha.1 _, rfl⟩
  · exact leaves_wf_throw a ha _ .invalid_argument
      (by unfold SquareMat.elementwiseMultiplyAssign; rw [if_pos h])

theorem multiplyAssign_leaves_wf [Zero α] [Add α] [Mul α] (a b : SquareMat α) (ha : a.WF) :
    LeavesWellFormed a (SquareMat.multiplyAssign a b) := by
  by_cases h : a.size = b.size
  · obtain ⟨r, hr, hc⟩ := multiplyAssign_eq a b ha h
    exact leaves_wf_returnThis a r _ hc (matrixMultiply_returns_wf a b ha r hr)
  · exact leaves_wf_throw a ha _ .invalid_argument
      (by unfold SquareMat.multiplyAssign; rw [if_pos h])

theorem scalarMultiplyAssign_leaves_wf [Zero α] [Mul α] [DecidableEq α] (a : SquareMat α)
    (ha : a.WF) (s : α) : LeavesWellFormed a (SquareMat.scalarMultiplyAssign a s) := by
  by_cases h : s = 0
  · exact leaves_wf_throw a ha _ .invalid_argument
      (by unfold SquareMat.scalarMultiplyAssign; rw [if_pos h])
  · exact leaves_wf_returnThis a _ _ (scalarMultiplyAssign_eq a ha s h)
      ⟨fresh_result_wf _ ha.1 _, rfl⟩

theorem divideAssign_leaves_wf [Zero α] [Div α] [DecidableEq α] (a : SquareMat α)
    (ha : a.WF) (s : α) : LeavesWellFormed a (SquareMat.divideAssign a s) := by
  by_cases h : s = 0
  · exact leaves_wf_throw a ha _ .invalid_argument
      (by unfold SquareMat.divideAssign; rw [if_pos h])
  · exact leaves_wf_returnThis a _ _ (divideAssign_eq a ha s h) ⟨fresh_result_wf _ ha.1 _, rfl⟩

theorem moduloAssign_leaves_wf [Zero α] [IntCast α] (f : α → α → α) (a : SquareMat α)
    (ha : a.WF) (k : Int) : LeavesWellFormed a (SquareMat.moduloAssign f a k) := by
  by_cases h : k = 0
  · exact leaves_wf_throw a ha _ .invalid_argument
      (by unfold SquareMat.moduloAssign; rw [if_pos h])
  · exact leaves_wf_returnThis a _ _ (moduloAssign_eq f a ha k h) ⟨fresh_result_wf _ ha.1 _, rfl⟩

/-- C28: the matrices the constructors build are well formed (order at least 1, `order`
rows of `order` cells), and every operation keeps well-formedness and order: each
value-producing operator (add, subtract, negate, both multiplies, scalar multiply, divide
and modulo, transpose, power), when it returns, returns a well-formed matrix of the order
of its operand(s); each compound operator and each increment or decrement leaves its left
operand well formed and of the order it had, and the increments and decrements return
well-formed matrices of that order. -/
theorem wellformedness_preserved [Zero α] [One α] [Add α] [Sub α] [Mul α] [Div α] [Neg α]
    [DecidableEq α] [IntCast α] (f : α → α → α) (a b : SquareMat α) (ha : a.WF) (s : α)
    (k p : Int) :
    (∀ n, 1 ≤ n → ∃ r : SquareMat α, SquareMat.new n = .ok r ∧ r.WF ∧ r.size = n) ∧
      ((SquareMat.copy a).WF ∧ (SquareMat.copy a).size = a.size) ∧
      (ReturnsWellFormed a (SquareMat.add a b) ∧
        ReturnsWellFormed a (SquareMat.subtract a b) ∧
        ReturnsWellFormed a (SquareMat.negate a) ∧
        ReturnsWellFormed a (SquareMat.matrixMultiply a b) ∧
        ReturnsWellFormed a (SquareMat.elementwiseMultiply a b) ∧
        ReturnsWellFormed a (SquareMat.scalarMultiply a s) ∧
        ReturnsWellFormed a (scalarMultiplyLeft s a) ∧
        ReturnsWellFormed a (SquareMat.scalarDivide a s) ∧
        ReturnsWellFormed a (SquareMat.scalarModulo f a k) ∧
        ReturnsWellFormed a (SquareMat.transpose a) ∧
        ReturnsWellFormed a (SquareMat.power a p)) ∧
      (∀ r, SquareMat.add a b = .ok r ∨ SquareMat.subtract a b = .ok r ∨
          SquareMat.matrixMultiply a b = .ok r ∨ SquareMat.elementwiseMultiply a b = .ok r →
        r.size = b.size) ∧
      (LeavesWellFormed a (SquareMat.addAssign a b) ∧
        LeavesWellFormed a (SquareMat.subtractAssign a b) ∧
        LeavesWellFormed a (SquareMat.multiplyAssign a b) ∧
        LeavesWellFormed a (SquareMat.elementwiseMultiplyAssign a b) ∧
        LeavesWellFormed a (SquareMat.scalarMultiplyAssign a s) ∧
        LeavesWellFormed a (SquareMat.divideAssign a s) ∧
        LeavesWellFormed a (SquareMat.moduloAssign f a k) ∧
        LeavesWellFormed a (SquareMat.prefixIncrement a) ∧
        LeavesWellFormed a (SquareMat.postfixIncrement a) ∧
        LeavesWellFormed a (SquareMat.prefixDecrement a) ∧
        LeavesWellFormed a (SquareMat.postfixDecrement a)) ∧
      (ReturnsWellFormed a (SquareMat.prefixIncrement a).returned ∧
        ReturnsWellFormed a (SquareMat.postfixIncrement a).returned ∧
        ReturnsWellFormed a (SquareMat.prefixDecrement a).returned ∧
        ReturnsWellFormed a (SquareMat.postfixDecrement a).returned) := by
  obtain ⟨wi, si, _⟩ := incrementCells_wf a ha
  obtain ⟨wd, sd, _⟩ := decrementCells_wf a ha
  have hsize : ∀ r, SquareMat.add a b = .ok r ∨ SquareMat.subtract a b = .ok r ∨
      SquareMat.matrixMultiply a b = .ok r ∨ SquareMat.elementwiseMultiply a b = .ok r →
      r.size = b.size := by
    intro r hr
    by_cases h : a.size = b.size
    · rcases hr with hr | hr | hr | hr
      · rw [← h]; exact (add_returns_wf a b ha r hr).2
      · rw [← h]; exact (subtract_returns_wf a b ha r hr).2
      · rw [← h]; exact (matrixMultiply_returns_wf a b ha r hr).2
      · rw [← h]; exact (elementwiseMultiply_returns_wf a b ha r hr).2
    · exfalso
      rcases hr with hr | hr | hr | hr
      · unfold SquareMat.add at hr; rw [if_pos h] at hr; cases hr
      · unfold SquareMat.subtract at hr; rw [if_pos h] at hr; cases hr
      · unfold SquareMat.matrixMultiply at hr; rw [if_pos h] at hr; cases hr
      · unfold SquareMat.elementwiseMultiply at hr; rw [if_pos h] at hr; cases hr
  refine ⟨?_, ⟨by rw [copy_eq a ha]; exact ha, rfl⟩,
    ⟨add_returns_wf a b ha, subtract_returns_wf a b ha,
      returns_wf_of_ok a _ _ (negate_eq a ha.1) ⟨fresh_result_wf _ ha.1 _, rfl⟩,
      matrixMultiply_returns_wf a b ha, elementwiseMultiply_returns_wf a b ha,
      returns_wf_of_ok a _ _ (scalarMultiply_eq a ha.1 s) ⟨fresh_result_wf _ ha.1 _, rfl⟩,
      returns_wf_of_ok a _ _ (scalarMultiply_eq a ha.1 s) ⟨fresh_result_wf _ ha.1 _, rfl⟩,
      scalarDivide_returns_wf a ha s, scalarModulo_returns_wf f a ha k,
      returns_wf_of_ok a _ _ (transpose_eq a ha.1)
        ⟨⟨ha.1, (transpose_storage a.size a.matrix).1⟩, rfl⟩,
      power_returns_wf a ha p⟩,
    hsize,
    ⟨addAssign_leaves_wf a b ha, subtractAssign_leaves_wf a b ha,
      multiplyAssign_leaves_wf a b ha, elementwiseMultiplyAssign_leaves_wf a b ha,
      scalarMultiplyAssign_leaves_wf a ha s, divideAssign_leaves_wf a ha s,
      moduloAssign_leaves_wf f a ha k, ⟨wi, si⟩, ⟨wi, si⟩, ⟨wd, sd⟩, ⟨wd, sd⟩⟩,
    ⟨returns_wf_of_ok a _ _ rfl ⟨by rw [copy_eq _ wi]; exact wi, rfl⟩,
      returns_wf_of_ok a _ _ rfl ⟨by rw [copy_eq a ha]; exact ha, rfl⟩,
      returns_wf_of_ok a _ _ rfl ⟨by rw [copy_eq _ wd]; exact wd, rfl⟩,
      returns_wf_of_ok a _ _ rfl ⟨by rw [copy_eq a ha]; exact ha, rfl⟩⟩⟩
  intro n hn
  exact ⟨_, new_eq n hn, ⟨hn, shape_replicate n 0⟩, rfl⟩

/-- Witness for C28: the product `[[1,2],[3,4]] * [[5,6],[7,8]]` and the call `+=` on the
same matrices, over the integers. -/
theorem wellformedness_preserved_witness :
    ReturnsWellFormed (⟨2, [[1, 2], [3, 4]]⟩ : SquareMat Int)
        (SquareMat.matrixMultiply ⟨2, [[1, 2], [3, 4]]⟩ ⟨2, [[5, 6], [7, 8]]⟩) ∧
      LeavesWellFormed (⟨2, [[1, 2], [3, 4]]⟩ : SquareMat Int)
        (SquareMat.addAssign ⟨2, [[1, 2], [3, 4]]⟩ ⟨2, [[5, 6], [7, 8]]⟩) :=
  have h := wellformedness_preserved (fun x _ => x) (⟨2, [[1, 2], [3, 4]]⟩ : SquareMat Int)
    ⟨2, [[5, 6], [7, 8]]⟩ ⟨by decide, by decide, by decide⟩ 2 4 3
  ⟨h.2.2.1.2.2.2.1, h.2.2.2.2.1.1⟩

end Invariant

end squaremat

namespace squaremat

section Termination

variable {α : Type}

theorem forLoopOE_some {σ : Type} (n : Nat) (bodyO : Nat → σ → Option (Except Error σ))
    (bodyE : Nat → σ → Except Error σ) (s : σ)
    (h : ∀ j, j < n → ∀ acc, bodyO j acc = some (bodyE j acc)) :
    forLoopOE n bodyO s = some (forLoopE n bodyE s) := by
  induction n with
  | zero => rfl
  | succ k ih =>
    simp only [forLoopOE, forLoopE]
    rw [ih (fun j hj acc => h j (Nat.lt_succ_of_lt hj) acc)]
    cases forLoopE k bodyE s with
    | error e => rfl
    | ok s1 => exact h k (Nat.lt_succ_self k) s1

/-- A bound of `order - 1` calls in depth (and at least one call) is enough: the bounded
computation gives what `detAux` gives. -/
theorem detFuel_eq [Zero α] [One α] [Add α] [Sub α] [Mul α] [Neg α] (fuel : Nat) :
    ∀ a : SquareMat α, 1 ≤ fuel → a.size ≤ fuel + 1 →
      detFuel fuel a = some (detAux a.size a.matrix) := by
  induction fuel with
  | zero => intro a h; omega
  | succ fuel ih =>
    intro a _ hsize
    obtain ⟨n, m⟩ := a
    simp only at hsize ⊢
    match n, hsize with
    | 0, _ => rfl
    | 1, _ => rfl
    | 2, _ => rfl
    | k + 3, hsize =>
      rw [detFuel, if_neg (by simp), if_neg (by simp), detAux]
      apply forLoopOE_some
      intro j _ acc
      have hnew : (SquareMat.new (k + 3 - 1) : Except Error (SquareMat α))
          = .ok ⟨k + 2, List.replicate (k + 2) (List.replicate (k + 2) 0)⟩ :=
        new_eq (k + 2) (by omega)
      simp only [hnew]
      rw [ih ⟨k + 2, buildSubmat (k + 3) m j (List.replicate (k + 2) (List.replicate (k + 2) 0))⟩
        (by omega) (by simp only; omega)]
      simp only
      cases detAux (k + 2)
        (buildSubmat (k + 3) m j (List.replicate (k + 2) (List.replicate (k + 2) 0))) with
      | error e => rfl
      | ok d => rfl

/-- With a bound of one call, order 3 and above is cut off: `operator!` calls itself. -/
theorem detFuel_one_cut [Zero α] [One α] [Add α] [Sub α] [Mul α] [Neg α] (a : SquareMat α)
    (h : 3 ≤ a.size) : detFuel 1 a = none := by
  obtain ⟨n, m⟩ := a
  simp only at h
  obtain ⟨k, rfl⟩ : ∃ k, n = k + 3 := ⟨n - 3, by omega⟩
  rw [detFuel, if_neg (by simp), if_neg (by simp)]
  have hnew : (SquareMat.new (k + 3 - 1) : Except Error (SquareMat α))
      = .ok ⟨k + 2, List.replicate (k + 2) (List.replicate (k + 2) 0)⟩ :=
    new_eq (k + 2) (by omega)
  simp only [hnew, detFuel]
  have hloop : ∀ q, forLoopOE (q + 1) (fun (_ : Nat) (_ : α) => (none : Option (Except Error α)))
      (0 : α) = none := by
    intro q
    induction q with
    | zero => rfl
    | succ q ihq =>
      rw [forLoopOE, ihq]
  exact hloop (k + 2)

/-- C31: the determinant is total on well-formed matrices: for every matrix of order
`n >= 1` `operator!` returns a value, and its recursion ends, a depth of `n - 1` calls (of
one call for `n = 1`) being enough; orders 1 and 2 make no recursive call, order 3 and
above does, each time on a `submat` of order `n - 1 >= 2` whose construction does not
fail. -/
theorem determinant_total [Zero α] [One α] [Add α] [Sub α] [Mul α] [Neg α] (a : SquareMat α)
    (ha : a.WF) :
    (∃ d, a.determinant = .ok d) ∧
      (∀ fuel, 1 ≤ fuel → a.size ≤ fuel + 1 → detFuel fuel a = some a.determinant) ∧
      (a.size ≤ 2 → detFuel 1 a = some a.determinant) ∧
      (3 ≤ a.size →
        detFuel 1 a = none ∧
          ∀ j, j < a.size →
            ∃ submat : SquareMat α, SquareMat.new (a.size - 1) = .ok submat ∧
              submat.size = a.size - 1 ∧ 2 ≤ submat.size ∧
              SquareMat.WF
                { submat with matrix := buildSubmat a.size a.matrix j submat.matrix }) := by
  refine ⟨detAux_total a.size a.matrix, fun fuel h1 h2 => detFuel_eq fuel a h1 h2,
    fun h => detFuel_eq 1 a (Nat.le_refl 1) (by omega), ?_⟩
  intro h3
  refine ⟨detFuel_one_cut a h3, ?_⟩
  intro j hj
  refine ⟨_, new_eq (a.size - 1) (by omega), rfl, ?_, ?_, ?_⟩
  · show 2 ≤ a.size - 1
    omega
  · show 1 ≤ a.size - 1
    omega
  · show Shape (a.size - 1) (buildSubmat a.size a.matrix j
      (List.replicate (a.size - 1) (List.replicate (a.size - 1) 0)))
    rw [buildSubmat_eq_minor a.matrix ha.2 ha.1 j hj]
    exact shape_minor a.matrix ha.2 ha.1 j hj

/-- Witness for C31: `[[2,-3,1],[2,0,-1],[1,4,5]]` over the integers, with a bound of two
calls in depth. -/
theorem determinant_total_witness :
    detFuel 2 (⟨3, [[2, -3, 1], [2, 0, -1], [1, 4, 5]]⟩ : SquareMat Int) = some (.ok 49) ∧
      detFuel 2 (⟨3, [[2, -3, 1], [2, 0, -1], [1, 4, 5]]⟩ : SquareMat Int)
        = some (SquareMat.determinant (⟨3, [[2, -3, 1], [2, 0, -1], [1, 4, 5]]⟩ : SquareMat Int)) :=
  ⟨rfl,
    (determinant_total (⟨3, [[2, -3, 1], [2, 0, -1], [1, 4, 5]]⟩ : SquareMat Int)
      ⟨by decide, by decide, by decide⟩).2.1 2 (by decide) (by decide)⟩

end Termination

end squaremat

namespace squaremat

section SumLemmas

variable {α : Type}

theorem forLoop_add_from [AddCommMonoid α] (f : Nat → α) (n : Nat) (s0 : α) :
    forLoop n (fun j s => s + f j) s0 = s0 + ∑ j in Finset.range n, f j := by
  induction n with
  | zero => simp [forLoop]
  | succ k ih =>
    rw [Finset.sum_range_succ, ← add_assoc, ← ih]
    rfl

/-- Method `sum()` as a double sum over the cells. -/
theorem sum_eq_finset [AddCommMonoid α] (a : SquareMat α) :
    a.sum = ∑ i in Finset.range a.size, ∑ j in Finset.range a.size, getCell a.matrix i j := by
  unfold SquareMat.sum
  have h : (fun i (s : α) => forLoop a.size (fun j s => s + getCell a.matrix i j) s)
      = fun i s => s + ∑ j in Finset.range a.size, getCell a.matrix i j := by
    funext i s
    exact forLoop_add_from _ _ _
  rw [h, forLoop_add_from, zero_add]

theorem sum_congr_cells [AddCommMonoid α] (a b : SquareMat α) (hs : a.size = b.size)
    (f : α → α)
    (h : ∀ i j, i < b.size → j < b.size → getCell a.matrix i j = f (getCell b.matrix i j)) :
    a.sum = ∑ i in Finset.range b.size, ∑ j in Finset.range b.size, f (getCell b.matrix i j) := by
  rw [sum_eq_finset, hs]
  apply Finset.sum_congr rfl
  intro i hi
  apply Finset.sum_congr rfl
  intro j hj
  exact h i j (Finset.mem_range.mp hi) (Finset.mem_range.mp hj)

theorem transpose_sum [AddCommMonoid α] (a : SquareMat α) (ha : 1 ≤ a.size) :
    ∃ t, SquareMat.transpose a = .ok t ∧ t.size = a.size ∧ t.sum = a.sum := by
  refine ⟨_, transpose_eq a ha, rfl, ?_⟩
  rw [sum_eq_finset, sum_eq_finset a]
  show (∑ i in Finset.range a.size, ∑ j in Finset.range a.size, getCell _ i j) = _
  rw [Finset.sum_comm]
  apply Finset.sum_congr rfl
  intro i hi
  apply Finset.sum_congr rfl
  intro j hj
  exact (transpose_storage a.size a.matrix).2 j i (Finset.mem_range.mp hj) (Finset.mem_range.mp hi)

theorem incrementCells_sum [Ring α] (a : SquareMat α) (ha : a.WF) :
    (SquareMat.incrementCells a).sum = a.sum + (a.size : α) * (a.size : α) := by
  obtain ⟨_, hs, hc⟩ := incrementCells_wf a ha
  rw [sum_congr_cells _ a hs (fun x => x + 1) hc, sum_eq_finset a]
  simp [Finset.sum_add_distrib]

theorem decrementCells_sum [Ring α] (a : SquareMat α) (ha : a.WF) :
    (SquareMat.decrementCells a).sum = a.sum - (a.size : α) * (a.size : α) := by
  obtain ⟨_, hs, hc⟩ := decrementCells_wf a ha
  rw [sum_congr_cells _ a hs (fun x => x - 1) hc, sum_eq_finset a]
  simp [Finset.sum_sub_distrib]

theorem order_sq_pos [LinearOrderedRing α] (n : Nat) (h : 1 ≤ n) :
    (0 : α) < (n : α) * (n : α) := by
  have : (0 : α) < (n : α) := Nat.cast_pos.mpr h
  exact mul_pos this this

end SumLemmas

section SumClaims

variable {α : Type}

/-- C32: over exact numbers the transpose has the same sum of cells as the matrix, so
`~a == a` is true and `~a < a`, `~a > a` are false, whether `a` is symmetric or not. -/
theorem transpose_preserves_sum [AddCommMonoid α] [LinearOrder α] (a : SquareMat α)
    (ha : a.WF) :
    ∃ t, SquareMat.transpose a = .ok t ∧ t.sum = a.sum ∧
      SquareMat.equal t a = true ∧ SquareMat.less t a = false ∧
      SquareMat.greater t a = false := by
  obtain ⟨t, ht, _, hsum⟩ := transpose_sum a ha.1
  refine ⟨t, ht, hsum, ?_, ?_, ?_⟩
  · simp [SquareMat.equal, hsum]
  · simp [SquareMat.less, hsum]
  · simp [SquareMat.greater, hsum]

/-- Witness for C32: the non-symmetric `[[1,2],[3,4]]`, whose transpose is
`[[1,3],[2,4]]`. -/
theorem transpose_preserves_sum_witness :
    SquareMat.transpose (⟨2, [[1, 2], [3, 4]]⟩ : SquareMat Int) = .ok ⟨2, [[1, 3], [2, 4]]⟩ ∧
      (⟨2, [[1, 3], [2, 4]]⟩ : SquareMat Int) ≠ ⟨2, [[1, 2], [3, 4]]⟩ ∧
      ∃ t, SquareMat.transpose (⟨2, [[1, 2], [3, 4]]⟩ : SquareMat Int) = .ok t ∧
        t.sum = (⟨2, [[1, 2], [3, 4]]⟩ : SquareMat Int).sum ∧
        SquareMat.equal t ⟨2, [[1, 2], [3, 4]]⟩ = true ∧
        SquareMat.less t ⟨2, [[1, 2], [3, 4]]⟩ = false ∧
        SquareMat.greater t ⟨2, [[1, 2], [3, 4]]⟩ = false :=
  ⟨rfl, by decide,
    transpose_preserves_sum (⟨2, [[1, 2], [3, 4]]⟩ : SquareMat Int)
      ⟨by decide, by decide, by decide⟩⟩

/-- C33: over exact numbers, for a matrix of order `n` the sum of cells after `++a` is
the sum before plus `n * n` and after `--a` the sum before minus `n * n`; the incremented
matrix (the object and the returned copy) compares strictly greater than the original
and the decremented one strictly less. -/
theorem increment_decrement_sum [LinearOrderedRing α] (a : SquareMat α) (ha : a.WF) :
    ((SquareMat.prefixIncrement a).after.sum = a.sum + (a.size : α) * (a.size : α) ∧
        SquareMat.greater (SquareMat.prefixIncrement a).after a = true ∧
        ∃ r, (SquareMat.prefixIncrement a).returned = .ok r ∧
          r.sum = a.sum + (a.size : α) * (a.size : α) ∧ SquareMat.greater r a = true) ∧
      ((SquareMat.prefixDecrement a).after.sum = a.sum - (a.size : α) * (a.size : α) ∧
        SquareMat.less (SquareMat.prefixDecrement a).after a = true ∧
        ∃ r, (SquareMat.prefixDecrement a).returned = .ok r ∧
          r.sum = a.sum - (a.size : α) * (a.size : α) ∧ SquareMat.less r a = true) := by
  have hpos : (0 : α) < (a.size : α) * (a.size : α) := order_sq_pos a.size ha.1
  have hi := incrementCells_sum a ha
  have hd := decrementCells_sum a ha
  have gi : SquareMat.greater (SquareMat.incrementCells a) a = true := by
    simp only [SquareMat.greater, decide_eq_true_eq, hi]
    exact lt_add_of_pos_right _ hpos
  have ld : SquareMat.less (SquareMat.decrementCells a) a = true := by
    simp only [SquareMat.less, decide_eq_true_eq, hd]
    exact sub_lt_self _ hpos
  refine ⟨⟨hi, gi, _, rfl, ?_, ?_⟩, ⟨hd, ld, _, rfl, ?_, ?_⟩⟩
  · rw [copy_eq _ (incrementCells_wf a ha).1]
    exact hi
  · rw [copy_eq _ (incrementCells_wf a ha).1]
    exact gi
  · rw [copy_eq _ (decrementCells_wf a ha).1]
    exact hd
  · rw [copy_eq _ (decrementCells_wf a ha).1]
    exact ld

/-- Witness for C33: `[[1,2],[3,4]]` of sum 10, whose increment has sum 14 and whose
decrement has sum 6. -/
theorem increment_decrement_sum_witness :
    (SquareMat.prefixIncrement (⟨2, [[1, 2], [3, 4]]⟩ : SquareMat Int)).after.sum = 14 ∧
      (SquareMat.prefixDecrement (⟨2, [[1, 2], [3, 4]]⟩ : SquareMat Int)).after.sum = 6 ∧
      SquareMat.greater
        (SquareMat.prefixIncrement (⟨2, [[1, 2], [3, 4]]⟩ : SquareMat Int)).after
        ⟨2, [[1, 2], [3, 4]]⟩ = true ∧
      SquareMat.less
        (SquareMat.prefixDecrement (⟨2, [[1, 2], [3, 4]]⟩ : SquareMat Int)).after
        ⟨2, [[1, 2], [3, 4]]⟩ = true :=
  ⟨by decide, by decide,
    (increment_decrement_sum (⟨2, [[1, 2], [3, 4]]⟩ : SquareMat Int)
      ⟨by decide, by decide, by decide⟩).1.2.1,
    (increment_decrement_sum (⟨2, [[1, 2], [3, 4]]⟩ : SquareMat Int)
      ⟨by decide, by decide, by decide⟩).2.2.1⟩

/-- C37: over exact (linearly ordered) numbers the six comparison operators are
consistent on every pair `a`, `b`: exactly one of `a < b`, `a == b`, `a > b` is true;
`a != b` is the negation of `a == b`; `a <= b` is `a < b` or `a == b`; `a >= b` is the
negation of `a < b`; and `a > b` is `b < a`. -/
theorem comparisons_consistent [LinearOrder α] [Zero α] [Add α] (a b : SquareMat α) :
    ((SquareMat.less a b = true ∧ SquareMat.equal a b = false ∧
          SquareMat.greater a b = false) ∨
        (SquareMat.less a b = false ∧ SquareMat.equal a b = true ∧
          SquareMat.greater a b = false) ∨
        (SquareMat.less a b = false ∧ SquareMat.equal a b = false ∧
          SquareMat.greater a b = true)) ∧
      SquareMat.notEqual a b = !(SquareMat.equal a b) ∧
      SquareMat.lessOrEqual a b = (SquareMat.less a b || SquareMat.equal a b) ∧
      SquareMat.greaterOrEqual a b = !(SquareMat.less a b) ∧
      SquareMat.greater a b = SquareMat.less b a := by
  unfold SquareMat.less SquareMat.equal SquareMat.greater SquareMat.notEqual
    SquareMat.lessOrEqual SquareMat.greaterOrEqual
  generalize a.sum = x
  generalize b.sum = y
  refine ⟨?_, rfl, ?_, ?_, rfl⟩
  · rcases lt_trichotomy x y with h | h | h
    · left
      simp [h, h.ne, h.le]
    · right
      left
      simp [h]
    · right
      right
      simp [h, h.ne', h.le]
  · rw [Bool.eq_iff_iff]
    simp [le_iff_lt_or_eq]
  · rw [Bool.eq_iff_iff]
    simp

end SumClaims

end squaremat

namespace squaremat

section RepresentsLemmas

variable {α : Type}

theorem represents_self [Zero α] (a : SquareMat α) (ha : a.WF) :
    a.Represents a.size (Matrix.of (fun (i j : Fin a.size) => getCell a.matrix i j)) :=
  ⟨rfl, ha.2, rfl⟩

theorem represents_cell [Zero α] {r : SquareMat α} {n : Nat} {X : Matrix (Fin n) (Fin n) α}
    (h : r.Represents n X) (i j : Nat) (hi : i < n) (hj : j < n) :
    getCell r.matrix i j = X ⟨i, hi⟩ ⟨j, hj⟩ := by
  rw [← h.2.2]

theorem represents_unique [Zero α] {r s : SquareMat α} {n : Nat}
    {X : Matrix (Fin n) (Fin n) α} (hr : r.Represents n X) (hs : s.Represents n X) :
    r = s := by
  obtain ⟨rn, rm⟩ := r
  obtain ⟨sn, sm⟩ := s
  have e1 : rn = n := hr.1
  have e2 : sn = n := hs.1
  subst e1
  subst e2
  simp only [SquareMat.mk.injEq, true_and]
  apply shape_ext hr.2.1 hs.2.1
  intro i j hi hj
  exact (represents_cell hr i j hi hj).trans (represents_cell hs i j hi hj).symm

/-- The product object holds the matrix product of what its operands hold. -/
theorem matmul_represents [Semiring α] {a b : SquareMat α} {n : Nat}
    {A B : Matrix (Fin n) (Fin n) α} (hn : 1 ≤ n) (ha : a.Represents n A)
    (hb : b.Represents n B) :
    ∃ r, SquareMat.matrixMultiply a b = .ok r ∧ r.Represents n (A * B) := by
  have has : a.size = n := ha.1
  have hbs : b.size = n := hb.1
  refine ⟨_, matrixMultiply_eq a b (by omega) (by omega), has, ?_, ?_⟩
  · rw [← has]
    exact (product_loops_cells a.size
      (fun i j k => getCell a.matrix i k * getCell b.matrix k j)).1
  · funext i j
    show getCell (forLoop a.size _ _) i j = _
    rw [(product_loops_cells a.size
      (fun i j k => getCell a.matrix i k * getCell b.matrix k j)).2 i j (by omega) (by omega),
      ← forLoop_eq_foldl a.size (fun k acc => acc + getCell a.matrix i k * getCell b.matrix k j) 0,
      forLoop_add_eq_sum, has, Matrix.mul_apply, Finset.sum_range]
    apply Finset.sum_congr rfl
    intro k _
    rw [represents_cell ha i k i.2 k.2, represents_cell hb k j k.2 j.2]

/-- The object `power(a, 0)` holds the identity matrix. -/
theorem power_zero_represents [Semiring α] (a : SquareMat α) (ha : 1 ≤ a.size) :
    ∃ r, SquareMat.power a 0 = .ok r ∧
      r.Represents a.size (1 : Matrix (Fin a.size) (Fin a.size) α) := by
  obtain ⟨s1, e1⟩ := diagonal_loop (List.replicate a.size (List.replicate a.size (0 : α)))
    (shape_replicate a.size 0) a.size (Nat.le_refl _)
  refine ⟨_, power_zero_eq a ha, rfl, s1, ?_⟩
  funext i j
  show getCell (forLoop a.size _ _) i j = _
  rw [e1, getCell_replicate, Matrix.one_apply]
  by_cases h : i = j
  · subst h
    simp
  · have h2 : ¬ ((i : Nat) = (j : Nat)) := fun e => h (Fin.ext e)
    simp [h, h2]

/-- The loop of `operator^` after `k` turns holds the power `k + 1`. -/
theorem power_loop_represents [Semiring α] {a : SquareMat α} {n : Nat}
    {A : Matrix (Fin n) (Fin n) α} (hn : 1 ≤ n) (ha : a.Represents n A) (k : Nat) :
    ∃ r, forLoopE k (fun _ result => SquareMat.powerStep a result) a = .ok r ∧
      r.Represents n (A ^ (k + 1)) := by
  induction k with
  | zero => exact ⟨a, rfl, by rw [zero_add, pow_one]; exact ha⟩
  | succ k ih =>
    obtain ⟨r, hr, hrep⟩ := ih
    obtain ⟨t, ht, htrep⟩ := matmul_represents hn hrep ha
    refine ⟨t, ?_, by rw [pow_succ]; exact htrep⟩
    have hwf : r.WF := ⟨by rw [hrep.1]; exact hn, by rw [hrep.1]; exact hrep.2.1⟩
    rw [forLoopE_succ_ok _ _ _ hr, powerStep_eq a r hwf (by rw [hrep.1, ha.1]), ht]

/-- The object `power(a, k)` holds the `k`-th power of what `a` holds. -/
theorem power_represents [Semiring α] (a : SquareMat α) (ha : a.WF) (k : Nat) :
    ∃ r, SquareMat.power a (k : Int) = .ok r ∧
      r.Represents a.size
        ((Matrix.of (fun (i j : Fin a.size) => getCell a.matrix i j)) ^ k) := by
  match k with
  | 0 =>
    obtain ⟨r, hr, hrep⟩ := power_zero_represents a ha.1
    exact ⟨r, hr, by rw [pow_zero]; exact hrep⟩
  | 1 =>
    exact ⟨a, power_one_eq a ha, by rw [pow_one]; exact represents_self a ha⟩
  | k + 2 =>
    obtain ⟨r, hr, hrep⟩ := power_loop_represents ha.1 (represents_self a ha) (k + 1)
    refine ⟨r, ?_, hrep⟩
    rw [power_ge_two_eq a ha _ (by omega)]
    have : (((k + 2 : Nat) : Int) - 1).toNat = k + 1 := by omega
    rw [this]
    exact hr

end RepresentsLemmas

section PowerLaws

variable {α : Type}

/-- C34: over exact numbers `operator^` obeys the exponent law: for exponents
`m, n >= 0` the three powers are returned and `a ^ (m + n)` is the object that
`(a ^ m) * (a ^ n)` returns, cell for cell. -/
theorem power_add_exponents [Semiring α] (a : SquareMat α) (ha : a.WF) (m n : Int)
    (hm : 0 ≤ m) (hn : 0 ≤ n) :
    ∃ rm rn r, SquareMat.power a m = .ok rm ∧ SquareMat.power a n = .ok rn ∧
      SquareMat.power a (m + n) = .ok r ∧ SquareMat.matrixMultiply rm rn = .ok r ∧
      SquareMat.power a (m + n) = SquareMat.matrixMultiply rm rn ∧
      ∀ p, SquareMat.matrixMultiply rm rn = .ok p →
        ∀ i j, getCell r.matrix i j = getCell p.matrix i j := by
  obtain ⟨km, rfl⟩ := Int.eq_ofNat_of_zero_le hm
  obtain ⟨kn, rfl⟩ := Int.eq_ofNat_of_zero_le hn
  obtain ⟨rm, hrm, repm⟩ := power_represents a ha km
  obtain ⟨rn, hrn, repn⟩ := power_represents a ha kn
  obtain ⟨r, hr, rep⟩ := power_represents a ha (km + kn)
  obtain ⟨p, hp, repp⟩ := matmul_represents ha.1 repm repn
  rw [← pow_add] at repp
  have hpr : p = r := represents_unique repp rep
  subst hpr
  have hr2 : SquareMat.power a ((km : Int) + (kn : Int)) = .ok p := by
    rw [← Nat.cast_add]
    exact hr
  refine ⟨rm, rn, p, hrm, hrn, hr2, hp, hr2.trans hp.symm, ?_⟩
  intro q hq i j
  rw [hp] at hq
  cases hq
  rfl

/-- Witness for C34: `[[1,1],[0,1]]` with `m = 2` and `n = 1`, all three powers and the
product evaluated. -/
theorem power_add_exponents_witness :
    SquareMat.power (⟨2, [[1, 1], [0, 1]]⟩ : SquareMat Int) 2 = .ok ⟨2, [[1, 2], [0, 1]]⟩ ∧
      SquareMat.power (⟨2, [[1, 1], [0, 1]]⟩ : SquareMat Int) (2 + 1)
        = .ok ⟨2, [[1, 3], [0, 1]]⟩ ∧
      SquareMat.matrixMultiply (⟨2, [[1, 2], [0, 1]]⟩ : SquareMat Int) ⟨2, [[1, 1], [0, 1]]⟩
        = .ok ⟨2, [[1, 3], [0, 1]]⟩ ∧
      ∃ rm rn r, SquareMat.power (⟨2, [[1, 1], [0, 1]]⟩ : SquareMat Int) 2 = .ok rm ∧
        SquareMat.power (⟨2, [[1, 1], [0, 1]]⟩ : SquareMat Int) 1 = .ok rn ∧
        SquareMat.power (⟨2, [[1, 1], [0, 1]]⟩ : SquareMat Int) (2 + 1) = .ok r ∧
        SquareMat.matrixMultiply rm rn = .ok r ∧
        SquareMat.power (⟨2, [[1, 1], [0, 1]]⟩ : SquareMat Int) (2 + 1)
          = SquareMat.matrixMultiply rm rn ∧
        ∀ p, SquareMat.matrixMultiply rm rn = .ok p →
          ∀ i j, getCell r.matrix i j = getCell p.matrix i j :=
  ⟨rfl, rfl, rfl,
    power_add_exponents (⟨2, [[1, 1], [0, 1]]⟩ : SquareMat Int)
      ⟨by decide, by decide, by decide⟩ 2 1 (by decide) (by decide)⟩

/-- C35: over exact numbers the matrix that `a ^ 0` returns is a two-sided identity of
the matrix product: `a * (a ^ 0)` and `(a ^ 0) * a` both return `a`, cell for cell. -/
theorem power_zero_two_sided_identity [Semiring α] (a : SquareMat α) (ha : a.WF) :
    ∃ I, SquareMat.power a 0 = .ok I ∧
      SquareMat.matrixMultiply a I = .ok a ∧ SquareMat.matrixMultiply I a = .ok a := by
  obtain ⟨I, hI, repI⟩ := power_zero_represents a ha.1
  have repa := represents_self a ha
  obtain ⟨p, hp, repp⟩ := matmul_represents ha.1 repa repI
  obtain ⟨q, hq, repq⟩ := matmul_represents ha.1 repI repa
  rw [mul_one] at repp
  rw [one_mul] at repq
  have e1 : p = a := represents_unique repp repa
  have e2 : q = a := represents_unique repq repa
  subst e1
  exact ⟨I, hI, hp, by rw [hq, e2]⟩

/-- Witness for C35: `[[1,2],[3,4]]` and the identity `[[1,0],[0,1]]` that its power 0
is. -/
theorem power_zero_two_sided_identity_witness :
    SquareMat.power (⟨2, [[1, 2], [3, 4]]⟩ : SquareMat Int) 0 = .ok ⟨2, [[1, 0], [0, 1]]⟩ ∧
      ∃ I, SquareMat.power (⟨2, [[1, 2], [3, 4]]⟩ : SquareMat Int) 0 = .ok I ∧
        SquareMat.matrixMultiply ⟨2, [[1, 2], [3, 4]]⟩ I = .ok ⟨2, [[1, 2], [3, 4]]⟩ ∧
        SquareMat.matrixMultiply I ⟨2, [[1, 2], [3, 4]]⟩ = .ok ⟨2, [[1, 2], [3, 4]]⟩ :=
  ⟨rfl,
    power_zero_two_sided_identity (⟨2, [[1, 2], [3, 4]]⟩ : SquareMat Int)
      ⟨by decide, by decide, by decide⟩⟩

end PowerLaws

end squaremat

namespace squaremat

section IdentityLemmas

variable {α : Type}

/-- The determinant recursion on a storage holding the identity returns `1`, given only
the facts about `0` and `1` that the recursion uses on it. -/
theorem detAux_identity [Zero α] [One α] [Add α] [Sub α] [Mul α] [Neg α]
    (h0l : ∀ x : α, 0 * x = 0) (hr0 : ∀ x : α, x * 0 = 0) (h11 : (1 : α) * 1 = 1)
    (hsub : (1 : α) - 0 = 1) (h01 : (0 : α) + 1 = 1) (h10 : (1 : α) + 0 = 1) (n : Nat) :
    1 ≤ n → ∀ m : List (List α), Shape n m →
      (∀ i j, i < n → j < n → getCell m i j = if i = j then 1 else 0) →
      detAux n m = .ok 1 := by
  induction n using Nat.strong_induction_on with
  | _ n ih =>
    intro hn m hm hc
    match n, ih, hn, hm, hc with
    | 1, _, _, _, hc =>
      show Except.ok (getCell m 0 0) = _
      rw [hc 0 0 (by omega) (by omega), if_pos rfl]
    | 2, _, _, _, hc =>
      show Except.ok (getCell m 0 0 * getCell m 1 1 - getCell m 0 1 * getCell m 1 0) = _
      have e00 : getCell m 0 0 = 1 := by rw [hc 0 0 (by omega) (by omega), if_pos rfl]
      have e11 : getCell m 1 1 = 1 := by rw [hc 1 1 (by omega) (by omega), if_pos rfl]
      have e01 : getCell m 0 1 = 0 := by
        rw [hc 0 1 (by omega) (by omega), if_neg (by decide)]
      have e10 : getCell m 1 0 = 0 := by
        rw [hc 1 0 (by omega) (by omega), if_neg (by decide)]
      rw [e00, e11, e01, e10, h11, h0l, hsub]
    | k + 3, ih, _, hm, hc =>
      choose D hD using
        (detAux_total (k + 2) : ∀ m : List (List α), ∃ d, detAux (k + 2) m = .ok d)
      have hminor : detAux (k + 2) ((m.eraseIdx 0).map (fun row => row.eraseIdx 0)) = .ok 1 := by
        apply ih (k + 2) (by omega) (by omega) _ (shape_minor m hm (by omega) 0 (by omega))
        intro r c hr hc2
        have e := getCell_minor m 0 r c
        rw [e, if_neg (by omega), hc (1 + r) (c + 1) (by omega) (by omega)]
        by_cases h : r = c
        · rw [if_pos h, if_pos (by omega)]
        · rw [if_neg h, if_neg (by omega)]
      rw [detAux_expansion k m hm
        (fun j => if j = 0 then 1 else D ((m.eraseIdx 0).map (fun row => row.eraseIdx j)))
        (fun j _ => by
          beta_reduce
          by_cases h : j = 0
          · subst h
            rw [if_pos rfl]
            exact hminor
          · rw [if_neg h]
            exact hD _)]
      congr 1
      have hloop : ∀ K, K < k + 3 →
          forLoop (K + 1)
            (fun j acc => acc + sign j * getCell m 0 j
              * (if j = 0 then 1 else D ((m.eraseIdx 0).map (fun row => row.eraseIdx j)))) 0
            = 1 := by
        intro K
        induction K with
        | zero =>
          intro _
          show (0 : α) + sign 0 * getCell m 0 0 * (if 0 = 0 then 1 else _) = 1
          rw [if_pos rfl, hc 0 0 (by omega) (by omega), if_pos rfl]
          have hs : (sign 0 : α) = 1 := rfl
          rw [hs, h11, h11, h01]
        | succ K ihK =>
          intro hK
          rw [forLoop_succ, ihK (by omega), hc 0 (K + 1) (by omega) hK, if_neg (by omega),
            hr0, h0l, h10]
      exact hloop (k + 2) (by omega)

/-- The matrix that `power == 0` builds has determinant `1` under the same facts. -/
theorem identity_determinant [Zero α] [One α] [Add α] [Sub α] [Mul α] [Neg α]
    (h0l : ∀ x : α, 0 * x = 0) (hr0 : ∀ x : α, x * 0 = 0) (h11 : (1 : α) * 1 = 1)
    (hsub : (1 : α) - 0 = 1) (h01 : (0 : α) + 1 = 1) (h10 : (1 : α) + 0 = 1)
    (a : SquareMat α) (ha : 1 ≤ a.size) :
    ∃ I, SquareMat.power a 0 = .ok I ∧ I.determinant = .ok 1 := by
  obtain ⟨s1, e1⟩ := diagonal_loop (List.replicate a.size (List.replicate a.size (0 : α)))
    (shape_replicate a.size 0) a.size (Nat.le_refl _)
  refine ⟨_, power_zero_eq a ha, ?_⟩
  apply detAux_identity h0l hr0 h11 hsub h01 h10 a.size ha _ s1
  intro i j hi hj
  rw [e1, getCell_replicate]
  by_cases h : i = j
  · rw [if_pos ⟨h, hi⟩, if_pos h]
  · rw [if_neg (fun hh => h hh.1), if_neg h]

/-- In `double`, `1.0` rounds to itself. -/
theorem roundDouble_one : roundDouble 1 = 1 := by
  have habs : |(1 : ℚ)| = 1 := abs_one
  have hz : (1 : ℚ) = ((2 : ℕ) : ℚ) ^ (0 : ℤ) := by norm_num
  have hlog : Int.log 2 (1 : ℚ) = 0 := by
    rw [hz, Int.log_zpow (by decide)]
  have hfl : ⌊((1 : ℚ) / 2 ^ ((0 : ℤ) - 52))⌋ = 2 ^ 52 := by
    rw [Int.floor_eq_iff]
    norm_num
  unfold roundDouble
  rw [if_neg (by norm_num), habs, hlog]
  unfold roundTiesEven
  rw [hfl, if_pos (by norm_num)]
  norm_num

theorem double_zero_mul (x : Double) : (0 : Double) * x = 0 := by
  show (⟨roundDouble ((0 : ℚ) * x.val)⟩ : Double) = ⟨0⟩
  rw [zero_mul, roundDouble_zero]

theorem double_mul_zero (x : Double) : x * (0 : Double) = 0 := by
  show (⟨roundDouble (x.val * (0 : ℚ))⟩ : Double) = ⟨0⟩
  rw [mul_zero, roundDouble_zero]

theorem double_one_mul_one : (1 : Double) * 1 = 1 := by
  show (⟨roundDouble ((1 : ℚ) * 1)⟩ : Double) = ⟨1⟩
  rw [mul_one, roundDouble_one]

theorem double_one_sub_zero : (1 : Double) - 0 = 1 := by
  show (⟨roundDouble ((1 : ℚ) - 0)⟩ : Double) = ⟨1⟩
  rw [sub_zero, roundDouble_one]

theorem double_zero_add_one : (0 : Double) + 1 = 1 := by
  show (⟨roundDouble ((0 : ℚ) + 1)⟩ : Double) = ⟨1⟩
  rw [zero_add, roundDouble_one]

theorem double_one_add_zero : (1 : Double) + 0 = 1 := by
  show (⟨roundDouble ((1 : ℚ) + 0)⟩ : Double) = ⟨1⟩
  rw [add_zero, roundDouble_one]

end IdentityLemmas

section IdentityDeterminant

variable {α : Type}

/-- C36: for every matrix of order `n >= 1` the determinant that `operator!` computes of
the identity matrix `a ^ 0` is exactly `1`: for cells in exact arithmetic (`a`), and for
cells in `double` with every operation rounded (`b`, on the finite values of `double`),
where the terms of the expansion are `1 * 1 * 1` once and `sign * 0 * d` otherwise. -/
theorem determinant_of_identity [Ring α] (a : SquareMat α) (ha : a.WF)
    (b : SquareMat Double) (hb : b.WF) :
    (∃ I, SquareMat.power a 0 = .ok I ∧ I.determinant = .ok 1) ∧
      (∃ J, SquareMat.power b 0 = .ok J ∧ J.determinant = .ok 1) :=
  ⟨identity_determinant zero_mul mul_zero (one_mul 1) (sub_zero 1) (zero_add 1) (add_zero 1)
      a ha.1,
    identity_determinant double_zero_mul double_mul_zero double_one_mul_one
      double_one_sub_zero double_zero_add_one double_one_add_zero b hb.1⟩

/-- Witness for C36: a matrix of order 3 over the integers and one over `double`, whose
power 0 is `[[1,0,0],[0,1,0],[0,0,1]]`. -/
theorem determinant_of_identity_witness :
    SquareMat.power (⟨3, [[2, -3, 1], [2, 0, -1], [1, 4, 5]]⟩ : SquareMat Int) 0
        = .ok ⟨3, [[1, 0, 0], [0, 1, 0], [0, 0, 1]]⟩ ∧
      SquareMat.determinant (⟨3, [[1, 0, 0], [0, 1, 0], [0, 0, 1]]⟩ : SquareMat Int) = .ok 1 ∧
      SquareMat.power
          (⟨3, [[⟨1 / 2⟩, ⟨3⟩, ⟨0⟩], [⟨2⟩, ⟨1 / 4⟩, ⟨5⟩], [⟨7⟩, ⟨0⟩, ⟨1⟩]]⟩ : SquareMat Double) 0
        = .ok ⟨3, [[1, 0, 0], [0, 1, 0], [0, 0, 1]]⟩ ∧
      ((∃ I, SquareMat.power (⟨3, [[2, -3, 1], [2, 0, -1], [1, 4, 5]]⟩ : SquareMat Int) 0
            = .ok I ∧ I.determinant = .ok 1) ∧
        (∃ J, SquareMat.power
            (⟨3, [[⟨1 / 2⟩, ⟨3⟩, ⟨0⟩], [⟨2⟩, ⟨1 / 4⟩, ⟨5⟩], [⟨7⟩, ⟨0⟩, ⟨1⟩]]⟩ :
              SquareMat Double) 0
            = .ok J ∧ J.determinant = .ok 1)) :=
  ⟨rfl, rfl, rfl,
    determinant_of_identity (⟨3, [[2, -3, 1], [2, 0, -1], [1, 4, 5]]⟩ : SquareMat Int)
      ⟨by decide, by decide, by decide⟩
      (⟨3, [[⟨1 / 2⟩, ⟨3⟩, ⟨0⟩], [⟨2⟩, ⟨1 / 4⟩, ⟨5⟩], [⟨7⟩, ⟨0⟩, ⟨1⟩]]⟩ : SquareMat Double)
      ⟨by decide, by decide, by decide⟩⟩

end IdentityDeterminant

end squaremat

namespace squaremat

section DoubleIntegers

theorem roundTiesEven_intCast (z : ℤ) : roundTiesEven (z : ℚ) = z := by
  unfold roundTiesEven
  rw [Int.floor_intCast, if_pos (by simp)]

/-- An integer of magnitude below `2^53` is a `double`: rounding leaves it as it is. -/
theorem roundDouble_intCast (z : ℤ) (hz : |z| < 2 ^ 53) : roundDouble (z : ℚ) = z := by
  by_cases h0 : z = 0
  · subst h0
    simp [roundDouble]
  · have hq : (z : ℚ) ≠ 0 := by exact_mod_cast h0
    have habs1 : (1 : ℚ) ≤ |(z : ℚ)| := by
      have : (1 : ℤ) ≤ |z| := Int.one_le_abs h0
      exact_mod_cast this
    have hpos : (0 : ℚ) < |(z : ℚ)| := by linarith
    have hlt : |(z : ℚ)| < ((2 : ℕ) : ℚ) ^ (53 : ℤ) := by
      have : ((|z| : ℤ) : ℚ) < ((2 ^ 53 : ℤ) : ℚ) := by exact_mod_cast hz
      rw [Int.cast_abs] at this
      norm_num at this ⊢
      exact this
    have he1 : Int.log 2 |(z : ℚ)| < 53 :=
      (Int.lt_zpow_iff_log_lt (by norm_num) hpos).mp hlt
    have he0 : 0 ≤ Int.log 2 |(z : ℚ)| := by
      rw [Int.log_of_one_le_right _ habs1]
      exact Int.natCast_nonneg _
    obtain ⟨k, hk⟩ : ∃ k : ℕ, Int.log 2 |(z : ℚ)| - 52 = -(k : ℤ) :=
      ⟨(52 - Int.log 2 |(z : ℚ)|).toNat, by omega⟩
    unfold roundDouble
    rw [if_neg hq, hk, zpow_neg, zpow_natCast, div_inv_eq_mul]
    have hcast : (z : ℚ) * 2 ^ k = ((z * 2 ^ k : ℤ) : ℚ) := by push_cast; ring
    rw [hcast, roundTiesEven_intCast]
    push_cast
    field_simp

theorem double_ext {x y : Double} (h : x.val = y.val) : x = y := by
  cases x
  cases y
  simp only at h
  rw [h]

theorem double_mul_int {x y : Double} {a b : ℤ} (hx : x.val = a) (hy : y.val = b)
    (h : |a * b| < 2 ^ 53) : (x * y).val = ((a * b : ℤ) : ℚ) := by
  show roundDouble (x.val * y.val) = _
  rw [hx, hy, ← Int.cast_mul, roundDouble_intCast _ h]

theorem double_add_int {x y : Double} {a b : ℤ} (hx : x.val = a) (hy : y.val = b)
    (h : |a + b| < 2 ^ 53) : (x + y).val = ((a + b : ℤ) : ℚ) := by
  show roundDouble (x.val + y.val) = _
  rw [hx, hy, ← Int.cast_add, roundDouble_intCast _ h]

theorem double_sub_int {x y : Double} {a b : ℤ} (hx : x.val = a) (hy : y.val = b)
    (h : |a - b| < 2 ^ 53) : (x - y).val = ((a - b : ℤ) : ℚ) := by
  show roundDouble (x.val - y.val) = _
  rw [hx, hy, ← Int.cast_sub, roundDouble_intCast _ h]

end DoubleIntegers

end squaremat

namespace squaremat

section RoundTripRestores

variable {α : Type}

theorem double_add_one_sub_one (x : Double) (z : ℤ) (hx : x.val = z) (h0 : |z| < 2 ^ 53)
    (h1 : |z + 1| < 2 ^ 53) : x + 1 - 1 = x := by
  have one_val : (1 : Double).val = ((1 : ℤ) : ℚ) := by
    show (1 : ℚ) = _
    norm_num
  have ha := double_add_int hx one_val h1
  have hs := double_sub_int ha one_val (by rw [add_sub_cancel_right]; exact h0)
  apply double_ext
  rw [hs, hx, add_sub_cancel_right]

/-- C25, amended: for every matrix `M`, prefix increment and then prefix decrement leave
the order as it was and every cell `x` at `(x + 1) - 1`, computed in the arithmetic of
the cells; so `M` is the original matrix again exactly when every cell `x` of `M` has
`(x + 1) - 1 = x`. -/
theorem increment_then_decrement_restores_iff [Zero α] [One α] [Add α] [Sub α]
    (M : SquareMat α) (hM : M.WF) :
    (SquareMat.prefixDecrement (SquareMat.prefixIncrement M).after).after.size = M.size ∧
      (∀ i j, i < M.size → j < M.size →
        getCell (SquareMat.prefixDecrement (SquareMat.prefixIncrement M).after).after.matrix i j
          = getCell M.matrix i j + 1 - 1) ∧
      ((SquareMat.prefixDecrement (SquareMat.prefixIncrement M).after).after = M ↔
        ∀ i j, i < M.size → j < M.size →
          getCell M.matrix i j + 1 - 1 = getCell M.matrix i j) := by
  obtain ⟨w1, s1, c1⟩ := incrementCells_wf M hM
  obtain ⟨w2, s2, c2⟩ := decrementCells_wf (SquareMat.incrementCells M) w1
  have hcells : ∀ i j, i < M.size → j < M.size →
      getCell (SquareMat.decrementCells (SquareMat.incrementCells M)).matrix i j
        = getCell M.matrix i j + 1 - 1 := by
    intro i j hi hj
    rw [c2 i j (by rw [s1]; exact hi) (by rw [s1]; exact hj), c1 i j hi hj]
  refine ⟨rfl, hcells, ?_, ?_⟩
  · intro heq i j hi hj
    have h := hcells i j hi hj
    have heq2 : SquareMat.decrementCells (SquareMat.incrementCells M) = M := heq
    rw [heq2] at h
    exact h.symm
  · intro hx
    show SquareMat.decrementCells (SquareMat.incrementCells M) = M
    obtain ⟨n, m⟩ := M
    have hsz : (SquareMat.decrementCells (SquareMat.incrementCells ⟨n, m⟩)).size = n := rfl
    have hsh : Shape n (SquareMat.decrementCells (SquareMat.incrementCells ⟨n, m⟩)).matrix :=
      w2.2
    have hm : (SquareMat.decrementCells (SquareMat.incrementCells ⟨n, m⟩)).matrix = m :=
      shape_ext hsh hM.2 (fun i j hi hj => (hcells i j hi hj).trans (hx i j hi hj))
    calc SquareMat.decrementCells (SquareMat.incrementCells ⟨n, m⟩)
        = ⟨(SquareMat.decrementCells (SquareMat.incrementCells ⟨n, m⟩)).size,
            (SquareMat.decrementCells (SquareMat.incrementCells ⟨n, m⟩)).matrix⟩ := rfl
      _ = ⟨n, m⟩ := by rw [hsz, hm]

/-- Witness for C25, amended: `++` then `--` on `[[1,2],[3,4]]`, with `double` cells (every
sum and difference rounded) and with integer cells. -/
theorem increment_then_decrement_restores_iff_witness :
    (SquareMat.prefixDecrement
          (SquareMat.prefixIncrement
            (⟨2, [[⟨1⟩, ⟨2⟩], [⟨3⟩, ⟨4⟩]]⟩ : SquareMat Double)).after).after
        = ⟨2, [[⟨1⟩, ⟨2⟩], [⟨3⟩, ⟨4⟩]]⟩ ∧
      (SquareMat.prefixDecrement
          (SquareMat.prefixIncrement (⟨2, [[1, 2], [3, 4]]⟩ : SquareMat Int)).after).after
        = ⟨2, [[1, 2], [3, 4]]⟩ :=
  ⟨(increment_then_decrement_restores_iff
      (⟨2, [[⟨1⟩, ⟨2⟩], [⟨3⟩, ⟨4⟩]]⟩ : SquareMat Double)
      ⟨by decide, by decide, by decide⟩).2.2.mpr
      (by
        intro i j hi hj
        have hi2 : i < 2 := hi
        have hj2 : j < 2 := hj
        interval_cases i <;> interval_cases j
        · exact double_add_one_sub_one _ 1 (by norm_num [getCell]) (by norm_num) (by norm_num)
        · exact double_add_one_sub_one _ 2 (by norm_num [getCell]) (by norm_num) (by norm_num)
        · exact double_add_one_sub_one _ 3 (by norm_num [getCell]) (by norm_num) (by norm_num)
        · exact double_add_one_sub_one _ 4 (by norm_num [getCell]) (by norm_num) (by norm_num)),
    (increment_then_decrement_restores_iff (⟨2, [[1, 2], [3, 4]]⟩ : SquareMat Int)
      ⟨by decide, by decide, by decide⟩).2.2.mpr
      (fun i j _ _ => Int.add_sub_cancel (getCell [[1, 2], [3, 4]] i j) 1)⟩

end RoundTripRestores

end squaremat

namespace squaremat

section ExactRuns

variable {α : Type} {R : Type}

/-- The outcome of the first `J` turns of the loop of `operator!`, given what the
recursive calls return. -/
theorem detPartial_eq [Zero α] [One α] [Add α] [Sub α] [Mul α] [Neg α] (k : Nat)
    (m : List (List α)) (hm : Shape (k + 3) m) (D : Nat → α)
    (hD : ∀ j, j < k + 3 →
      detAux (k + 2) ((m.eraseIdx 0).map (fun row => row.eraseIdx j)) = .ok (D j))
    (J : Nat) (hJ : J ≤ k + 3) :
    detPartial (k + 3) m J
      = .ok (forLoop J (fun j acc => acc + sign j * getCell m 0 j * D j) 0) := by
  unfold detPartial
  apply forLoopE_ok
  intro j hj acc
  have h : (SquareMat.new (k + 2) : Except Error (SquareMat α))
      = .ok ⟨k + 2, List.replicate (k + 2) (List.replicate (k + 2) 0)⟩ :=
    new_eq (k + 2) (by omega)
  have hb : buildSubmat (k + 3) m j (List.replicate (k + 2) (List.replicate (k + 2) 0))
      = (m.eraseIdx 0).map (fun row => row.eraseIdx j) :=
    buildSubmat_eq_minor m hm (by omega) j (by omega)
  have e : k + 3 - 1 = k + 2 := rfl
  simp only [e, h, hb, hD j (by omega)]

theorem val_sign [Zero α] [One α] [Neg α] [Ring R] (val : α → R) (h1 : val 1 = 1)
    (hneg : val (-1) = -1) (j : Nat) : val (sign j) = (-1) ^ j := by
  unfold sign
  by_cases h : j % 2 = 0
  · rw [if_pos h, h1, Even.neg_one_pow (Nat.even_iff.mpr h)]
  · rw [if_neg h, hneg, Odd.neg_one_pow (Nat.odd_iff.mpr (by omega))]

/-- When the run of `operator!` is exact under `val`, the value of what it returns is
the determinant of the values of the cells. -/
theorem detAux_val_eq_det [Zero α] [One α] [Add α] [Sub α] [Mul α] [Neg α] [CommRing R]
    (val : α → R) (h0 : val 0 = 0) (h1 : val 1 = 1) (hneg : val (-1) = -1) (n : Nat) :
    ∀ m : List (List α), 1 ≤ n → Shape n m → detExact val n m →
      ∃ d, detAux n m = .ok d ∧
        val d = Matrix.det (fun (i j : Fin n) => val (getCell m i j)) := by
  induction n using Nat.strong_induction_on with
  | _ n ih =>
    intro m hn hm hex
    match n, ih, hn, hm, hex with
    | 1, _, _, _, _ =>
      exact ⟨getCell m 0 0, rfl, by rw [Matrix.det_fin_one]; rfl⟩
    | 2, _, _, _, hex =>
      refine ⟨_, rfl, ?_⟩
      rw [Matrix.det_fin_two, hex.2.2, hex.1, hex.2.1]
      rfl
    | k + 3, ih, _, hm, hex =>
      have hex2 : ∀ j, j < k + 3 →
          detExact val (k + 2) ((m.eraseIdx 0).map (fun row => row.eraseIdx j)) ∧
            ∀ det d, detPartial (k + 3) m j = .ok det →
              detAux (k + 2) ((m.eraseIdx 0).map (fun row => row.eraseIdx j)) = .ok d →
              val (sign j * getCell m 0 j) = val (sign j) * val (getCell m 0 j) ∧
                val (sign j * getCell m 0 j * d) = val (sign j * getCell m 0 j) * val d ∧
                val (det + sign j * getCell m 0 j * d)
                  = val det + val (sign j * getCell m 0 j * d) := hex
      have hT : ∀ j : Nat, ∃ d,
          detAux (k + 2) ((m.eraseIdx 0).map (fun row => row.eraseIdx j)) = .ok d :=
        fun j => detAux_total (k + 2) _
      choose D hD using hT
      have hval : ∀ j, (hj : j < k + 3) →
          val (D j) = Matrix.det (fun (r c : Fin (k + 2)) =>
            val (getCell ((m.eraseIdx 0).map (fun row => row.eraseIdx j)) r c)) := by
        intro j hj
        obtain ⟨d, hd, hv⟩ := ih (k + 2) (by omega) _ (by omega)
          (shape_minor m hm (by omega) j hj) (hex2 j hj).1
        rw [hD j] at hd
        cases hd
        exact hv
      have hsum : ∀ J, J ≤ k + 3 →
          val (forLoop J (fun j acc => acc + sign j * getCell m 0 j * D j) 0)
            = ∑ j in Finset.range J, val (sign j) * val (getCell m 0 j) * val (D j) := by
        intro J
        induction J with
        | zero =>
          intro _
          rw [Finset.sum_range_zero]
          exact h0
        | succ J ihJ =>
          intro hJ
          obtain ⟨e1, e2, e3⟩ := (hex2 J (by omega)).2 _ (D J)
            (detPartial_eq k m hm D (fun j _ => hD j) J (by omega)) (hD J)
          rw [Finset.sum_range_succ, ← ihJ (by omega), ← e1, ← e2, ← e3]
          rfl
      refine ⟨_, detAux_expansion k m hm D (fun j _ => hD j), ?_⟩
      rw [hsum (k + 3) (Nat.le_refl _), Matrix.det_succ_row_zero, Finset.sum_range]
      apply Finset.sum_congr rfl
      intro j _
      rw [val_sign val h1 hneg, hval j j.2]
      have hs := congrArg (fun (M : Fin (k + 2) → Fin (k + 2) → α) => fun r c => val (M r c))
        (minor_eq_submatrix (k + 2) m j)
      simp only at hs
      rw [hs]
      rfl

/-- A run in which `val` is the identity is exact. -/
theorem detExact_id [Zero α] [One α] [Add α] [Sub α] [Mul α] [Neg α] (n : Nat) :
    ∀ m : List (List α), detExact (fun x : α => x) n m := by
  induction n using Nat.strong_induction_on with
  | _ n ih =>
    intro m
    match n, ih with
    | 0, _ => exact trivial
    | 1, _ => exact trivial
    | 2, _ => exact ⟨rfl, rfl, rfl⟩
    | k + 3, ih =>
      intro j _
      exact ⟨ih (k + 2) (by omega) _, fun _ _ _ _ => ⟨rfl, rfl, rfl⟩⟩

theorem getCell_values [Zero α] [Zero R] (val : α → R) (h0 : val 0 = 0) (m : List (List α))
    (i j : Nat) :
    getCell (m.map (fun row => row.map val)) i j = val (getCell m i j) := by
  unfold getCell
  rw [List.getElem?_map]
  cases h : m[i]? with
  | none => simp [h0]
  | some row =>
    simp only [Option.map_some', Option.getD_some, List.getElem?_map]
    cases h2 : row[j]? with
    | none => simp [h0]
    | some x => simp

end ExactRuns

end squaremat

namespace squaremat

section DoubleDeterminant

theorem double_zero_val : (0 : Double).val = ((0 : ℤ) : ℚ) := by
  show (0 : ℚ) = _
  norm_num

theorem double_one_val : (1 : Double).val = ((1 : ℤ) : ℚ) := by
  show (1 : ℚ) = _
  norm_num

theorem double_neg_one_val : (-1 : Double).val = ((-1 : ℤ) : ℚ) := by
  show -(1 : ℚ) = _
  norm_num

theorem double_sign_int (j : Nat) : ∃ zs : ℤ, (sign j : Double).val = zs ∧ |zs| = 1 := by
  unfold sign
  by_cases h : j % 2 = 0
  · rw [if_pos h]
    exact ⟨1, double_one_val, by norm_num⟩
  · rw [if_neg h]
    exact ⟨-1, double_neg_one_val, by norm_num⟩

/-- One turn of the loop of `operator!` on integer values that stay below `2^53`. -/
theorem double_term_step {sg x d acc : Double} {zs zx zd zacc : ℤ}
    (hs : sg.val = zs) (hx : x.val = zx) (hd : d.val = zd) (hacc : acc.val = zacc)
    (b1 : |zs * zx| < 2 ^ 53) (b2 : |zs * zx * zd| < 2 ^ 53)
    (b3 : |zacc + zs * zx * zd| < 2 ^ 53) :
    (sg * x).val = sg.val * x.val ∧ (sg * x * d).val = (sg * x).val * d.val ∧
      (acc + sg * x * d).val = acc.val + (sg * x * d).val ∧
      (acc + sg * x * d).val = ((zacc + zs * zx * zd : ℤ) : ℚ) := by
  have e1 := double_mul_int hs hx b1
  have e2 := double_mul_int e1 hd b2
  have e3 := double_add_int hacc e2 b3
  refine ⟨?_, ?_, ?_, e3⟩
  · rw [e1, hs, hx]
    push_cast
    rfl
  · rw [e2, e1, hd]
    push_cast
    rfl
  · rw [e3, hacc, e2]
    push_cast
    rfl

/-- On `double` cells that hold integers of magnitude at most `B`, with
`n! * B^n < 2^53`, no operation of the run of `operator!` rounds, and the result is an
integer of magnitude at most `n! * B^n`. -/
theorem detAux_double_int (B : ℕ) (n : Nat) :
    ∀ m : List (List Double), 1 ≤ n → Shape n m → n.factorial * B ^ n < 2 ^ 53 →
      (∀ i j, i < n → j < n → ∃ z : ℤ, (getCell m i j).val = z ∧ |z| ≤ (B : ℤ)) →
      detExact Double.val n m ∧
        ∃ (d : Double) (z : ℤ), detAux n m = .ok d ∧ d.val = z ∧
          |z| ≤ ((n.factorial * B ^ n : ℕ) : ℤ) := by
  induction n using Nat.strong_induction_on with
  | _ n ih =>
    intro m hn hm hB hc
    have hBz : (0 : ℤ) ≤ (B : ℤ) := Int.natCast_nonneg B
    match n, ih, hn, hm, hB, hc with
    | 1, _, _, _, _, hc =>
      obtain ⟨z, hz, hb⟩ := hc 0 0 (by omega) (by omega)
      exact ⟨trivial, getCell m 0 0, z, rfl, hz, by simpa using hb⟩
    | 2, _, _, _, hB, hc =>
      obtain ⟨za, ha, ba⟩ := hc 0 0 (by omega) (by omega)
      obtain ⟨zb, hb, bb⟩ := hc 0 1 (by omega) (by omega)
      obtain ⟨zc, hc2, bc⟩ := hc 1 0 (by omega) (by omega)
      obtain ⟨zd, hd, bd⟩ := hc 1 1 (by omega) (by omega)
      have hfac : Nat.factorial 2 * B ^ 2 = 2 * (B * B) := by
        rw [pow_two]
        rfl
      have hB2 : (2 : ℤ) * ((B : ℤ) * (B : ℤ)) < 2 ^ 53 := by
        rw [hfac] at hB
        exact_mod_cast hB
      have hBB : (0 : ℤ) ≤ (B : ℤ) * (B : ℤ) := mul_nonneg hBz hBz
      have p1 : |za * zd| ≤ (B : ℤ) * (B : ℤ) := by
        rw [abs_mul]
        exact mul_le_mul ba bd (abs_nonneg _) hBz
      have p2 : |zb * zc| ≤ (B : ℤ) * (B : ℤ) := by
        rw [abs_mul]
        exact mul_le_mul bb bc (abs_nonneg _) hBz
      have p3 : |za * zd - zb * zc| ≤ 2 * ((B : ℤ) * (B : ℤ)) := by
        have := abs_sub (za * zd) (zb * zc)
        linarith
      have e1 := double_mul_int ha hd (by linarith)
      have e2 := double_mul_int hb hc2 (by linarith)
      have e3 := double_sub_int e1 e2 (by linarith)
      refine ⟨⟨?_, ?_, ?_⟩, _, za * zd - zb * zc, rfl, e3, ?_⟩
      · rw [e1, ha, hd]
        push_cast
        rfl
      · rw [e2, hb, hc2]
        push_cast
        rfl
      · rw [e3, e1, e2]
        push_cast
        rfl
      · rw [hfac]
        push_cast
        exact p3
    | k + 3, ih, _, hm, hB, hc =>
      have hfac : (k + 3).factorial * B ^ (k + 3)
          = (k + 3) * (B * ((k + 2).factorial * B ^ (k + 2))) := by
        rw [Nat.factorial_succ, pow_succ]
        ring
      generalize hcdef : (k + 2).factorial * B ^ (k + 2) = c at hfac
      have hc53 : c < 2 ^ 53 ∧ B < 2 ^ 53 := by
        rcases Nat.eq_zero_or_pos B with hB0 | hBpos
        · subst hB0
          have : c = 0 := by
            rw [← hcdef]
            simp
          subst this
          exact ⟨by norm_num, by norm_num⟩
        · have hcpos : 1 ≤ c := by
            rw [← hcdef]
            exact Nat.mul_pos (Nat.factorial_pos _) (pow_pos hBpos _)
          have h3 : 1 ≤ k + 3 := by omega
          have hbc : 1 ≤ B * c := Nat.mul_pos hBpos hcpos
          have hle1 : c ≤ (k + 3) * (B * c) := by
            calc c = 1 * (1 * c) := by ring
              _ ≤ (k + 3) * (B * c) :=
                Nat.mul_le_mul h3 (Nat.mul_le_mul hBpos (Nat.le_refl c))
          have hle2 : B ≤ (k + 3) * (B * c) := by
            calc B = 1 * (B * 1) := by ring
              _ ≤ (k + 3) * (B * c) :=
                Nat.mul_le_mul h3 (Nat.mul_le_mul (Nat.le_refl B) hcpos)
          rw [hfac] at hB
          exact ⟨lt_of_le_of_lt hle1 hB, lt_of_le_of_lt hle2 hB⟩
      have hcz : (0 : ℤ) ≤ (c : ℤ) := Int.natCast_nonneg c
      have hP : (0 : ℤ) ≤ (B : ℤ) * (c : ℤ) := mul_nonneg hBz hcz
      have hT : ((k + 3 : ℕ) : ℤ) * ((B : ℤ) * (c : ℤ)) < 2 ^ 53 := by
        rw [hfac] at hB
        exact_mod_cast hB
      have hB53 : (B : ℤ) < 2 ^ 53 := by exact_mod_cast hc53.2
      have hmin : ∀ j, j < k + 3 →
          detExact Double.val (k + 2) ((m.eraseIdx 0).map (fun row => row.eraseIdx j)) ∧
            ∃ (d : Double) (z : ℤ),
              detAux (k + 2) ((m.eraseIdx 0).map (fun row => row.eraseIdx j)) = .ok d ∧
                d.val = z ∧ |z| ≤ (c : ℤ) := by
        intro j hj
        have hsm : Shape (k + 2) ((m.eraseIdx 0).map (fun row => row.eraseIdx j)) :=
          shape_minor m hm (by omega) j hj
        have h := ih (k + 2) (by omega) ((m.eraseIdx 0).map (fun row => row.eraseIdx j))
          (by omega) hsm (by rw [hcdef]; exact hc53.1)
          (by
            intro r cc hr hcc
            have e := getCell_minor m j r cc
            rw [e]
            by_cases hlt : cc < j
            · rw [if_pos hlt]
              exact hc _ _ (by omega) (by omega)
            · rw [if_neg hlt]
              exact hc _ _ (by omega) (by omega))
        rw [hcdef] at h
        exact h
      have hTot : ∀ j : Nat, ∃ d,
          detAux (k + 2) ((m.eraseIdx 0).map (fun row => row.eraseIdx j)) = .ok d :=
        fun j => detAux_total (k + 2) _
      choose D hD using hTot
      have hDz : ∀ j, j < k + 3 → ∃ z : ℤ, (D j).val = z ∧ |z| ≤ (c : ℤ) := by
        intro j hj
        obtain ⟨_, d, z, hd, hz, hb⟩ := hmin j hj
        rw [hD j] at hd
        cases hd
        exact ⟨z, hz, hb⟩
      have hstep : ∀ J, J < k + 3 → ∀ (acc : Double) (zacc : ℤ), acc.val = zacc →
          |zacc| ≤ (J : ℤ) * ((B : ℤ) * (c : ℤ)) →
          (Double.val (sign J * getCell m 0 J)
              = Double.val (sign J) * Double.val (getCell m 0 J) ∧
            Double.val (sign J * getCell m 0 J * D J)
              = Double.val (sign J * getCell m 0 J) * Double.val (D J) ∧
            Double.val (acc + sign J * getCell m 0 J * D J)
              = Double.val acc + Double.val (sign J * getCell m 0 J * D J)) ∧
          ∃ z : ℤ, (acc + sign J * getCell m 0 J * D J).val = z ∧
            |z| ≤ ((J + 1 : ℕ) : ℤ) * ((B : ℤ) * (c : ℤ)) := by
        intro J hJ acc zacc hacc hbacc
        obtain ⟨zs, hs, bs⟩ := double_sign_int J
        obtain ⟨zx, hx, bx⟩ := hc 0 J (by omega) hJ
        obtain ⟨zd, hd, bd⟩ := hDz J hJ
        have q1 : |zs * zx| ≤ (B : ℤ) := by
          rw [abs_mul, bs, one_mul]
          exact bx
        have q2 : |zs * zx * zd| ≤ (B : ℤ) * (c : ℤ) := by
          rw [abs_mul]
          exact mul_le_mul q1 bd (abs_nonneg _) hBz
        have q3 : |zacc + zs * zx * zd| ≤ ((J + 1 : ℕ) : ℤ) * ((B : ℤ) * (c : ℤ)) := by
          have := abs_add zacc (zs * zx * zd)
          push_cast
          linarith
        have hJ1 : ((J + 1 : ℕ) : ℤ) * ((B : ℤ) * (c : ℤ))
            ≤ ((k + 3 : ℕ) : ℤ) * ((B : ℤ) * (c : ℤ)) := by
          apply mul_le_mul_of_nonneg_right _ hP
          exact_mod_cast (by omega : J + 1 ≤ k + 3)
        have hone : (B : ℤ) * (c : ℤ) ≤ ((k + 3 : ℕ) : ℤ) * ((B : ℤ) * (c : ℤ)) := by
          have h1 : (1 : ℤ) ≤ ((k + 3 : ℕ) : ℤ) := by exact_mod_cast (by omega : 1 ≤ k + 3)
          nlinarith
        obtain ⟨e1, e2, e3, e4⟩ := double_term_step hs hx hd hacc
          (lt_of_le_of_lt q1 hB53) (by linarith) (by linarith)
        exact ⟨⟨e1, e2, e3⟩, _, e4, q3⟩
      have hpart : ∀ J, J ≤ k + 3 → ∃ s : ℤ,
          (forLoop J (fun j acc => acc + sign j * getCell m 0 j * D j) 0).val = s ∧
            |s| ≤ (J : ℤ) * ((B : ℤ) * (c : ℤ)) := by
        intro J
        induction J with
        | zero =>
          intro _
          exact ⟨0, double_zero_val, by simp⟩
        | succ J ihJ =>
          intro hJ
          obtain ⟨s, hs, bs⟩ := ihJ (by omega)
          obtain ⟨_, z, hz, bz⟩ := hstep J (by omega) _ s hs bs
          exact ⟨z, hz, bz⟩
      refine ⟨?_, ?_⟩
      · intro j hj
        refine ⟨(hmin j hj).1, ?_⟩
        intro det d hdet hd
        rw [detPartial_eq k m hm D (fun j _ => hD j) j (by omega)] at hdet
        rw [hD j] at hd
        cases hdet
        cases hd
        obtain ⟨s, hs, bs⟩ := hpart j (by omega)
        exact (hstep j hj _ s hs bs).1
      · obtain ⟨s, hs, bs⟩ := hpart (k + 3) (Nat.le_refl _)
        refine ⟨_, s, detAux_expansion k m hm D (fun j _ => hD j), hs, ?_⟩
        rw [hfac]
        push_cast
        push_cast at bs
        exact bs

end DoubleDeterminant

end squaremat

namespace squaremat

section LeibnizLemmas

variable {α : Type} {R : Type}

theorem values_toMatrix [Zero α] [Zero R] (val : α → R) (h0 : val 0 = 0) (a : SquareMat α) :
    (a.values val).toMatrix = fun (i j : Fin a.size) => val (getCell a.matrix i j) := by
  funext i j
  exact getCell_values val h0 a.matrix i j

theorem leibniz_eq_det [CommRing R] (a : SquareMat R) : a.leibniz = Matrix.det a.toMatrix :=
  (Matrix.det_apply a.toMatrix).symm

/-- On `double` cells holding integers of magnitude at most `B`, with
`n! * B^n < 2^53`, the run of `operator!` is exact and returns the determinant. -/
theorem double_int_determinant (B : ℕ) (a : SquareMat Double) (ha : a.WF)
    (hB : a.size.factorial * B ^ a.size < 2 ^ 53)
    (hc : ∀ i j, i < a.size → j < a.size →
      ∃ z : ℤ, (getCell a.matrix i j).val = z ∧ |z| ≤ (B : ℤ)) :
    detExact Double.val a.size a.matrix ∧
      ∃ d, a.determinant = .ok d ∧
        d.val = Matrix.det (fun (i j : Fin a.size) => (getCell a.matrix i j).val) := by
  obtain ⟨hex, _⟩ := detAux_double_int B a.size a.matrix ha.1 ha.2 hB hc
  exact ⟨hex, detAux_val_eq_det Double.val rfl rfl rfl a.size a.matrix ha.1 ha.2 hex⟩

theorem int_log_two_eq (q : ℚ) (e : ℤ) (hq : 0 < q) (h1 : ((2 : ℕ) : ℚ) ^ e ≤ q)
    (h2 : q < ((2 : ℕ) : ℚ) ^ (e + 1)) : Int.log 2 q = e := by
  have a1 : e ≤ Int.log 2 q := (Int.zpow_le_iff_le_log (by norm_num) hq).mp h1
  have a2 : Int.log 2 q < e + 1 := (Int.lt_zpow_iff_log_lt (by norm_num) hq).mp h2
  omega

/-- In `double`, `(2^27 + 1)^2 = 2^54 + 2^28 + 1` rounds to `2^54 + 2^28`. -/
theorem roundDouble_square : roundDouble (18014398777917441 : ℚ) = 18014398777917440 := by
  have habs : |(18014398777917441 : ℚ)| = 18014398777917441 := abs_of_pos (by norm_num)
  have hlog : Int.log 2 (18014398777917441 : ℚ) = 54 :=
    int_log_two_eq _ 54 (by norm_num) (by norm_num) (by norm_num)
  have hfl : ⌊((18014398777917441 : ℚ) / 2 ^ ((54 : ℤ) - 52))⌋ = 4503599694479360 := by
    rw [Int.floor_eq_iff]
    norm_num
  unfold roundDouble
  rw [if_neg (by norm_num), habs, hlog]
  unfold roundTiesEven
  rw [hfl, if_pos (by norm_num)]
  norm_num

/-- The value `2^54 + 2^28` is a `double`. -/
theorem roundDouble_square_rounded :
    roundDouble (18014398777917440 : ℚ) = 18014398777917440 := by
  have habs : |(18014398777917440 : ℚ)| = 18014398777917440 := abs_of_pos (by norm_num)
  have hlog : Int.log 2 (18014398777917440 : ℚ) = 54 :=
    int_log_two_eq _ 54 (by norm_num) (by norm_num) (by norm_num)
  have hfl : ⌊((18014398777917440 : ℚ) / 2 ^ ((54 : ℤ) - 52))⌋ = 4503599694479360 := by
    rw [Int.floor_eq_iff]
    norm_num
  unfold roundDouble
  rw [if_neg (by norm_num), habs, hlog]
  unfold roundTiesEven
  rw [hfl, if_pos (by norm_num)]
  norm_num

theorem double_example_two :
    SquareMat.determinant (⟨2, [[⟨4⟩, ⟨3⟩], [⟨2⟩, ⟨1⟩]]⟩ : SquareMat Double) = .ok ⟨-2⟩ := by
  obtain ⟨_, d, hd, hv⟩ := double_int_determinant 4
    (⟨2, [[⟨4⟩, ⟨3⟩], [⟨2⟩, ⟨1⟩]]⟩ : SquareMat Double) ⟨by decide, by decide, by decide⟩
    (by norm_num [Nat.factorial])
    (by
      intro i j hi hj
      have hi2 : i < 2 := hi
      have hj2 : j < 2 := hj
      refine ⟨getCell ([[4, 3], [2, 1]] : List (List ℤ)) i j, ?_, ?_⟩ <;>
        interval_cases i <;> interval_cases j <;> norm_num [getCell])
  rw [hd]
  congr 1
  apply double_ext
  rw [hv]
  show Matrix.det (fun (i j : Fin 2) =>
    (getCell ([[⟨4⟩, ⟨3⟩], [⟨2⟩, ⟨1⟩]] : List (List Double)) i j).val) = -2
  rw [Matrix.det_fin_two]
  norm_num [getCell]

theorem double_example_singular :
    SquareMat.determinant
        (⟨3, [[⟨1⟩, ⟨2⟩, ⟨3⟩], [⟨4⟩, ⟨5⟩, ⟨6⟩], [⟨7⟩, ⟨8⟩, ⟨9⟩]]⟩ : SquareMat Double)
      = .ok ⟨0⟩ := by
  obtain ⟨_, d, hd, hv⟩ := double_int_determinant 9
    (⟨3, [[⟨1⟩, ⟨2⟩, ⟨3⟩], [⟨4⟩, ⟨5⟩, ⟨6⟩], [⟨7⟩, ⟨8⟩, ⟨9⟩]]⟩ : SquareMat Double)
    ⟨by decide, by decide, by decide⟩ (by norm_num [Nat.factorial])
    (by
      intro i j hi hj
      have hi2 : i < 3 := hi
      have hj2 : j < 3 := hj
      refine ⟨getCell ([[1, 2, 3], [4, 5, 6], [7, 8, 9]] : List (List ℤ)) i j, ?_, ?_⟩ <;>
        interval_cases i <;> interval_cases j <;> norm_num [getCell])
  rw [hd]
  congr 1
  apply double_ext
  rw [hv]
  show Matrix.det (fun (i j : Fin 3) =>
    (getCell ([[⟨1⟩, ⟨2⟩, ⟨3⟩], [⟨4⟩, ⟨5⟩, ⟨6⟩], [⟨7⟩, ⟨8⟩, ⟨9⟩]] : List (List Double))
      i j).val) = 0
  rw [Matrix.det_fin_three]
  norm_num [getCell]

theorem double_example_three_cells :
    ∀ i j, i < 3 → j < 3 →
      ∃ z : ℤ,
        (getCell ([[⟨2⟩, ⟨-3⟩, ⟨1⟩], [⟨2⟩, ⟨0⟩, ⟨-1⟩], [⟨1⟩, ⟨4⟩, ⟨5⟩]] : List (List Double))
          i j).val = z ∧ |z| ≤ ((5 : ℕ) : ℤ) := by
  intro i j hi hj
  refine ⟨getCell ([[2, -3, 1], [2, 0, -1], [1, 4, 5]] : List (List ℤ)) i j, ?_, ?_⟩ <;>
    interval_cases i <;> interval_cases j <;> norm_num [getCell]

theorem double_example_three :
    SquareMat.determinant
        (⟨3, [[⟨2⟩, ⟨-3⟩, ⟨1⟩], [⟨2⟩, ⟨0⟩, ⟨-1⟩], [⟨1⟩, ⟨4⟩, ⟨5⟩]]⟩ : SquareMat Double)
      = .ok ⟨49⟩ := by
  obtain ⟨_, d, hd, hv⟩ := double_int_determinant 5
    (⟨3, [[⟨2⟩, ⟨-3⟩, ⟨1⟩], [⟨2⟩, ⟨0⟩, ⟨-1⟩], [⟨1⟩, ⟨4⟩, ⟨5⟩]]⟩ : SquareMat Double)
    ⟨by decide, by decide, by decide⟩ (by norm_num [Nat.factorial])
    double_example_three_cells
  rw [hd]
  congr 1
  apply double_ext
  rw [hv]
  show Matrix.det (fun (i j : Fin 3) =>
    (getCell ([[⟨2⟩, ⟨-3⟩, ⟨1⟩], [⟨2⟩, ⟨0⟩, ⟨-1⟩], [⟨1⟩, ⟨4⟩, ⟨5⟩]] : List (List Double))
      i j).val) = 49
  rw [Matrix.det_fin_three]
  norm_num [getCell]

end LeibnizLemmas

section LeibnizDeterminant

variable {α : Type} {R : Type}

/-- C2, as stated, fails on `double` cells: on the matrix `[[2^27+1, 0], [0, 2^27+1]]`,
whose cells are `double`s, `operator!` returns `2^54 + 2^28` (the product
`(2^27+1) * (2^27+1)` is rounded), and the Leibniz determinant of the matrix of its cells
is `2^54 + 2^28 + 1`. -/
theorem determinant_leibniz_double :
    SquareMat.WF (⟨2, [[⟨2 ^ 27 + 1⟩, ⟨0⟩], [⟨0⟩, ⟨2 ^ 27 + 1⟩]]⟩ : SquareMat Double) ∧
      roundDouble (2 ^ 27 + 1) = 2 ^ 27 + 1 ∧
      SquareMat.determinant
          (⟨2, [[⟨2 ^ 27 + 1⟩, ⟨0⟩], [⟨0⟩, ⟨2 ^ 27 + 1⟩]]⟩ : SquareMat Double)
        = .ok ⟨18014398777917440⟩ ∧
      SquareMat.leibniz
          (SquareMat.values Double.val
            (⟨2, [[⟨2 ^ 27 + 1⟩, ⟨0⟩], [⟨0⟩, ⟨2 ^ 27 + 1⟩]]⟩ : SquareMat Double))
        = 18014398777917441 ∧
      ¬ ∃ d,
        SquareMat.determinant
            (⟨2, [[⟨2 ^ 27 + 1⟩, ⟨0⟩], [⟨0⟩, ⟨2 ^ 27 + 1⟩]]⟩ : SquareMat Double) = .ok d ∧
          d.val = SquareMat.leibniz
            (SquareMat.values Double.val
              (⟨2, [[⟨2 ^ 27 + 1⟩, ⟨0⟩], [⟨0⟩, ⟨2 ^ 27 + 1⟩]]⟩ : SquareMat Double)) := by
  have hcell : roundDouble (2 ^ 27 + 1) = 2 ^ 27 + 1 := by
    have e : (2 : ℚ) ^ 27 + 1 = ((134217729 : ℤ) : ℚ) := by norm_num
    rw [e]
    exact roundDouble_intCast _ (by norm_num)
  have hdet : SquareMat.determinant
      (⟨2, [[⟨2 ^ 27 + 1⟩, ⟨0⟩], [⟨0⟩, ⟨2 ^ 27 + 1⟩]]⟩ : SquareMat Double)
      = .ok ⟨18014398777917440⟩ := by
    show (Except.ok (⟨roundDouble (roundDouble ((2 ^ 27 + 1) * (2 ^ 27 + 1))
      - roundDouble (0 * 0))⟩ : Double) : Except Error Double) = _
    have e1 : ((2 : ℚ) ^ 27 + 1) * (2 ^ 27 + 1) = 18014398777917441 := by norm_num
    have e2 : (18014398777917440 : ℚ) - 0 = 18014398777917440 := by norm_num
    rw [e1, roundDouble_square, mul_zero, roundDouble_zero, e2, roundDouble_square_rounded]
  have hleib : SquareMat.leibniz
      (SquareMat.values Double.val
        (⟨2, [[⟨2 ^ 27 + 1⟩, ⟨0⟩], [⟨0⟩, ⟨2 ^ 27 + 1⟩]]⟩ : SquareMat Double))
      = 18014398777917441 := by
    rw [leibniz_eq_det]
    show Matrix.det (fun (i j : Fin 2) =>
      getCell ([[2 ^ 27 + 1, 0], [0, 2 ^ 27 + 1]] : List (List ℚ)) i j) = _
    rw [Matrix.det_fin_two]
    norm_num [getCell]
  refine ⟨⟨by decide, by decide, by decide⟩, hcell, hdet, hleib, ?_⟩
  rintro ⟨d, hd, hv⟩
  rw [hdet] at hd
  cases hd
  rw [hleib] at hv
  norm_num at hv

/-- C2, amended: for every matrix `a` of any order `n >= 1`, when the run of `operator!`
on `a` is exact (every product, difference and sum it computes has as value the product,
difference and sum of the values of its operands, the constants `0`, `1` and `-1` having
the values 0, 1 and -1), `operator!` returns a cell whose value is the Leibniz-formula
determinant of the matrix of the values of the cells of `a`, which is the determinant
`Matrix.det`.  The run is exact on every matrix `c` whose cells are
exact numbers, and on every matrix `b` of `double` cells that hold integers of magnitude
at most `B` with `n! * B^n < 2^53`.  In `double` arithmetic, `det([[4,3],[2,1]]) = -2`,
`det([[1,2,3],[4,5,6],[7,8,9]]) = 0` and `det([[2,-3,1],[2,0,-1],[1,4,5]]) = 49`. -/
theorem determinant_eq_leibniz [Zero α] [One α] [Add α] [Sub α] [Mul α] [Neg α]
    [CommRing R] (val : α → R) (h0 : val 0 = 0) (h1 : val 1 = 1) (hneg : val (-1) = -1)
    (a : SquareMat α) (ha : a.WF) (hex : detExact val a.size a.matrix) :
    (∃ d, a.determinant = .ok d ∧ val d = (a.values val).leibniz) ∧
      (a.values val).leibniz = Matrix.det (a.values val).toMatrix ∧
      (∀ c : SquareMat R, detExact (fun x : R => x) c.size c.matrix) ∧
      (∀ (B : ℕ) (b : SquareMat Double), b.WF → b.size.factorial * B ^ b.size < 2 ^ 53 →
        (∀ i j, i < b.size → j < b.size →
          ∃ z : ℤ, (getCell b.matrix i j).val = z ∧ |z| ≤ (B : ℤ)) →
        detExact Double.val b.size b.matrix) ∧
      SquareMat.determinant (⟨2, [[⟨4⟩, ⟨3⟩], [⟨2⟩, ⟨1⟩]]⟩ : SquareMat Double) = .ok ⟨-2⟩ ∧
      SquareMat.determinant
          (⟨3, [[⟨1⟩, ⟨2⟩, ⟨3⟩], [⟨4⟩, ⟨5⟩, ⟨6⟩], [⟨7⟩, ⟨8⟩, ⟨9⟩]]⟩ : SquareMat Double)
        = .ok ⟨0⟩ ∧
      SquareMat.determinant
          (⟨3, [[⟨2⟩, ⟨-3⟩, ⟨1⟩], [⟨2⟩, ⟨0⟩, ⟨-1⟩], [⟨1⟩, ⟨4⟩, ⟨5⟩]]⟩ : SquareMat Double)
        = .ok ⟨49⟩ := by
  refine ⟨?_, leibniz_eq_det _, fun c => detExact_id c.size c.matrix,
    fun B b hb hB hc => (double_int_determinant B b hb hB hc).1,
    double_example_two, double_example_singular, double_example_three⟩
  obtain ⟨d, hd, hv⟩ := detAux_val_eq_det val h0 h1 hneg a.size a.matrix ha.1 ha.2 hex
  refine ⟨d, hd, ?_⟩
  rw [leibniz_eq_det, values_toMatrix val h0 a]
  exact hv

/-- Witness for C2, amended: `[[2,-3,1],[2,0,-1],[1,4,5]]` with `double` cells, on which
no operation of the run rounds, and with integer cells, the value of a cell being the
cell. -/
theorem determinant_eq_leibniz_witness :
    (∃ d,
        SquareMat.determinant
            (⟨3, [[⟨2⟩, ⟨-3⟩, ⟨1⟩], [⟨2⟩, ⟨0⟩, ⟨-1⟩], [⟨1⟩, ⟨4⟩, ⟨5⟩]]⟩ : SquareMat Double)
          = .ok d ∧
        d.val = SquareMat.leibniz
          (SquareMat.values Double.val
            (⟨3, [[⟨2⟩, ⟨-3⟩, ⟨1⟩], [⟨2⟩, ⟨0⟩, ⟨-1⟩], [⟨1⟩, ⟨4⟩, ⟨5⟩]]⟩ :
              SquareMat Double))) ∧
      (∃ d,
        SquareMat.determinant (⟨3, [[2, -3, 1], [2, 0, -1], [1, 4, 5]]⟩ : SquareMat Int)
          = .ok d ∧
        d = SquareMat.leibniz
          (SquareMat.values (fun x : Int => x)
            (⟨3, [[2, -3, 1], [2, 0, -1], [1, 4, 5]]⟩ : SquareMat Int))) :=
  ⟨(determinant_eq_leibniz Double.val rfl rfl rfl
      (⟨3, [[⟨2⟩, ⟨-3⟩, ⟨1⟩], [⟨2⟩, ⟨0⟩, ⟨-1⟩], [⟨1⟩, ⟨4⟩, ⟨5⟩]]⟩ : SquareMat Double)
      ⟨by decide, by decide, by decide⟩
      (double_int_determinant 5 _ ⟨by decide, by decide, by decide⟩
        (by norm_num [Nat.factorial]) double_example_three_cells).1).1,
    (determinant_eq_leibniz (fun x : Int => x) rfl rfl rfl
      (⟨3, [[2, -3, 1], [2, 0, -1], [1, 4, 5]]⟩ : SquareMat Int)
      ⟨by decide, by decide, by decide⟩ (detExact_id _ _)).1⟩

end LeibnizDeterminant

end squaremat
